import Mathlib

/-!
# GenericNptAlg: the generic multi-tree depth-first recursion

Shallow embedding of `src/contrib/march/n_point/generic_npt_alg_impl.h`
(`CanPrune_`, `BaseCase_`, `DepthFirstRecursion_`, `Compute`).

The class `NodeTuple` and the template parameter `TMatcher` are not declared in
that file; the engine is embedded over their interfaces (`NodeTupleOps`,
`TMatcher`).  Mutable members are threaded explicitly; a matcher call returns
the matcher's new state together with either its value or a fault (a C++
exception), and the engine propagates a fault by returning at once.  The
recursion is bounded by an explicit `fuel` (maximal call depth).

A ghost log records, in program order, every call the engine makes.

Statements about what the node tuples and the matcher themselves do (slots and
multiplicities, the symmetry rule, counting of matches) are made on models of
these collaborators written from the spec; each such definition says so.
-/

namespace npt

/-- How a `DepthFirstRecursion_` call that returned normally went: it ran a base
case, it counted a prune, or it took the split branch and recursed into the
sides marked `true`. -/
inductive CallKind where
  | base
  | prune
  | split (left right : Bool)
  deriving DecidableEq, Repr

/-- Whether a call of that kind made at least one recursive call. -/
def CallKind.recursed : CallKind → Bool
  | .base => false
  | .prune => false
  | .split l r => l || r

/-- Ghost events, one per call the engine makes. -/
inductive Event (NT : Type) where
  /-- Entry of `DepthFirstRecursion_(nodes)`. -/
  | enter (nodes : NT)
  /-- Call of `matcher_.ComputeBaseCase(nodes)`; `faulted` tells whether the call
  raised a fault. -/
  | computeBaseCase (nodes : NT) (faulted : Bool)
  /-- Call of `matcher_.TestNodeTuple(nodes)`; `answer` is the value returned,
  `none` when the call raised a fault. -/
  | testNodeTuple (nodes : NT) (answer : Option Bool)
  /-- Call of `nodes.CheckSymmetry(ind, is_left)` and its answer. -/
  | checkSymmetry (nodes : NT) (ind : Nat) (is_left : Bool) (answer : Bool)
  /-- Construction of the child tuple `NodeTuple(parent, is_left)`. -/
  | construct (parent : NT) (is_left : Bool)
  /-- Normal return of `DepthFirstRecursion_(nodes)`. -/
  | leave (nodes : NT) (kind : CallKind)
  deriving DecidableEq, Repr

/-- Interface of `NodeTuple` as used by the engine (the class itself is declared
elsewhere).  `Construct` is `NodeTuple(trees_)`, which may reject the
configuration; `child` is `NodeTuple(parent, is_left)`. -/
structure NodeTupleOps (Trees NT E : Type) where
  Construct : Trees → Except E NT
  child : NT → Bool → NT
  all_leaves : NT → Bool
  ind_to_split : NT → Nat
  CheckSymmetry : NT → Nat → Bool → Bool

/-- Interface of the template parameter `TMatcher`, over matcher states `M`.
Each call yields the matcher's state after the call and either the value or a
fault. -/
structure TMatcher (NT M F : Type) where
  TestNodeTuple : NT → M → M × Except F Bool
  ComputeBaseCase : NT → M → M × Option F

/-- How a run ended. -/
inductive Outcome (F E : Type) where
  | returned
  | fault (f : F)
  | configError (e : E)
  | outOfFuel
  deriving DecidableEq, Repr

/-- The members of `GenericNptAlg<TMatcher>` read or written by the file, and the
ghost log.  The counters are unbounded naturals. -/
structure GenericNptAlg (Trees NT M : Type) where
  matcher_ : M
  trees_ : Trees
  num_prunes_ : Nat
  num_base_cases_ : Nat
  do_naive_ : Bool
  log : List (Event NT)
  deriving DecidableEq, Repr

variable {Trees NT M F E : Type}

/-- Append one ghost event. -/
def GenericNptAlg.record (s : GenericNptAlg Trees NT M) (e : Event NT) :
    GenericNptAlg Trees NT M :=
  { s with log := s.log ++ [e] }

/-- Modelled from the spec: the constructor of `GenericNptAlg` (not in the source
file): it binds trees, matcher and naive flag, and resets both counters. -/
def GenericNptAlg.fresh (trees : Trees) (matcher : M) (do_naive : Bool) :
    GenericNptAlg Trees NT M :=
  { matcher_ := matcher, trees_ := trees, num_prunes_ := 0, num_base_cases_ := 0,
    do_naive_ := do_naive, log := [] }

/-- Source `CanPrune_`: `return !(matcher_.TestNodeTuple(nodes));`.  The call is
logged with its answer. -/
def CanPrune_ (mt : TMatcher NT M F) (nodes : NT) (s : GenericNptAlg Trees NT M) :
    GenericNptAlg Trees NT M × Except F Bool :=
  let r := mt.TestNodeTuple nodes s.matcher_
  ({ s with matcher_ := r.1,
             log := s.log ++ [Event.testNodeTuple nodes
               (match r.2 with
                | .ok b => some b
                | .error _ => none)] },
    match r.2 with
    | .ok b => .ok (!b)
    | .error f => .error f)

/-- Source `BaseCase_`: `matcher_.ComputeBaseCase(nodes);`.  The call is logged. -/
def BaseCase_ (mt : TMatcher NT M F) (nodes : NT) (s : GenericNptAlg Trees NT M) :
    GenericNptAlg Trees NT M × Option F :=
  let r := mt.ComputeBaseCase nodes s.matcher_
  ({ s with matcher_ := r.1,
             log := s.log ++ [Event.computeBaseCase nodes r.2.isSome] }, r.2)

/-- Sequencing of statements: continue after a normal return, stop at once on
anything else. -/
def andThen (r : GenericNptAlg Trees NT M × Outcome F E)
    (k : GenericNptAlg Trees NT M → GenericNptAlg Trees NT M × Outcome F E) :
    GenericNptAlg Trees NT M × Outcome F E :=
  match r with
  | (s, .returned) => k s
  | (s, o) => (s, o)

/-- One side of the split branch of `DepthFirstRecursion_`:
`if (nodes.CheckSymmetry(nodes.ind_to_split(), is_left)) { NodeTuple child(nodes, is_left);
DepthFirstRecursion_(child); }`, with `recur` the recursive call. -/
def recurseSide (ops : NodeTupleOps Trees NT E)
    (recur : NT → GenericNptAlg Trees NT M → GenericNptAlg Trees NT M × Outcome F E)
    (nodes : NT) (is_left : Bool) (s : GenericNptAlg Trees NT M) :
    GenericNptAlg Trees NT M × Outcome F E :=
  let s1 := s.record (.checkSymmetry nodes (ops.ind_to_split nodes) is_left
    (ops.CheckSymmetry nodes (ops.ind_to_split nodes) is_left))
  if ops.CheckSymmetry nodes (ops.ind_to_split nodes) is_left then
    recur (ops.child nodes is_left) (s1.record (.construct nodes is_left))
  else (s1, .returned)

/-- Source `DepthFirstRecursion_`, with call depth bounded by the fuel: base case
and `num_base_cases_++` on an all-leaves tuple, else `num_prunes_++` when
`CanPrune_`, else the left side and then the right side. -/
def DepthFirstRecursion_ (ops : NodeTupleOps Trees NT E) (mt : TMatcher NT M F) :
    Nat → NT → GenericNptAlg Trees NT M → GenericNptAlg Trees NT M × Outcome F E
  | 0, _, s => (s, .outOfFuel)
  | fuel + 1, nodes, s =>
    let s0 := s.record (.enter nodes)
    if ops.all_leaves nodes then
      match BaseCase_ mt nodes s0 with
      | (s1, some f) => (s1, .fault f)
      | (s1, none) =>
        (({ s1 with num_base_cases_ := s1.num_base_cases_ + 1 }).record
          (.leave nodes .base), .returned)
    else
      match CanPrune_ mt nodes s0 with
      | (s1, .error f) => (s1, .fault f)
      | (s1, .ok true) =>
        (({ s1 with num_prunes_ := s1.num_prunes_ + 1 }).record
          (.leave nodes .prune), .returned)
      | (s1, .ok false) =>
        andThen (recurseSide ops (DepthFirstRecursion_ ops mt fuel) nodes true s1) fun s2 =>
        andThen (recurseSide ops (DepthFirstRecursion_ ops mt fuel) nodes false s2) fun s3 =>
        (s3.record (.leave nodes
          (.split (ops.CheckSymmetry nodes (ops.ind_to_split nodes) true)
                  (ops.CheckSymmetry nodes (ops.ind_to_split nodes) false))), .returned)

/-- Source `Compute`: build the root tuple from `trees_`, then run the base case on it
(naive mode) or start the recursion. -/
def Compute (ops : NodeTupleOps Trees NT E) (mt : TMatcher NT M F) (fuel : Nat)
    (s : GenericNptAlg Trees NT M) : GenericNptAlg Trees NT M × Outcome F E :=
  match ops.Construct s.trees_ with
  | .error e => (s, .configError e)
  | .ok nodes =>
    if s.do_naive_ then
      match BaseCase_ mt nodes s with
      | (s1, some f) => (s1, .fault f)
      | (s1, none) => (s1, .returned)
    else
      DepthFirstRecursion_ ops mt fuel nodes s

/-- The same engine with counters `p`, `b` and log `l` put in front. -/
def GenericNptAlg.shift (p b : Nat) (l : List (Event NT)) (s : GenericNptAlg Trees NT M) :
    GenericNptAlg Trees NT M :=
  { s with num_prunes_ := p + s.num_prunes_, num_base_cases_ := b + s.num_base_cases_,
           log := l ++ s.log }

/-- Whether the event is a matcher call that raised a fault. -/
def Event.faulted : Event NT → Bool
  | .computeBaseCase _ faulted => faulted
  | .testNodeTuple _ none => true
  | _ => false

/-- Whether the event is the normal return of a `DepthFirstRecursion_` call whose
kind satisfies `k`. -/
def Event.isLeave (k : CallKind → Bool) : Event NT → Bool
  | .leave _ kind => k kind
  | _ => false

/-- Number of `DepthFirstRecursion_` calls in the log that returned with a kind
satisfying `k`. -/
def numCalls (k : CallKind → Bool) (log : List (Event NT)) : Nat :=
  log.countP (Event.isLeave k)

/-- The event is a matcher call that raised the fault `f` and left the matcher in
state `m'`. -/
def RaisedBy (mt : TMatcher NT M F) (e : Event NT) (f : F) (m' : M) : Prop :=
  ∃ t m, (e = .computeBaseCase t true ∧ mt.ComputeBaseCase t m = (m', some f)) ∨
         (e = .testNodeTuple t none ∧ mt.TestNodeTuple t m = (m', .error f))

/-- What a run that appended the events `new` and ended as `r` must look like
with respect to faults: a run ending in a fault has the faulting matcher call as
its last event and no faulted call before it; any other run has no faulted
call at all. -/
def FaultLast (mt : TMatcher NT M F) (new : List (Event NT))
    (r : GenericNptAlg Trees NT M × Outcome F E) : Prop :=
  match r.2 with
  | .fault f => ∃ pre e, new = pre ++ [e] ∧ (∀ e' ∈ pre, e'.faulted = false) ∧
      RaisedBy mt e f r.1.matcher_
  | _ => ∀ e ∈ new, e.faulted = false

/-- Both counters agree with the log: each counts the calls that returned as a
base case, respectively as a prune. -/
def Counted (s : GenericNptAlg Trees NT M) : Prop :=
  s.num_base_cases_ = numCalls (fun k => decide (k = .base)) s.log ∧
  s.num_prunes_ = numCalls (fun k => decide (k = .prune)) s.log

/-! ## The collaborators, modelled from the spec

`NodeTuple`, the tree nodes and the matchers are declared outside the source
file.  The definitions below follow the spec's sections 3, 4.1 and 4.2. -/

variable {P : Type}

/-- Modelled from the spec: a tree node (the node class is not in the source):
it has a leaf predicate and, when it is not a leaf, exactly two children.  The
points of the point set are kept at the leaves. -/
inductive NptNode (P : Type) where
  | leaf (points : List P)
  | inner (left right : NptNode P)
  deriving DecidableEq, Repr

/-- Leaf predicate of a node. -/
def NptNode.is_leaf : NptNode P → Bool
  | .leaf _ => true
  | .inner _ _ => false

/-- The points below a node, in tree-traversal order. -/
def NptNode.points : NptNode P → List P
  | .leaf ps => ps
  | .inner l r => l.points ++ r.points

/-- Height of a node: 0 for a leaf. -/
def NptNode.height : NptNode P → Nat
  | .leaf _ => 0
  | .inner l r => max l.height r.height + 1

/-- Number of leaves below a node. -/
def NptNode.numLeaves : NptNode P → Nat
  | .leaf _ => 1
  | .inner l r => l.numLeaves + r.numLeaves

/-- Modelled from the spec: a slot entry of a `NodeTuple`: a reference to a node
of one of the configured trees.  `tree` is the position of the tree in the
configuration, `path` the way from its root to the node (`true` is left),
`begin` the traversal rank of the node's first point, `node` the node. -/
structure Slot (P : Type) where
  tree : Nat
  path : List Bool
  begin : Nat
  node : NptNode P
  deriving DecidableEq, Repr

/-- Traversal rank just past the node's last point. -/
def Slot.stop (sl : Slot P) : Nat := sl.begin + sl.node.points.length

/-- Modelled from the spec: a slot of the child tuple: the slot moved to its
node's left (`is_left`) or right child.  A leaf has no child; the slot is then
left as it is. -/
def Slot.child (sl : Slot P) (is_left : Bool) : Slot P :=
  match sl.node with
  | .leaf _ => sl
  | .inner l r =>
    if is_left then { sl with path := sl.path ++ [true], node := l }
    else { sl with path := sl.path ++ [false], begin := sl.begin + l.points.length, node := r }

/-- Modelled from the spec: the slots of the child tuple: the slot at position
`ind` is replaced by its child on the given side; all other slots are
unchanged. -/
def childAt : List (Slot P) → Nat → Bool → List (Slot P)
  | [], _, _ => []
  | sl :: rest, 0, is_left => sl.child is_left :: rest
  | sl :: rest, ind + 1, is_left => sl :: childAt rest ind is_left

/-- Modelled from the spec: `NodeTuple` (the class is not in the source): an
ordered sequence of slot entries. -/
structure NodeTuple (P : Type) where
  slots : List (Slot P)
  deriving DecidableEq, Repr

/-- Modelled from the spec: `all_leaves()` is true iff every slot holds a leaf. -/
def NodeTuple.all_leaves (t : NodeTuple P) : Bool :=
  t.slots.all fun sl => sl.node.is_leaf

/-- Modelled from the spec: `Construct(parent, side)`: copy the parent's slots and
replace the slot at the split target by that node's left or right child. -/
def NodeTuple.child (t : NodeTuple P) (ind : Nat) (is_left : Bool) : NodeTuple P :=
  ⟨childAt t.slots ind is_left⟩

/-- Modelled from the spec: one fixed split-target rule among those the spec
allows: the lowest-index slot that is not a leaf. -/
def NodeTuple.firstNonLeaf (t : NodeTuple P) : Nat :=
  t.slots.findIdx fun sl => !sl.node.is_leaf

/-- Modelled from the spec: `check_symmetry(slot, side)`, by the rule the spec
gives as its example: slots tied to the same tree keep non-decreasing traversal
rank.  The child proposed for slot `ind` is refused when it lies wholly before
the node of an earlier slot of the same tree, or wholly after the node of a
later slot of the same tree.  A slot whose tree fills no other slot is never
refused. -/
def NodeTuple.CheckSymmetry (t : NodeTuple P) (ind : Nat) (is_left : Bool) : Bool :=
  match t.slots[ind]? with
  | none => true
  | some sl =>
    let c := sl.child is_left
    (t.slots.take ind).all (fun o => o.tree != c.tree || decide (o.begin < c.stop)) &&
    (t.slots.drop (ind + 1)).all (fun o => o.tree != c.tree || decide (c.begin < o.stop))

/-- Configuration errors reported by the root constructor. -/
inductive ConfigError where
  | zeroSlots
  | emptyTree
  deriving DecidableEq, Repr

/-- Modelled from the spec: the slots of the root tuple: the root of each tree,
repeated in consecutive slots as many times as the tree's multiplicity; `i` is
the position of the first listed tree.  A tree without root gives no slot. -/
def rootSlots : Nat → List (Option (NptNode P) × Nat) → List (Slot P)
  | _, [] => []
  | i, (none, _) :: rest => rootSlots (i + 1) rest
  | i, (some root, m) :: rest =>
    List.replicate m { tree := i, path := [], begin := 0, node := root } ++
      rootSlots (i + 1) rest

/-- Modelled from the spec: `Construct(trees, multiplicities)`: the root tuple of
a configuration, an ordered sequence of (tree, multiplicity) pairs, a tree being
its root or nothing when it is empty.  It fails when the slot count derived
from the multiplicities is zero or when a tree is empty. -/
def NodeTuple.Construct (config : List (Option (NptNode P) × Nat)) :
    Except ConfigError (NodeTuple P) :=
  if (config.map fun tm => tm.2).sum = 0 then .error .zeroSlots
  else if config.any (fun tm => tm.1.isNone) then .error .emptyTree
  else .ok ⟨rootSlots 0 config⟩

/-- Modelled from the spec: the spec's `NodeTuple` as the engine's node-tuple
interface, for a given split-target rule. -/
def specOps (split_target : NodeTuple P → Nat) :
    NodeTupleOps (List (Option (NptNode P) × Nat)) (NodeTuple P) ConfigError :=
  { Construct := NodeTuple.Construct
    child := fun t is_left => t.child (split_target t) is_left
    all_leaves := NodeTuple.all_leaves
    ind_to_split := split_target
    CheckSymmetry := NodeTuple.CheckSymmetry }

/-- Modelled from the spec: the candidates a slot offers to the base case: the
points below its node, each with the slot's tree and the point's traversal
rank. -/
def Slot.cands (sl : Slot P) : List (Nat × Nat × P) :=
  (sl.node.points.enumFrom sl.begin).map fun rp => (sl.tree, rp.1, rp.2)

/-- All ways to take one element from each list, in order. -/
def tuples {α : Type} : List (List α) → List (List α)
  | [] => [[]]
  | l :: L => l.flatMap fun a => (tuples L).map fun c => a :: c

/-- Modelled from the spec: a point combination respects the slot-tree symmetry
when entries of the same tree come in strictly increasing traversal rank: each
unordered set of points of a tree is then examined in one order only. -/
def canonical : List (Nat × Nat × P) → Bool
  | [] => true
  | a :: rest => rest.all (fun b => a.1 != b.1 || decide (a.2.1 < b.2.1)) && canonical rest

/-- Modelled from the spec: the point combinations of a tuple that the base case
examines: one point per slot, from the points below the slot's node,
respecting the symmetry. -/
def NodeTuple.combos (t : NodeTuple P) : List (List (Nat × Nat × P)) :=
  (tuples (t.slots.map Slot.cands)).filter canonical

/-- Modelled from the spec: what the base case adds for a tuple: the number of
its combinations that satisfy the matching criterion. -/
def matchCount (criterion : List P → Bool) (t : NodeTuple P) : Nat :=
  (t.combos.filter fun c => criterion (c.map fun e => e.2.2)).length

/-- Modelled from the spec: a matcher policy (the matchers are not in the source)
whose result state is a count of matches.  `compute_base_case` examines all
point combinations of the tuple and adds the matching ones to the count;
`test_node_tuple` answers by the given prune test and leaves the count alone.
Neither call faults. -/
def countingMatcher (F : Type) (criterion : List P → Bool) (test : NodeTuple P → Bool) :
    TMatcher (NodeTuple P) Nat F :=
  { TestNodeTuple := fun t m => (m, .ok (test t))
    ComputeBaseCase := fun t m => (m + matchCount criterion t, none) }

/-- Sum over the slots of the heights of the slot nodes. -/
def NodeTuple.heightSum (t : NodeTuple P) : Nat :=
  (t.slots.map fun sl => sl.node.height).sum

/-- The split-target rule never selects a leaf slot: on a tuple that is not
all-leaves it names a slot whose node is not a leaf. -/
def SplitsNonLeaf (split_target : NodeTuple P → Nat) : Prop :=
  ∀ t : NodeTuple P, t.all_leaves = false →
    ∃ sl, t.slots[split_target t]? = some sl ∧ sl.node.is_leaf = false

/-- The prune test is sound for the criterion: it never answers false on a tuple
that contains a matching point combination. -/
def SoundTest (criterion : List P → Bool) (test : NodeTuple P → Bool) : Prop :=
  ∀ t : NodeTuple P, test t = false → matchCount criterion t = 0

/-- The node reached from `n` along `path` (`true` is left), with the traversal
rank of its first point when the first point below `n` has rank `base`; nothing
when the path leaves the tree. -/
def locate : NptNode P → List Bool → Nat → Option (Nat × NptNode P)
  | n, [], base => some (base, n)
  | .leaf _, _ :: _, _ => none
  | .inner l _, true :: path, base => locate l path base
  | .inner l r, false :: path, base => locate r path (base + l.points.length)

/-- The slot is a reference into the tree `root` listed at position `i`: its node
is the one its path leads to, and `begin` is that node's first rank. -/
def RefersInto (root : NptNode P) (i : Nat) (sl : Slot P) : Prop :=
  sl.tree = i ∧ locate root sl.path 0 = some (sl.begin, sl.node)

/-- Slots of one tree are in canonical order: of two slots, at least one of them
below the root, the earlier one does not lie wholly after the later one. -/
def CanonicalOrder (t : NodeTuple P) : Prop :=
  t.slots.Pairwise fun a b => (a.path ≠ [] ∨ b.path ≠ []) → a.begin < b.stop

/-- Every slot of the tuple refers into the tree `root` listed at position `i`,
and the slots are in canonical order. -/
def WellFormed (root : NptNode P) (i : Nat) (t : NodeTuple P) : Prop :=
  (∀ sl ∈ t.slots, RefersInto root i sl) ∧ CanonicalOrder t

/-- Slot by slot, the node of `a` is the node of `t` or lies below it. -/
def Below (t a : NodeTuple P) : Prop :=
  a.slots.length = t.slots.length ∧
    ∀ (j : Nat) (x y : Slot P),
      t.slots[j]? = some x → a.slots[j]? = some y → x.path <+: y.path

/-- The tuples handed to the matcher's `ComputeBaseCase`, in order. -/
def baseCaseTuples (log : List (Event NT)) : List NT :=
  log.filterMap fun e =>
    match e with
    | .computeBaseCase t _ => some t
    | _ => none

/-- The base cases among the events `new` of a traversal started on `t`: each is
run on an all-leaves, well-formed tuple below `t`, and no two of them are run
on tuples that are slot permutations of one another (in particular no tuple is
handed over twice). -/
def Representatives (root : NptNode P) (i : Nat) (t : NodeTuple P)
    (new : List (Event (NodeTuple P))) : Prop :=
  (∀ a ∈ baseCaseTuples new, Below t a ∧ WellFormed root i a ∧ a.all_leaves = true) ∧
  (baseCaseTuples new).Pairwise fun a c => ¬ List.Perm a.slots c.slots

/-! ## Small concrete collaborators used in examples -/

/-- A node-tuple type with a single tuple, never all-leaves, whose
`CheckSymmetry` always gives the stated answer. -/
def stubOps (sym : Bool) : NodeTupleOps Unit Unit Unit :=
  { Construct := fun _ => .ok ()
    child := fun _ _ => ()
    all_leaves := fun _ => false
    ind_to_split := fun _ => 0
    CheckSymmetry := fun _ _ _ => sym }

/-- A matcher over the single-tuple type whose state counts its base cases and
whose prune test always gives the stated answer. -/
def stubMatcher (test : Bool) : TMatcher Unit Nat Unit :=
  { TestNodeTuple := fun _ m => (m, .ok test)
    ComputeBaseCase := fun _ m => (m + 1, none) }

/-- A matcher for the spec's node tuples whose prune test faults with `7` on
every tuple and whose base case faults with `9`, each after adding one to the
matcher's state. -/
def faultyMatcher : TMatcher (NodeTuple Nat) Nat Nat :=
  { TestNodeTuple := fun _ m => (m + 1, .error 7)
    ComputeBaseCase := fun _ m => (m + 1, some 9) }

/-- Sample tree over the points 10..14: two points left, then one and two. -/
def sampleTree : NptNode Nat :=
  .inner (.leaf [10, 11]) (.inner (.leaf [12]) (.leaf [13, 14]))

/-- Sample single-leaf tree holding the point 1. -/
def leafA : NptNode Nat := .leaf [1]

/-- Sample single-leaf tree holding the point 5. -/
def leafB : NptNode Nat := .leaf [5]

/-- Sample criterion: all points of the combination within distance `d` of each
other. -/
def within (d : Nat) : List Nat → Bool
  | [] => true
  | a :: rest => rest.all (fun b => decide ((a - b) + (b - a) ≤ d)) && within d rest

/-- The sharpest sound prune test for a criterion: it answers false exactly on
the tuples that hold no matching combination. -/
def exactTest (criterion : List P → Bool) (t : NodeTuple P) : Bool :=
  decide (matchCount criterion t ≠ 0)

/-- Sample tree with two far-apart halves: points 10, 11 and points 20, 21, one
point per leaf. -/
def splitTree : NptNode Nat :=
  .inner (.inner (.leaf [10]) (.leaf [11])) (.inner (.leaf [20]) (.leaf [21]))


/-! ## Further notions used by the statements on single calls and whole runs -/

/-- Two engine states agree on everything but the ghost log: same matcher state,
same counters, same configuration. -/
def SameButLog (a b : GenericNptAlg Trees NT M) : Prop :=
  a.matcher_ = b.matcher_ ∧ a.trees_ = b.trees_ ∧ a.num_prunes_ = b.num_prunes_ ∧
    a.num_base_cases_ = b.num_base_cases_ ∧ a.do_naive_ = b.do_naive_

/-- The engine state right after `DepthFirstRecursion_` entered `nodes` and the
prune test accepted it, leaving the matcher in state `m'`. -/
def afterTest (s : GenericNptAlg Trees NT M) (nodes : NT) (m' : M) :
    GenericNptAlg Trees NT M :=
  { s with matcher_ := m',
           log := s.log ++ [.enter nodes, .testNodeTuple nodes (some true)] }

/-- Sample tuple over the tree with two far-apart halves: slot 0 holds the leaf
with point 11, slot 1 the left half (points 10 and 11).  Moving slot 1 to its
left child would put it wholly before slot 0. -/
def lopsidedTuple : NodeTuple Nat :=
  ⟨[⟨0, [true, false], 1, .leaf [11]⟩, ⟨0, [true], 0, .inner (.leaf [10]) (.leaf [11])⟩]⟩

/-- Monitor of a log against the guards of `DepthFirstRecursion_`, given the
tuples `seen` on which the prune test has answered true so far: every base case
is run on an all-leaves tuple, every prune test is asked on a tuple that is not
all-leaves, and every child is constructed from a parent that is not all-leaves
and on which the prune test has answered true before. -/
def Guarded (ops : NodeTupleOps Trees NT E) : List NT → List (Event NT) → Prop
  | _, [] => True
  | seen, .computeBaseCase t _ :: rest => ops.all_leaves t = true ∧ Guarded ops seen rest
  | seen, .testNodeTuple t (some true) :: rest =>
    ops.all_leaves t = false ∧ Guarded ops (t :: seen) rest
  | seen, .testNodeTuple t _ :: rest => ops.all_leaves t = false ∧ Guarded ops seen rest
  | seen, .construct p _ :: rest =>
    ops.all_leaves p = false ∧ p ∈ seen ∧ Guarded ops seen rest
  | seen, _ :: rest => Guarded ops seen rest

/-- Modelled from the spec: the spec's node tuples as the engine's node-tuple
interface, with a given symmetry check in place of the example rule: the child
tuple is the parent with the split-target slot moved to its node's left or
right child. -/
def treeOps (split_target : NodeTuple P → Nat) (sym : NodeTuple P → Nat → Bool → Bool) :
    NodeTupleOps (List (Option (NptNode P) × Nat)) (NodeTuple P) ConfigError :=
  { Construct := NodeTuple.Construct
    child := fun t is_left => t.child (split_target t) is_left
    all_leaves := NodeTuple.all_leaves
    ind_to_split := split_target
    CheckSymmetry := sym }

/-- No call of the matcher raises a fault. -/
def NeverFaults (mt : TMatcher NT M F) : Prop :=
  ∀ t m, (mt.ComputeBaseCase t m).2 = none ∧ ∀ f, (mt.TestNodeTuple t m).2 ≠ .error f

/-- The leaves below a node, as slots: each with the way to it and the rank of
its first point, given the way to the node and the node's first rank. -/
def leavesOf (tree : Nat) : List Bool → Nat → NptNode P → List (Slot P)
  | path, first, .leaf ps => [⟨tree, path, first, .leaf ps⟩]
  | path, first, .inner l r =>
    leavesOf tree (path ++ [true]) first l ++
      leavesOf tree (path ++ [false]) (first + l.points.length) r

/-- The leaves below the node a slot holds. -/
def Slot.leaves (sl : Slot P) : List (Slot P) :=
  leavesOf sl.tree sl.path sl.begin sl.node

/-- The tuples that hold, in each slot, one leaf from below the slot's node: all
combinations of one leaf per slot. -/
def NodeTuple.leafTuples (t : NodeTuple P) : List (NodeTuple P) :=
  (tuples (t.slots.map Slot.leaves)).map NodeTuple.mk
/-! ## Frame: counters and log already present are carried along unchanged -/

theorem shift_record (p b : Nat) (l : List (Event NT)) (s : GenericNptAlg Trees NT M)
    (e : Event NT) : (s.shift p b l).record e = (s.record e).shift p b l := by
  simp [GenericNptAlg.shift, GenericNptAlg.record]

theorem BaseCase_shift (mt : TMatcher NT M F) (nodes : NT) (p b : Nat) (l : List (Event NT))
    (s : GenericNptAlg Trees NT M) :
    BaseCase_ mt nodes (s.shift p b l)
      = ((BaseCase_ mt nodes s).1.shift p b l, (BaseCase_ mt nodes s).2) := by
  simp [GenericNptAlg.shift, BaseCase_]

theorem CanPrune_shift (mt : TMatcher NT M F) (nodes : NT) (p b : Nat) (l : List (Event NT))
    (s : GenericNptAlg Trees NT M) :
    CanPrune_ mt nodes (s.shift p b l)
      = ((CanPrune_ mt nodes s).1.shift p b l, (CanPrune_ mt nodes s).2) := by
  simp [GenericNptAlg.shift, CanPrune_]

theorem andThen_shift (p b : Nat) (l : List (Event NT))
    (r : GenericNptAlg Trees NT M × Outcome F E)
    (k k' : GenericNptAlg Trees NT M → GenericNptAlg Trees NT M × Outcome F E)
    (hk : ∀ s, k' (s.shift p b l) = ((k s).1.shift p b l, (k s).2)) :
    andThen (r.1.shift p b l, r.2) k' = ((andThen r k).1.shift p b l, (andThen r k).2) := by
  rcases r with ⟨s, o⟩
  cases o <;> simp [andThen, hk]

theorem recurseSide_shift (ops : NodeTupleOps Trees NT E) (p b : Nat) (l : List (Event NT))
    (recur : NT → GenericNptAlg Trees NT M → GenericNptAlg Trees NT M × Outcome F E)
    (hr : ∀ nodes s, recur nodes (s.shift p b l)
      = ((recur nodes s).1.shift p b l, (recur nodes s).2))
    (nodes : NT) (is_left : Bool) (s : GenericNptAlg Trees NT M) :
    recurseSide ops recur nodes is_left (s.shift p b l)
      = ((recurseSide ops recur nodes is_left s).1.shift p b l,
         (recurseSide ops recur nodes is_left s).2) := by
  unfold recurseSide
  by_cases h : ops.CheckSymmetry nodes (ops.ind_to_split nodes) is_left = true
  · simp only [h, if_true, shift_record, hr]
  · simp only [h, if_false, Bool.false_eq_true, shift_record]

theorem DepthFirstRecursion_shift (ops : NodeTupleOps Trees NT E) (mt : TMatcher NT M F)
    (p b : Nat) (l : List (Event NT)) (fuel : Nat) (nodes : NT)
    (s : GenericNptAlg Trees NT M) :
    DepthFirstRecursion_ ops mt fuel nodes (s.shift p b l)
      = ((DepthFirstRecursion_ ops mt fuel nodes s).1.shift p b l,
         (DepthFirstRecursion_ ops mt fuel nodes s).2) := by
  induction fuel generalizing nodes s with
  | zero => simp [DepthFirstRecursion_]
  | succ fuel ih =>
    simp only [DepthFirstRecursion_, shift_record, BaseCase_shift, CanPrune_shift]
    by_cases hl : ops.all_leaves nodes = true
    · simp only [hl, if_true]
      rcases hb : BaseCase_ mt nodes (s.record (.enter nodes)) with ⟨s1, _ | f⟩
      · simp [GenericNptAlg.shift, GenericNptAlg.record, Nat.add_assoc]
      · simp
    · simp only [hl, if_false, Bool.false_eq_true]
      rcases hc : CanPrune_ mt nodes (s.record (.enter nodes)) with ⟨s1, f | _ | _⟩
      · simp
      · simp only [recurseSide_shift ops p b l _ ih]
        apply andThen_shift
        intro s2
        simp only [recurseSide_shift ops p b l _ ih]
        apply andThen_shift
        intro s3
        simp only [shift_record]
      · simp [GenericNptAlg.shift, GenericNptAlg.record, Nat.add_assoc]

/-! ## The branches of one call -/

/-- Base-case branch, the matcher returning normally. -/
theorem DepthFirstRecursion_base (ops : NodeTupleOps Trees NT E) (mt : TMatcher NT M F)
    (fuel : Nat) (nodes : NT) (s : GenericNptAlg Trees NT M)
    (hl : ops.all_leaves nodes = true)
    (hb : (mt.ComputeBaseCase nodes s.matcher_).2 = none) :
    DepthFirstRecursion_ ops mt (fuel + 1) nodes s
      = ({ s with matcher_ := (mt.ComputeBaseCase nodes s.matcher_).1,
                  num_base_cases_ := s.num_base_cases_ + 1,
                  log := s.log ++ [.enter nodes, .computeBaseCase nodes false,
                    .leave nodes .base] }, .returned) := by
  simp [DepthFirstRecursion_, hl, BaseCase_, hb, GenericNptAlg.record]

/-- Base-case branch, the matcher raising a fault. -/
theorem DepthFirstRecursion_base_fault (ops : NodeTupleOps Trees NT E)
    (mt : TMatcher NT M F) (fuel : Nat) (nodes : NT) (s : GenericNptAlg Trees NT M) (f : F)
    (hl : ops.all_leaves nodes = true)
    (hb : (mt.ComputeBaseCase nodes s.matcher_).2 = some f) :
    DepthFirstRecursion_ ops mt (fuel + 1) nodes s
      = ({ s with matcher_ := (mt.ComputeBaseCase nodes s.matcher_).1,
                  log := s.log ++ [.enter nodes, .computeBaseCase nodes true] },
         .fault f) := by
  simp [DepthFirstRecursion_, hl, BaseCase_, hb, GenericNptAlg.record]

/-- Prune branch. -/
theorem DepthFirstRecursion_prune (ops : NodeTupleOps Trees NT E) (mt : TMatcher NT M F)
    (fuel : Nat) (nodes : NT) (s : GenericNptAlg Trees NT M)
    (hl : ops.all_leaves nodes = false)
    (ht : (mt.TestNodeTuple nodes s.matcher_).2 = .ok false) :
    DepthFirstRecursion_ ops mt (fuel + 1) nodes s
      = ({ s with matcher_ := (mt.TestNodeTuple nodes s.matcher_).1,
                  num_prunes_ := s.num_prunes_ + 1,
                  log := s.log ++ [.enter nodes, .testNodeTuple nodes (some false),
                    .leave nodes .prune] }, .returned) := by
  simp [DepthFirstRecursion_, hl, CanPrune_, ht, GenericNptAlg.record]

/-- Prune test raising a fault. -/
theorem DepthFirstRecursion_test_fault (ops : NodeTupleOps Trees NT E)
    (mt : TMatcher NT M F) (fuel : Nat) (nodes : NT) (s : GenericNptAlg Trees NT M) (f : F)
    (hl : ops.all_leaves nodes = false)
    (ht : (mt.TestNodeTuple nodes s.matcher_).2 = .error f) :
    DepthFirstRecursion_ ops mt (fuel + 1) nodes s
      = ({ s with matcher_ := (mt.TestNodeTuple nodes s.matcher_).1,
                  log := s.log ++ [.enter nodes, .testNodeTuple nodes none] },
         .fault f) := by
  simp [DepthFirstRecursion_, hl, CanPrune_, ht, GenericNptAlg.record]

/-- The split branch: on a tuple that is not all-leaves and that the prune test
accepts, the call is the left side, then the right side, then the return. -/
theorem DepthFirstRecursion_split (ops : NodeTupleOps Trees NT E) (mt : TMatcher NT M F)
    (fuel : Nat) (nodes : NT) (s : GenericNptAlg Trees NT M)
    (hl : ops.all_leaves nodes = false)
    (ht : (mt.TestNodeTuple nodes s.matcher_).2 = .ok true) :
    DepthFirstRecursion_ ops mt (fuel + 1) nodes s
      = andThen (recurseSide ops (DepthFirstRecursion_ ops mt fuel) nodes true
          { s with matcher_ := (mt.TestNodeTuple nodes s.matcher_).1,
                   log := s.log ++ [.enter nodes, .testNodeTuple nodes (some true)] })
        fun s2 =>
        andThen (recurseSide ops (DepthFirstRecursion_ ops mt fuel) nodes false s2) fun s3 =>
        (s3.record (.leave nodes
          (.split (ops.CheckSymmetry nodes (ops.ind_to_split nodes) true)
                  (ops.CheckSymmetry nodes (ops.ind_to_split nodes) false))), .returned) := by
  simp [DepthFirstRecursion_, hl, CanPrune_, ht, GenericNptAlg.record]


/-- Naive mode: one base case on the root tuple. -/
theorem Compute_naive (ops : NodeTupleOps Trees NT E) (mt : TMatcher NT M F)
    (fuel : Nat) (s : GenericNptAlg Trees NT M) (root : NT)
    (hroot : ops.Construct s.trees_ = .ok root) (hn : s.do_naive_ = true) :
    Compute ops mt fuel s
      = ({ s with matcher_ := (mt.ComputeBaseCase root s.matcher_).1,
                  log := s.log ++ [.computeBaseCase root
                    (mt.ComputeBaseCase root s.matcher_).2.isSome] },
         match (mt.ComputeBaseCase root s.matcher_).2 with
         | none => .returned
         | some f => .fault f) := by
  simp only [Compute, hroot, hn, if_true, BaseCase_]
  cases h : (mt.ComputeBaseCase root s.matcher_).2 <;> simp

/-- Recursive mode: one traversal from the root tuple. -/
theorem Compute_recursive (ops : NodeTupleOps Trees NT E) (mt : TMatcher NT M F)
    (fuel : Nat) (s : GenericNptAlg Trees NT M) (root : NT)
    (hroot : ops.Construct s.trees_ = .ok root) (hn : s.do_naive_ = false) :
    Compute ops mt fuel s = DepthFirstRecursion_ ops mt fuel root s := by
  simp [Compute, hroot, hn]

/-! ## Invariants of the traversal -/

/-- A property of the engine state kept by every step of the traversal is kept by
`DepthFirstRecursion_`. -/
theorem DepthFirstRecursion_preserves (ops : NodeTupleOps Trees NT E) (mt : TMatcher NT M F)
    (I : GenericNptAlg Trees NT M → Prop)
    (h_enter : ∀ s n, I s → I (s.record (.enter n)))
    (h_sym : ∀ s n i b a, I s → I (s.record (.checkSymmetry n i b a)))
    (h_con : ∀ s n b, I s → I (s.record (.construct n b)))
    (h_base : ∀ s n, I s → (BaseCase_ mt n s).2 = none →
      I (({ (BaseCase_ mt n s).1 with
            num_base_cases_ := (BaseCase_ mt n s).1.num_base_cases_ + 1 }).record
          (.leave n .base)))
    (h_baseF : ∀ s n, I s → I (BaseCase_ mt n s).1)
    (h_test : ∀ s n, I s → I (CanPrune_ mt n s).1)
    (h_prune : ∀ s n, I s →
      I (({ s with num_prunes_ := s.num_prunes_ + 1 }).record (.leave n .prune)))
    (h_split : ∀ s n l r, I s → I (s.record (.leave n (.split l r))))
    (fuel : Nat) (nodes : NT) (s : GenericNptAlg Trees NT M) (hs : I s) :
    I (DepthFirstRecursion_ ops mt fuel nodes s).1 := by
  induction fuel generalizing nodes s with
  | zero => simpa [DepthFirstRecursion_] using hs
  | succ fuel ih =>
    have side : ∀ (b : Bool) (s : GenericNptAlg Trees NT M), I s →
        I (recurseSide ops (DepthFirstRecursion_ ops mt fuel) nodes b s).1 := by
      intro b s hs
      unfold recurseSide
      by_cases h : ops.CheckSymmetry nodes (ops.ind_to_split nodes) b = true
      · simp only [h, if_true]
        exact ih _ _ (h_con _ _ _ (h_sym _ _ _ _ _ hs))
      · simp only [h, if_false, Bool.false_eq_true]
        exact h_sym _ _ _ _ _ hs
    have seq : ∀ (r : GenericNptAlg Trees NT M × Outcome F E)
        (k : GenericNptAlg Trees NT M → GenericNptAlg Trees NT M × Outcome F E),
        I r.1 → (∀ s, I s → I (k s).1) → I (andThen r k).1 := by
      intro r k hr hk
      rcases r with ⟨s, o⟩
      cases o <;> simp only [andThen] <;> first | exact hk _ hr | exact hr
    simp only [DepthFirstRecursion_]
    have h0 := h_enter s nodes hs
    by_cases hl : ops.all_leaves nodes = true
    · simp only [hl, if_true]
      have hb := h_base _ nodes h0
      have hbF := h_baseF _ nodes h0
      rcases hbc : BaseCase_ mt nodes (s.record (.enter nodes)) with ⟨s1, _ | f⟩
      · rw [hbc] at hb
        exact hb rfl
      · rw [hbc] at hbF
        exact hbF
    · simp only [hl, if_false, Bool.false_eq_true]
      have ht := h_test _ nodes h0
      rcases hc : CanPrune_ mt nodes (s.record (.enter nodes)) with ⟨s1, f | _ | _⟩
      · rw [hc] at ht
        exact ht
      · rw [hc] at ht
        exact seq _ _ (side true _ ht) fun s2 h2 =>
          seq _ _ (side false _ h2) fun s3 h3 => h_split _ _ _ _ h3
      · rw [hc] at ht
        exact h_prune _ _ ht

theorem numCalls_append (k : CallKind → Bool) (l₁ l₂ : List (Event NT)) :
    numCalls k (l₁ ++ l₂) = numCalls k l₁ + numCalls k l₂ := by
  simp [numCalls, List.countP_append]

/-- Calls that made no recursive call are base cases, prunes, or split calls on
which both symmetry checks failed. -/
theorem numCalls_terminal (log : List (Event NT)) :
    numCalls (fun k => !k.recursed) log
      = numCalls (fun k => decide (k = .base)) log
        + numCalls (fun k => decide (k = .prune)) log
        + numCalls (fun k => decide (k = .split false false)) log := by
  induction log with
  | nil => simp [numCalls]
  | cons e log ih =>
    simp only [numCalls] at ih ⊢
    rw [List.countP_cons, List.countP_cons, List.countP_cons, List.countP_cons, ih]
    cases e with
    | leave n kind =>
      cases kind with
      | base => simp [Event.isLeave, CallKind.recursed]; omega
      | prune => simp [Event.isLeave, CallKind.recursed]; omega
      | split l r =>
        cases l <;> cases r <;> simp [Event.isLeave, CallKind.recursed]
        omega
    | _ => simp [Event.isLeave]

theorem DepthFirstRecursion_counted (ops : NodeTupleOps Trees NT E) (mt : TMatcher NT M F)
    (fuel : Nat) (nodes : NT) (s : GenericNptAlg Trees NT M) (hs : Counted s) :
    Counted (DepthFirstRecursion_ ops mt fuel nodes s).1 := by
  apply DepthFirstRecursion_preserves ops mt Counted <;>
    (try intros) <;>
    simp_all [Counted, GenericNptAlg.record, BaseCase_, CanPrune_, numCalls_append,
      numCalls, Event.isLeave]

theorem Compute_shift (ops : NodeTupleOps Trees NT E) (mt : TMatcher NT M F)
    (p b : Nat) (l : List (Event NT)) (fuel : Nat) (s : GenericNptAlg Trees NT M) :
    Compute ops mt fuel (s.shift p b l)
      = ((Compute ops mt fuel s).1.shift p b l, (Compute ops mt fuel s).2) := by
  unfold Compute
  have ht : (s.shift p b l).trees_ = s.trees_ := rfl
  have hn : (s.shift p b l).do_naive_ = s.do_naive_ := rfl
  rw [ht, hn]
  cases hc : ops.Construct s.trees_ with
  | error e => rfl
  | ok nodes =>
    simp only []
    by_cases hd : s.do_naive_ = true
    · simp only [hd, if_true, BaseCase_shift]
      rcases hb : BaseCase_ mt nodes s with ⟨s1, _ | f⟩ <;> rfl
    · simp only [hd, if_false, Bool.false_eq_true, DepthFirstRecursion_shift]

/-- C3 (as amended).  After a recursive-mode `Compute` on a freshly constructed
engine, whatever the input and however the run ended, `num_base_cases_` is the
number of calls that returned as a base case and `num_prunes_` the number that
returned as a prune; the calls that made no recursive call are these together
with the split calls on which `CheckSymmetry` refused both sides, which neither
counter counts. -/
theorem prune_count_partition (ops : NodeTupleOps Trees NT E) (mt : TMatcher NT M F)
    (fuel : Nat) (trees : Trees) (m : M) :
    (Compute ops mt fuel (GenericNptAlg.fresh trees m false)).1.num_base_cases_
      = numCalls (fun k => decide (k = .base))
          (Compute ops mt fuel (GenericNptAlg.fresh trees m false)).1.log ∧
    (Compute ops mt fuel (GenericNptAlg.fresh trees m false)).1.num_prunes_
      = numCalls (fun k => decide (k = .prune))
          (Compute ops mt fuel (GenericNptAlg.fresh trees m false)).1.log ∧
    numCalls (fun k => !k.recursed)
        (Compute ops mt fuel (GenericNptAlg.fresh trees m false)).1.log
      = (Compute ops mt fuel (GenericNptAlg.fresh trees m false)).1.num_base_cases_
        + (Compute ops mt fuel (GenericNptAlg.fresh trees m false)).1.num_prunes_
        + numCalls (fun k => decide (k = .split false false))
            (Compute ops mt fuel (GenericNptAlg.fresh trees m false)).1.log := by
  have hc : Counted (Compute ops mt fuel (GenericNptAlg.fresh trees m false)).1 := by
    unfold Compute
    cases hcon : ops.Construct (GenericNptAlg.fresh trees m false : GenericNptAlg Trees NT M).trees_ with
    | error e => simp [Counted, GenericNptAlg.fresh, numCalls]
    | ok nodes =>
      simp only [GenericNptAlg.fresh, Bool.false_eq_true, if_false]
      apply DepthFirstRecursion_counted
      simp [Counted, numCalls]
  refine ⟨hc.1, hc.2, ?_⟩
  rw [numCalls_terminal, ← hc.1, ← hc.2]

/-- C3, counterexample.  On a tuple that is not all-leaves, that the matcher does
not prune and on which `CheckSymmetry` refuses both sides, the one call made
returns without a recursive call, yet it is neither a base case nor a prune:
both counters stay 0 while one non-recursing call was made. -/
theorem prune_count_partition_fails :
    (Compute (stubOps false) (stubMatcher true) 5
        (GenericNptAlg.fresh () 0 false)).2 = .returned ∧
    numCalls (fun k => !k.recursed)
      (Compute (stubOps false) (stubMatcher true) 5
        (GenericNptAlg.fresh () 0 false)).1.log = 1 ∧
    (Compute (stubOps false) (stubMatcher true) 5
        (GenericNptAlg.fresh () 0 false)).1.num_base_cases_
      + (Compute (stubOps false) (stubMatcher true) 5
        (GenericNptAlg.fresh () 0 false)).1.num_prunes_ = 0 := by
  decide

/-- C4.  When the root tuple is all-leaves (every tree's root is a leaf), a
recursive-mode `Compute` on a fresh engine makes exactly one matcher call, the
base case on the root tuple, and ends with `num_base_cases_ = 1` and
`num_prunes_ = 0`; the prune test is not consulted, whatever it would answer. -/
theorem leaf_roots_one_base_case (ops : NodeTupleOps Trees NT E) (mt : TMatcher NT M F)
    (fuel : Nat) (trees : Trees) (m : M) (root : NT)
    (hroot : ops.Construct trees = .ok root)
    (hleaf : ops.all_leaves root = true)
    (hok : (mt.ComputeBaseCase root m).2 = none) :
    Compute ops mt (fuel + 1) (GenericNptAlg.fresh trees m false)
      = ({ matcher_ := (mt.ComputeBaseCase root m).1, trees_ := trees,
           num_prunes_ := 0, num_base_cases_ := 1, do_naive_ := false,
           log := [.enter root, .computeBaseCase root false, .leave root .base] },
         .returned) := by
  simp [Compute, GenericNptAlg.fresh, hroot, DepthFirstRecursion_, hleaf, BaseCase_, hok,
    GenericNptAlg.record]

/-- C4, witness: two single-leaf trees, one slot each, and a prune test that
would reject every tuple. -/
theorem leaf_roots_one_base_case_witness :
    (specOps NodeTuple.firstNonLeaf).Construct [(some leafA, 1), (some leafB, 1)]
      = .ok ⟨[⟨0, [], 0, leafA⟩, ⟨1, [], 0, leafB⟩]⟩ ∧
    Compute (specOps NodeTuple.firstNonLeaf)
        (countingMatcher Unit (within 1) fun _ => false) (0 + 1)
        (GenericNptAlg.fresh [(some leafA, 1), (some leafB, 1)] 0 false)
      = ({ matcher_ := 0, trees_ := [(some leafA, 1), (some leafB, 1)],
           num_prunes_ := 0, num_base_cases_ := 1, do_naive_ := false,
           log := [.enter ⟨[⟨0, [], 0, leafA⟩, ⟨1, [], 0, leafB⟩]⟩,
                   .computeBaseCase ⟨[⟨0, [], 0, leafA⟩, ⟨1, [], 0, leafB⟩]⟩ false,
                   .leave ⟨[⟨0, [], 0, leafA⟩, ⟨1, [], 0, leafB⟩]⟩ .base] },
         .returned) :=
  ⟨rfl,
   leaf_roots_one_base_case (specOps NodeTuple.firstNonLeaf)
     (countingMatcher Unit (within 1) fun _ => false) 0
     [(some leafA, 1), (some leafB, 1)] 0 ⟨[⟨0, [], 0, leafA⟩, ⟨1, [], 0, leafB⟩]⟩
     rfl (by decide) (by decide)⟩

/-- C5, counterexample.  Two single-leaf trees, one slot each, whose points 1 and 5
are farther apart than the matching distance 1, and a prune test that reports
"cannot match": the root tuple is all-leaves, so the base case is run and no
prune is counted. -/
theorem immediate_prune_fails_on_leaf_roots :
    (countingMatcher Unit (within 1) fun _ => false).TestNodeTuple
        ⟨[⟨0, [], 0, leafA⟩, ⟨1, [], 0, leafB⟩]⟩ 0 = (0, .ok false) ∧
    (Compute (specOps NodeTuple.firstNonLeaf)
        (countingMatcher Unit (within 1) fun _ => false) 5
        (GenericNptAlg.fresh [(some leafA, 1), (some leafB, 1)] 0 false)).1.num_prunes_ = 0 ∧
    (Compute (specOps NodeTuple.firstNonLeaf)
        (countingMatcher Unit (within 1) fun _ => false) 5
        (GenericNptAlg.fresh [(some leafA, 1), (some leafB, 1)] 0 false)).1.num_base_cases_ = 1 ∧
    (Compute (specOps NodeTuple.firstNonLeaf)
        (countingMatcher Unit (within 1) fun _ => false) 5
        (GenericNptAlg.fresh [(some leafA, 1), (some leafB, 1)] 0 false)).1.log
      = [.enter ⟨[⟨0, [], 0, leafA⟩, ⟨1, [], 0, leafB⟩]⟩,
         .computeBaseCase ⟨[⟨0, [], 0, leafA⟩, ⟨1, [], 0, leafB⟩]⟩ false,
         .leave ⟨[⟨0, [], 0, leafA⟩, ⟨1, [], 0, leafB⟩]⟩ .base] := by
  refine ⟨rfl, ?_, ?_, ?_⟩ <;> decide

/-- C5 (as amended).  When the root tuple is not all-leaves and the matcher's
prune test answers false on it, a recursive-mode `Compute` on a fresh engine
ends with `num_prunes_ = 1` and `num_base_cases_ = 0`; its only matcher call is
that prune test, the base case is never run, and the matcher is left in the
state the prune test left it in. -/
theorem immediate_prune (ops : NodeTupleOps Trees NT E) (mt : TMatcher NT M F)
    (fuel : Nat) (trees : Trees) (m m' : M) (root : NT)
    (hroot : ops.Construct trees = .ok root)
    (hleaf : ops.all_leaves root = false)
    (htest : mt.TestNodeTuple root m = (m', .ok false)) :
    Compute ops mt (fuel + 1) (GenericNptAlg.fresh trees m false)
      = ({ matcher_ := m', trees_ := trees, num_prunes_ := 1, num_base_cases_ := 0,
           do_naive_ := false,
           log := [.enter root, .testNodeTuple root (some false), .leave root .prune] },
         .returned) := by
  simp [Compute, GenericNptAlg.fresh, hroot, DepthFirstRecursion_, hleaf, CanPrune_, htest,
    GenericNptAlg.record]

/-- C5, witness: the sample tree and a single-leaf tree, one slot each, with a
prune test that reports "cannot match". -/
theorem immediate_prune_witness :
    (specOps NodeTuple.firstNonLeaf).Construct [(some sampleTree, 1), (some leafA, 1)]
      = .ok ⟨[⟨0, [], 0, sampleTree⟩, ⟨1, [], 0, leafA⟩]⟩ ∧
    (specOps NodeTuple.firstNonLeaf).all_leaves
      ⟨[⟨0, [], 0, sampleTree⟩, ⟨1, [], 0, leafA⟩]⟩ = false ∧
    Compute (specOps NodeTuple.firstNonLeaf)
        (countingMatcher Unit (within 1) fun _ => false) (0 + 1)
        (GenericNptAlg.fresh [(some sampleTree, 1), (some leafA, 1)] 0 false)
      = ({ matcher_ := 0, trees_ := [(some sampleTree, 1), (some leafA, 1)],
           num_prunes_ := 1, num_base_cases_ := 0, do_naive_ := false,
           log := [.enter ⟨[⟨0, [], 0, sampleTree⟩, ⟨1, [], 0, leafA⟩]⟩,
                   .testNodeTuple ⟨[⟨0, [], 0, sampleTree⟩, ⟨1, [], 0, leafA⟩]⟩ (some false),
                   .leave ⟨[⟨0, [], 0, sampleTree⟩, ⟨1, [], 0, leafA⟩]⟩ .prune] },
         .returned) :=
  ⟨rfl, by decide,
   immediate_prune (specOps NodeTuple.firstNonLeaf)
     (countingMatcher Unit (within 1) fun _ => false) 0
     [(some sampleTree, 1), (some leafA, 1)] 0 0
     ⟨[⟨0, [], 0, sampleTree⟩, ⟨1, [], 0, leafA⟩]⟩ rfl (by decide) rfl⟩

/-- C6.  Once the root tuple is built, `Compute` in naive mode makes exactly one
call, the matcher's `ComputeBaseCase` on the root tuple: the prune test is not
called, no `DepthFirstRecursion_` call is entered and no counter changes.  In
recursive mode `Compute` is one call of `DepthFirstRecursion_` on that same root
tuple. -/
theorem compute_dispatch (ops : NodeTupleOps Trees NT E) (mt : TMatcher NT M F)
    (fuel : Nat) (s : GenericNptAlg Trees NT M) (root : NT)
    (hroot : ops.Construct s.trees_ = .ok root) :
    (s.do_naive_ = true →
      Compute ops mt fuel s
        = ({ s with matcher_ := (mt.ComputeBaseCase root s.matcher_).1,
                    log := s.log ++ [.computeBaseCase root
                      (mt.ComputeBaseCase root s.matcher_).2.isSome] },
           match (mt.ComputeBaseCase root s.matcher_).2 with
           | none => .returned
           | some f => .fault f)) ∧
    (s.do_naive_ = false →
      Compute ops mt fuel s = DepthFirstRecursion_ ops mt fuel root s) := by
  exact ⟨Compute_naive ops mt fuel s root hroot, Compute_recursive ops mt fuel s root hroot⟩

/-- C6, witness: the sample tree filling two slots, in naive mode. -/
theorem compute_dispatch_witness :
    (specOps NodeTuple.firstNonLeaf).Construct
        (GenericNptAlg.fresh [(some sampleTree, 2)] 0 true :
          GenericNptAlg (List (Option (NptNode Nat) × Nat)) (NodeTuple Nat) Nat).trees_
      = .ok ⟨[⟨0, [], 0, sampleTree⟩, ⟨0, [], 0, sampleTree⟩]⟩ ∧
    Compute (specOps NodeTuple.firstNonLeaf)
        (countingMatcher Unit (within 2) fun _ => true) 0
        (GenericNptAlg.fresh [(some sampleTree, 2)] 0 true)
      = ({ matcher_ := 7, trees_ := [(some sampleTree, 2)], num_prunes_ := 0,
           num_base_cases_ := 0, do_naive_ := true,
           log := [.computeBaseCase
             ⟨[⟨0, [], 0, sampleTree⟩, ⟨0, [], 0, sampleTree⟩]⟩ false] },
         .returned) :=
  ⟨rfl,
   (compute_dispatch (specOps NodeTuple.firstNonLeaf)
     (countingMatcher Unit (within 2) fun _ => true) 0
     (GenericNptAlg.fresh [(some sampleTree, 2)] 0 true)
     ⟨[⟨0, [], 0, sampleTree⟩, ⟨0, [], 0, sampleTree⟩]⟩ rfl).1 rfl⟩

/-- C10.  `Compute` never resets or lowers a counter: on every engine state each
counter ends at its value before the call plus what the same call counts
starting from zero, so it ends at least as high as it started and a second
`Compute` adds to the counts left by the first. -/
theorem counters_never_decrease (ops : NodeTupleOps Trees NT E) (mt : TMatcher NT M F)
    (fuel : Nat) (s : GenericNptAlg Trees NT M) :
    (Compute ops mt fuel s).1.num_base_cases_
      = s.num_base_cases_
        + (Compute ops mt fuel
            { s with num_prunes_ := 0, num_base_cases_ := 0 }).1.num_base_cases_ ∧
    (Compute ops mt fuel s).1.num_prunes_
      = s.num_prunes_
        + (Compute ops mt fuel
            { s with num_prunes_ := 0, num_base_cases_ := 0 }).1.num_prunes_ ∧
    s.num_base_cases_ ≤ (Compute ops mt fuel s).1.num_base_cases_ ∧
    s.num_prunes_ ≤ (Compute ops mt fuel s).1.num_prunes_ := by
  have hs : s = ({ s with num_prunes_ := 0, num_base_cases_ := 0 } :
      GenericNptAlg Trees NT M).shift s.num_prunes_ s.num_base_cases_ [] := by
    simp [GenericNptAlg.shift]
  have h := Compute_shift ops mt s.num_prunes_ s.num_base_cases_ [] fuel
    ({ s with num_prunes_ := 0, num_base_cases_ := 0 } : GenericNptAlg Trees NT M)
  rw [← hs] at h
  rw [h]
  simp [GenericNptAlg.shift]

/-! ## Faults raised by the matcher -/

theorem FaultLast_prepend (mt : TMatcher NT M F) (a new : List (Event NT))
    (r : GenericNptAlg Trees NT M × Outcome F E)
    (ha : ∀ e ∈ a, e.faulted = false) (h : FaultLast mt new r) :
    FaultLast mt (a ++ new) r := by
  rcases r with ⟨s, o⟩
  cases o with
  | fault f =>
    obtain ⟨pre, e, hnew, hpre, hr⟩ := h
    refine ⟨a ++ pre, e, by simp [hnew], ?_, hr⟩
    intro e' he'
    rcases List.mem_append.1 he' with h1 | h1
    · exact ha _ h1
    · exact hpre _ h1
  | returned | configError | outOfFuel =>
    intro e he
    rcases List.mem_append.1 he with h1 | h1
    · exact ha _ h1
    · exact h _ h1

/-- The traversal only appends to the log, and what it appends has the
faulting matcher call last, if any. -/
theorem DepthFirstRecursion_faultLast (ops : NodeTupleOps Trees NT E)
    (mt : TMatcher NT M F) (fuel : Nat) (nodes : NT) (s : GenericNptAlg Trees NT M) :
    ∃ new, (DepthFirstRecursion_ ops mt fuel nodes s).1.log = s.log ++ new ∧
      FaultLast mt new (DepthFirstRecursion_ ops mt fuel nodes s) := by
  induction fuel generalizing nodes s with
  | zero => exact ⟨[], by simp [DepthFirstRecursion_], by simp [DepthFirstRecursion_, FaultLast]⟩
  | succ fuel ih =>
    have side : ∀ (b : Bool) (s : GenericNptAlg Trees NT M),
        ∃ new, (recurseSide ops (DepthFirstRecursion_ ops mt fuel) nodes b s).1.log
            = s.log ++ new ∧
          FaultLast mt new (recurseSide ops (DepthFirstRecursion_ ops mt fuel) nodes b s) := by
      intro b s
      unfold recurseSide
      by_cases h : ops.CheckSymmetry nodes (ops.ind_to_split nodes) b = true
      · simp only [h, if_true]
        obtain ⟨new, hlog, hf⟩ := ih (ops.child nodes b)
          ((s.record (.checkSymmetry nodes (ops.ind_to_split nodes) b true)).record
            (.construct nodes b))
        refine ⟨[.checkSymmetry nodes (ops.ind_to_split nodes) b true, .construct nodes b]
          ++ new, ?_, ?_⟩
        · rw [hlog]; simp [GenericNptAlg.record]
        · exact FaultLast_prepend mt _ _ _ (by simp [Event.faulted]) hf
      · simp only [h, if_false, Bool.false_eq_true]
        exact ⟨[.checkSymmetry nodes (ops.ind_to_split nodes) b false],
          by simp [GenericNptAlg.record], by simp [FaultLast, Event.faulted]⟩
    have seq : ∀ (s : GenericNptAlg Trees NT M)
        (r : GenericNptAlg Trees NT M × Outcome F E)
        (k : GenericNptAlg Trees NT M → GenericNptAlg Trees NT M × Outcome F E),
        (∃ new, r.1.log = s.log ++ new ∧ FaultLast mt new r) →
        (∀ s', ∃ new, (k s').1.log = s'.log ++ new ∧ FaultLast mt new (k s')) →
        ∃ new, (andThen r k).1.log = s.log ++ new ∧ FaultLast mt new (andThen r k) := by
      intro s r k hr hk
      rcases r with ⟨s1, o⟩
      obtain ⟨new, hlog, hf⟩ := hr
      cases o with
      | returned =>
        obtain ⟨new', hlog', hf'⟩ := hk s1
        refine ⟨new ++ new', ?_, ?_⟩
        · simp only [andThen]
          rw [hlog']
          simp only at hlog
          rw [hlog, List.append_assoc]
        · simp only [andThen]
          exact FaultLast_prepend mt _ _ _ hf hf'
      | fault f => exact ⟨new, hlog, hf⟩
      | configError e => exact ⟨new, hlog, hf⟩
      | outOfFuel => exact ⟨new, hlog, hf⟩
    by_cases hl : ops.all_leaves nodes = true
    · cases hb : (mt.ComputeBaseCase nodes s.matcher_).2 with
      | none =>
        rw [DepthFirstRecursion_base ops mt fuel nodes s hl hb]
        exact ⟨[.enter nodes, .computeBaseCase nodes false, .leave nodes .base], rfl,
          by simp [FaultLast, Event.faulted]⟩
      | some f =>
        rw [DepthFirstRecursion_base_fault ops mt fuel nodes s f hl hb]
        refine ⟨[.enter nodes, .computeBaseCase nodes true], rfl, ?_⟩
        refine ⟨[.enter nodes], _, rfl, by simp [Event.faulted], nodes, s.matcher_,
          Or.inl ⟨rfl, ?_⟩⟩
        rw [← hb]
    · have hl' : ops.all_leaves nodes = false := by simpa using hl
      cases ht : (mt.TestNodeTuple nodes s.matcher_).2 with
      | error f =>
        rw [DepthFirstRecursion_test_fault ops mt fuel nodes s f hl' ht]
        refine ⟨[.enter nodes, .testNodeTuple nodes none], rfl, ?_⟩
        refine ⟨[.enter nodes], _, rfl, by simp [Event.faulted], nodes, s.matcher_,
          Or.inr ⟨rfl, ?_⟩⟩
        rw [← ht]
      | ok b =>
        cases b with
        | false =>
          rw [DepthFirstRecursion_prune ops mt fuel nodes s hl' ht]
          exact ⟨[.enter nodes, .testNodeTuple nodes (some false), .leave nodes .prune], rfl,
            by simp [FaultLast, Event.faulted]⟩
        | true =>
          rw [DepthFirstRecursion_split ops mt fuel nodes s hl' ht]
          have hk3 : ∀ s3 : GenericNptAlg Trees NT M, ∃ new,
              ((s3.record (.leave nodes
                (.split (ops.CheckSymmetry nodes (ops.ind_to_split nodes) true)
                  (ops.CheckSymmetry nodes (ops.ind_to_split nodes) false))),
                (Outcome.returned : Outcome F E))).1.log = s3.log ++ new ∧
              FaultLast mt new ((s3.record (.leave nodes
                (.split (ops.CheckSymmetry nodes (ops.ind_to_split nodes) true)
                  (ops.CheckSymmetry nodes (ops.ind_to_split nodes) false))),
                (Outcome.returned : Outcome F E))) := fun s3 =>
            ⟨_, rfl, by simp [FaultLast, Event.faulted]⟩
          have hk2 := fun s2 => seq s2 _ _ (side false s2) hk3
          obtain ⟨new, hlog, hf⟩ := seq _ _ _ (side true _) hk2
          refine ⟨[.enter nodes, .testNodeTuple nodes (some true)] ++ new, ?_, ?_⟩
          · rw [hlog]; simp
          · exact FaultLast_prepend mt _ _ _ (by simp [Event.faulted]) hf

/-- C9.  On every engine state, `Compute` only appends to the log.  If it ends
with a fault `f`, the last event of the run is a matcher call (`TestNodeTuple` or
`ComputeBaseCase`) that raised exactly `f`, the matcher is left as that call left
it, and no earlier call of the run faulted: nothing is called and no tuple is
visited after the faulting call.  If it ends in any other way (in particular a
normal return), no matcher call of the run faulted: a fault is never swallowed. -/
theorem matcher_fault_propagates (ops : NodeTupleOps Trees NT E) (mt : TMatcher NT M F)
    (fuel : Nat) (s : GenericNptAlg Trees NT M) :
    ∃ new, (Compute ops mt fuel s).1.log = s.log ++ new ∧
      match (Compute ops mt fuel s).2 with
      | .fault f => ∃ pre e, new = pre ++ [e] ∧ (∀ e' ∈ pre, e'.faulted = false) ∧
          RaisedBy mt e f (Compute ops mt fuel s).1.matcher_
      | _ => ∀ e ∈ new, e.faulted = false := by
  cases hc : ops.Construct s.trees_ with
  | error e => exact ⟨[], by simp [Compute, hc], by simp [Compute, hc]⟩
  | ok nodes =>
    by_cases hd : s.do_naive_ = true
    · rw [Compute_naive ops mt fuel s nodes hc hd]
      cases hb : (mt.ComputeBaseCase nodes s.matcher_).2 with
      | none => exact ⟨[.computeBaseCase nodes false], by simp, by simp [Event.faulted]⟩
      | some f =>
        refine ⟨[.computeBaseCase nodes true], by simp, ?_⟩
        refine ⟨[], _, rfl, by simp, nodes, s.matcher_, Or.inl ⟨rfl, ?_⟩⟩
        rw [← hb]
    · rw [Compute_recursive ops mt fuel s nodes hc (by simpa using hd)]
      exact DepthFirstRecursion_faultLast ops mt fuel nodes s

/-- A run that faults: the sample tree in one slot and a matcher whose prune test
raises fault 7 after touching its state.  The run ends with fault 7 right
after that call. -/
theorem matcher_fault_example :
    Compute (specOps NodeTuple.firstNonLeaf) faultyMatcher 9
        (GenericNptAlg.fresh [(some sampleTree, 1)] 0 false)
      = ({ matcher_ := 1, trees_ := [(some sampleTree, 1)], num_prunes_ := 0,
           num_base_cases_ := 0, do_naive_ := false,
           log := [.enter ⟨[⟨0, [], 0, sampleTree⟩]⟩,
                   .testNodeTuple ⟨[⟨0, [], 0, sampleTree⟩]⟩ none] },
         .fault 7) := by
  decide

/-! ## The root tuple -/

theorem rootSlots_nodes (config : List (Option (NptNode P) × Nat)) (i : Nat)
    (h : config.any (fun tm => tm.1.isNone) = false) :
    (rootSlots i config).map (fun sl => some sl.node)
      = config.flatMap fun tm => List.replicate tm.2 tm.1 := by
  induction config generalizing i with
  | nil => rfl
  | cons tm rest ih =>
    rcases tm with ⟨_ | root, m⟩
    · simp at h
    · simp only [List.any_cons, Option.isNone_some, Bool.false_or] at h
      simp [rootSlots, ih (i + 1) h, List.flatMap_cons]

theorem rootSlots_length (config : List (Option (NptNode P) × Nat)) (i : Nat)
    (h : config.any (fun tm => tm.1.isNone) = false) :
    (rootSlots i config).length = (config.map fun tm => tm.2).sum := by
  induction config generalizing i with
  | nil => rfl
  | cons tm rest ih =>
    rcases tm with ⟨_ | root, m⟩
    · simp at h
    · simp only [List.any_cons, Option.isNone_some, Bool.false_or] at h
      simp [rootSlots, ih (i + 1) h]

theorem rootSlots_origin (config : List (Option (NptNode P) × Nat)) (i : Nat)
    (sl : Slot P) (h : sl ∈ rootSlots i config) :
    sl.path = [] ∧ sl.begin = 0 ∧ i ≤ sl.tree ∧
      ∃ m, config[sl.tree - i]? = some (some sl.node, m) := by
  induction config generalizing i with
  | nil => simp [rootSlots] at h
  | cons tm rest ih =>
    rcases tm with ⟨_ | root, m⟩
    · simp only [rootSlots] at h
      obtain ⟨h1, h2, h3, m', h4⟩ := ih (i + 1) h
      refine ⟨h1, h2, by omega, m', ?_⟩
      have : sl.tree - i = (sl.tree - (i + 1)) + 1 := by omega
      rw [this]
      simpa using h4
    · simp only [rootSlots, List.mem_append] at h
      rcases h with h | h
      · obtain ⟨_, rfl⟩ := List.mem_replicate.1 h
        exact ⟨rfl, rfl, Nat.le_refl _, m, by simp⟩
      · obtain ⟨h1, h2, h3, m', h4⟩ := ih (i + 1) h
        refine ⟨h1, h2, by omega, m', ?_⟩
        have : sl.tree - i = (sl.tree - (i + 1)) + 1 := by omega
        rw [this]
        simpa using h4

theorem Construct_ok (config : List (Option (NptNode P) × Nat)) (root : NodeTuple P)
    (h : NodeTuple.Construct config = .ok root) :
    (config.map fun tm => tm.2).sum ≠ 0 ∧ config.any (fun tm => tm.1.isNone) = false ∧
      root = ⟨rootSlots 0 config⟩ := by
  unfold NodeTuple.Construct at h
  by_cases h0 : (config.map fun tm => tm.2).sum = 0
  · simp [h0] at h
  · by_cases h1 : config.any (fun tm => tm.1.isNone) = true
    · simp [h0, h1] at h
    · simp only [h0, h1, if_false, Bool.false_eq_true] at h
      injection h with h
      exact ⟨h0, Bool.eq_false_iff.2 h1, h.symm⟩

/-- C7.  The root tuple built from a configuration of (tree, multiplicity) pairs
holds each tree's root in consecutive slots, as many times as the tree's
multiplicity, in the order of the configuration; it has as many slots as the
multiplicities sum to, every slot refers to the root of the tree it was listed
with, and this tuple is the one `Compute` starts from. -/
theorem root_tuple_slots (split_target : NodeTuple P → Nat)
    (mt : TMatcher (NodeTuple P) M F) (fuel : Nat)
    (s : GenericNptAlg (List (Option (NptNode P) × Nat)) (NodeTuple P) M)
    (root : NodeTuple P) (h : NodeTuple.Construct s.trees_ = .ok root) :
    root.slots.map (fun sl => some sl.node)
      = s.trees_.flatMap (fun tm => List.replicate tm.2 tm.1) ∧
    root.slots.length = (s.trees_.map fun tm => tm.2).sum ∧
    (∀ sl ∈ root.slots, sl.path = [] ∧ sl.begin = 0 ∧
      ∃ m, s.trees_[sl.tree]? = some (some sl.node, m)) ∧
    (s.do_naive_ = false →
      Compute (specOps split_target) mt fuel s
        = DepthFirstRecursion_ (specOps split_target) mt fuel root s) ∧
    (s.do_naive_ = true →
      (Compute (specOps split_target) mt fuel s).1.log
        = s.log ++ [.computeBaseCase root (mt.ComputeBaseCase root s.matcher_).2.isSome]) := by
  obtain ⟨_, hany, rfl⟩ := Construct_ok s.trees_ root h
  refine ⟨rootSlots_nodes _ 0 hany, rootSlots_length _ 0 hany, ?_, ?_, ?_⟩
  · intro sl hsl
    obtain ⟨h1, h2, _, m, h4⟩ := rootSlots_origin _ 0 sl hsl
    exact ⟨h1, h2, m, by simpa using h4⟩
  · intro hn
    exact Compute_recursive (specOps split_target) mt fuel s _ h hn
  · intro hn
    rw [Compute_naive (specOps split_target) mt fuel s _ h hn]

/-- C7, witness: the sample tree with multiplicity 2 followed by a single-leaf
tree with multiplicity 1 gives three slots. -/
theorem root_tuple_slots_witness :
    NodeTuple.Construct [(some sampleTree, 2), (some leafA, 1)]
      = .ok ⟨[⟨0, [], 0, sampleTree⟩, ⟨0, [], 0, sampleTree⟩, ⟨1, [], 0, leafA⟩]⟩ ∧
    (⟨[⟨0, [], 0, sampleTree⟩, ⟨0, [], 0, sampleTree⟩, ⟨1, [], 0, leafA⟩]⟩ :
        NodeTuple Nat).slots.length
      = ([(some sampleTree, 2), (some leafA, 1)].map fun tm => tm.2).sum :=
  ⟨rfl,
   (root_tuple_slots NodeTuple.firstNonLeaf
      (countingMatcher Unit (within 1) fun _ => true) 0
      (GenericNptAlg.fresh [(some sampleTree, 2), (some leafA, 1)] 0 false)
      ⟨[⟨0, [], 0, sampleTree⟩, ⟨0, [], 0, sampleTree⟩, ⟨1, [], 0, leafA⟩]⟩ rfl).2.1⟩

/-- C8.  A configuration that the root constructor rejects (no slot at all, which
includes an empty tree list, or a tree without a root) makes `Compute` end with
that configuration error at once: the engine state is returned untouched, so
no matcher call was made, nothing was logged and neither counter changed. -/
theorem config_error_fails_fast (split_target : NodeTuple P → Nat)
    (mt : TMatcher (NodeTuple P) M F) (fuel : Nat)
    (s : GenericNptAlg (List (Option (NptNode P) × Nat)) (NodeTuple P) M)
    (h : (s.trees_.map fun tm => tm.2).sum = 0 ∨ ∃ tm ∈ s.trees_, tm.1 = none) :
    ∃ e, Compute (specOps split_target) mt fuel s = (s, .configError e) := by
  by_cases h0 : (s.trees_.map fun tm => tm.2).sum = 0
  · exact ⟨.zeroSlots, by simp [Compute, specOps, NodeTuple.Construct, h0]⟩
  · rcases h with h | ⟨tm, hmem, hnone⟩
    · exact absurd h h0
    · have hany : s.trees_.any (fun tm => tm.1.isNone) = true :=
        List.any_eq_true.2 ⟨tm, hmem, by simp [hnone]⟩
      exact ⟨.emptyTree, by simp [Compute, specOps, NodeTuple.Construct, h0, hany]⟩

/-- C8, witness: a configuration listing a tree that has no root. -/
theorem config_error_fails_fast_witness :
    (∃ tm ∈ [(some sampleTree, 1), ((none : Option (NptNode Nat)), 2)], tm.1 = none) ∧
    ∃ e, Compute (specOps NodeTuple.firstNonLeaf) faultyMatcher 9
        (GenericNptAlg.fresh [(some sampleTree, 1), (none, 2)] 0 false)
      = (GenericNptAlg.fresh [(some sampleTree, 1), (none, 2)] 0 false, .configError e) :=
  ⟨⟨(none, 2), by simp, rfl⟩,
   config_error_fails_fast NodeTuple.firstNonLeaf faultyMatcher 9
     (GenericNptAlg.fresh [(some sampleTree, 1), (none, 2)] 0 false)
     (Or.inr ⟨(none, 2), by simp [GenericNptAlg.fresh], rfl⟩)⟩

/-! ## Point combinations of a tuple and of its children -/

theorem mem_tuples {α : Type} (L : List (List α)) (c : List α) :
    c ∈ tuples L ↔ List.Forall₂ (fun a l => a ∈ l) c L := by
  induction L generalizing c with
  | nil =>
    simp only [tuples, List.mem_singleton]
    constructor
    · rintro rfl; exact List.Forall₂.nil
    · intro h; cases h; rfl
  | cons l L ih =>
    simp only [tuples, List.mem_flatMap, List.mem_map]
    constructor
    · rintro ⟨a, ha, c', hc', rfl⟩
      exact List.Forall₂.cons ha ((ih c').1 hc')
    · intro h
      cases h with
      | cons ha hrest => exact ⟨_, ha, _, (ih _).2 hrest, rfl⟩

theorem tuples_split_perm {α : Type} (pre : List (List α)) (l r : List α)
    (post : List (List α)) :
    List.Perm (tuples (pre ++ (l ++ r) :: post))
      (tuples (pre ++ l :: post) ++ tuples (pre ++ r :: post)) := by
  induction pre with
  | nil => simp [tuples, List.flatMap_append]
  | cons x pre ih =>
    simp only [List.cons_append, tuples]
    refine List.Perm.trans ?_ (List.flatMap_append_perm x _ _).symm
    apply List.Perm.flatMap_left
    intro a _
    rw [← List.map_append]
    exact ih.map _

theorem canonical_iff (c : List (Nat × Nat × P)) :
    canonical c = true ↔ c.Pairwise fun a b => a.1 = b.1 → a.2.1 < b.2.1 := by
  induction c with
  | nil => simp [canonical]
  | cons a rest ih =>
    simp only [canonical, Bool.and_eq_true, List.all_eq_true, Bool.or_eq_true, bne_iff_ne,
      decide_eq_true_eq, List.pairwise_cons, ih]
    constructor
    · rintro ⟨h1, h2⟩
      refine ⟨fun b hb hab => ?_, h2⟩
      rcases h1 b hb with h | h
      · exact absurd hab h
      · exact h
    · rintro ⟨h1, h2⟩
      refine ⟨fun b hb => ?_, h2⟩
      by_cases hab : a.1 = b.1
      · exact Or.inr (h1 b hb hab)
      · exact Or.inl hab

theorem mem_cands (sl : Slot P) (e : Nat × Nat × P) (h : e ∈ sl.cands) :
    e.1 = sl.tree ∧ sl.begin ≤ e.2.1 ∧ e.2.1 < sl.stop := by
  simp only [Slot.cands, List.mem_map] at h
  obtain ⟨⟨r, p⟩, hrp, rfl⟩ := h
  have := List.mem_enumFrom hrp
  refine ⟨rfl, this.1, ?_⟩
  show r < sl.begin + sl.node.points.length
  exact this.2.1

theorem cands_child (sl : Slot P) (h : sl.node.is_leaf = false) :
    sl.cands = (sl.child true).cands ++ (sl.child false).cands := by
  rcases sl with ⟨tree, path, b, node⟩
  cases node with
  | leaf ps => simp [NptNode.is_leaf] at h
  | inner l r =>
    simp [Slot.cands, Slot.child, NptNode.points, List.enumFrom_append]

theorem getElem?_split {α : Type} (l : List α) (i : Nat) (a : α) (h : l[i]? = some a) :
    l = l.take i ++ a :: l.drop (i + 1) := by
  induction l generalizing i with
  | nil => simp at h
  | cons x l ih =>
    cases i with
    | zero => simp at h; simp [h]
    | succ i =>
      simp only [List.getElem?_cons_succ] at h
      simp only [List.take_succ_cons, List.drop_succ_cons, List.cons_append]
      rw [← ih i h]

theorem childAt_eq (slots : List (Slot P)) (i : Nat) (b : Bool) (sl : Slot P)
    (h : slots[i]? = some sl) :
    childAt slots i b = slots.take i ++ sl.child b :: slots.drop (i + 1) := by
  induction slots generalizing i with
  | nil => simp at h
  | cons x slots ih =>
    cases i with
    | zero => simp at h; simp [childAt, h]
    | succ i =>
      simp only [List.getElem?_cons_succ] at h
      simp [childAt, ih i h]

theorem forall₂_partner {α β : Type} {R : α → β → Prop} {l₁ : List α} {l₂ : List β}
    (h : List.Forall₂ R l₁ l₂) (b : β) (hb : b ∈ l₂) : ∃ a ∈ l₁, R a b := by
  induction h with
  | nil => simp at hb
  | cons hab _ ih =>
    rcases List.mem_cons.1 hb with rfl | hb
    · exact ⟨_, List.mem_cons_self _ _, hab⟩
    · obtain ⟨a, ha, hr⟩ := ih hb
      exact ⟨a, List.mem_cons_of_mem _ ha, hr⟩

/-- Splitting a slot splits the combinations: those of a tuple are those of its
left child together with those of its right child. -/
theorem matchCount_split (criterion : List P → Bool) (t : NodeTuple P) (i : Nat)
    (sl : Slot P) (hget : t.slots[i]? = some sl) (hleaf : sl.node.is_leaf = false) :
    matchCount criterion t
      = matchCount criterion (t.child i true) + matchCount criterion (t.child i false) := by
  have hs := getElem?_split t.slots i sl hget
  have hperm := tuples_split_perm ((t.slots.take i).map Slot.cands) (sl.child true).cands
    (sl.child false).cands ((t.slots.drop (i + 1)).map Slot.cands)
  rw [← cands_child sl hleaf] at hperm
  have e0 : tuples (t.slots.map Slot.cands)
      = tuples ((t.slots.take i).map Slot.cands ++ sl.cands
          :: (t.slots.drop (i + 1)).map Slot.cands) := by
    conv_lhs => rw [hs]
    simp
  have e1 : ∀ b, tuples ((t.child i b).slots.map Slot.cands)
      = tuples ((t.slots.take i).map Slot.cands ++ (sl.child b).cands
          :: (t.slots.drop (i + 1)).map Slot.cands) := by
    intro b
    simp [NodeTuple.child, childAt_eq t.slots i b sl hget]
  simp only [matchCount, NodeTuple.combos, e0, e1]
  rw [((hperm.filter _).filter _).length_eq]
  simp [List.filter_append]

/-- A child that `CheckSymmetry` refuses holds no combination: whatever points are
taken, two entries of the same tree come in the wrong order. -/
theorem matchCount_refused (criterion : List P → Bool) (t : NodeTuple P) (i : Nat)
    (b : Bool) (h : t.CheckSymmetry i b = false) :
    matchCount criterion (t.child i b) = 0 := by
  unfold NodeTuple.CheckSymmetry at h
  cases hget : t.slots[i]? with
  | none => simp [hget] at h
  | some sl =>
    simp only [hget, Bool.and_eq_false_iff] at h
    have hnil : (t.child i b).combos = [] := by
      simp only [NodeTuple.combos, NodeTuple.child, childAt_eq t.slots i b sl hget,
        List.filter_eq_nil_iff, mem_tuples]
      intro c hc hcan
      rw [canonical_iff] at hcan
      rw [List.map_append, List.map_cons] at hc
      have h1 := List.forall₂_take_append c _ _ hc
      have h2 := List.forall₂_drop_append c _ _ hc
      rw [← List.take_append_drop ((t.slots.take i).map Slot.cands).length c] at hcan
      generalize c.take ((t.slots.take i).map Slot.cands).length = c1 at h1 hcan
      generalize c.drop ((t.slots.take i).map Slot.cands).length = c2 at h2 hcan
      cases h2 with
      | cons hx hpost =>
        rename_i x c3
        rw [List.pairwise_append] at hcan
        obtain ⟨_, hcan2, hcross⟩ := hcan
        have hxm := mem_cands _ x hx
        rcases h with h | h
        · obtain ⟨o, ho, hbad⟩ := List.all_eq_false.1 h
          simp only [Bool.or_eq_true, bne_iff_ne, decide_eq_true_eq, not_or, not_not,
            not_lt] at hbad
          obtain ⟨y, hy, hyo⟩ := forall₂_partner h1 o.cands (List.mem_map_of_mem _ ho)
          have hym := mem_cands _ y hyo
          have := hcross y hy x (List.mem_cons_self _ _)
            (by rw [hym.1, hxm.1, hbad.1])
          omega
        · obtain ⟨o, ho, hbad⟩ := List.all_eq_false.1 h
          simp only [Bool.or_eq_true, bne_iff_ne, decide_eq_true_eq, not_or, not_not,
            not_lt] at hbad
          obtain ⟨y, hy, hyo⟩ := forall₂_partner hpost o.cands (List.mem_map_of_mem _ ho)
          have hym := mem_cands _ y hyo
          have := (List.pairwise_cons.1 hcan2).1 y hy
            (by rw [hym.1, hxm.1, hbad.1])
          omega
    simp [matchCount, hnil]

theorem height_child_lt (sl : Slot P) (b : Bool) (h : sl.node.is_leaf = false) :
    (sl.child b).node.height < sl.node.height := by
  rcases sl with ⟨tree, path, bg, node⟩
  cases node with
  | leaf ps => simp [NptNode.is_leaf] at h
  | inner l r =>
    cases b <;> simp [Slot.child, NptNode.height] <;> omega

/-- Each recursive call works on a tuple whose slot heights sum to less. -/
theorem heightSum_child_lt (t : NodeTuple P) (i : Nat) (b : Bool) (sl : Slot P)
    (hget : t.slots[i]? = some sl) (hleaf : sl.node.is_leaf = false) :
    (t.child i b).heightSum < t.heightSum := by
  have hs := getElem?_split t.slots i sl hget
  have hc := childAt_eq t.slots i b sl hget
  have hlt := height_child_lt sl b hleaf
  simp only [NodeTuple.heightSum, NodeTuple.child, hc]
  conv_rhs => rw [hs]
  simp only [List.map_append, List.map_cons, List.sum_append, List.sum_cons]
  omega

theorem firstNonLeaf_splits : SplitsNonLeaf (NodeTuple.firstNonLeaf : NodeTuple P → Nat) := by
  intro t ht
  rcases t with ⟨slots⟩
  simp only [NodeTuple.all_leaves, NodeTuple.firstNonLeaf] at ht ⊢
  induction slots with
  | nil => simp at ht
  | cons x rest ih =>
    by_cases hx : x.node.is_leaf = true
    · simp only [List.all_cons, hx, Bool.true_and] at ht
      obtain ⟨sl, h1, h2⟩ := ih ht
      refine ⟨sl, ?_, h2⟩
      simp [List.findIdx_cons, hx, h1]
    · refine ⟨x, ?_, by simpa using hx⟩
      simp [List.findIdx_cons, hx]

/-- With a sound prune test and a split-target rule that never selects a leaf,
the traversal of a tuple returns, given fuel above the tuple's height sum, and
adds to the matcher's count exactly the tuple's matching combinations. -/
theorem DepthFirstRecursion_counts (F : Type) (st : NodeTuple P → Nat)
    (criterion : List P → Bool) (test : NodeTuple P → Bool)
    (hst : SplitsNonLeaf st) (hsound : SoundTest criterion test)
    (fuel : Nat) (t : NodeTuple P)
    (s : GenericNptAlg (List (Option (NptNode P) × Nat)) (NodeTuple P) Nat)
    (hfuel : t.heightSum < fuel) :
    (DepthFirstRecursion_ (specOps st) (countingMatcher F criterion test) fuel t s).2
        = .returned ∧
    (DepthFirstRecursion_ (specOps st) (countingMatcher F criterion test) fuel t s).1.matcher_
        = s.matcher_ + matchCount criterion t := by
  induction fuel generalizing t s with
  | zero => omega
  | succ fuel ih =>
    by_cases hl : t.all_leaves = true
    · rw [DepthFirstRecursion_base (specOps st) (countingMatcher F criterion test) fuel t s
        hl rfl]
      exact ⟨rfl, rfl⟩
    · have hl' : t.all_leaves = false := by simpa using hl
      cases htest : test t with
      | false =>
        rw [DepthFirstRecursion_prune (specOps st) (countingMatcher F criterion test) fuel t s
          hl' (by simp [countingMatcher, htest])]
        exact ⟨rfl, by simp [countingMatcher, hsound t htest]⟩
      | true =>
        rw [DepthFirstRecursion_split (specOps st) (countingMatcher F criterion test) fuel t s
          hl' (by simp [countingMatcher, htest])]
        obtain ⟨sl, hget, hleaf⟩ := hst t hl'
        have side : ∀ (b : Bool)
            (s' : GenericNptAlg (List (Option (NptNode P) × Nat)) (NodeTuple P) Nat),
            (recurseSide (specOps st)
              (DepthFirstRecursion_ (specOps st) (countingMatcher F criterion test) fuel)
              t b s').2 = .returned ∧
            (recurseSide (specOps st)
              (DepthFirstRecursion_ (specOps st) (countingMatcher F criterion test) fuel)
              t b s').1.matcher_ = s'.matcher_ + matchCount criterion (t.child (st t) b) := by
          intro b s'
          unfold recurseSide
          by_cases hsym : t.CheckSymmetry (st t) b = true
          · have hsym' : (specOps st).CheckSymmetry t ((specOps st).ind_to_split t) b
                = true := hsym
            simp only [hsym', if_true]
            have hlt := heightSum_child_lt t (st t) b sl hget hleaf
            exact ih (t.child (st t) b) _ (by omega)
          · have hsym' : (specOps st).CheckSymmetry t ((specOps st).ind_to_split t) b
                = false := by simpa using hsym
            simp only [hsym', if_false, Bool.false_eq_true]
            refine ⟨?_, ?_⟩ <;>
              simp [GenericNptAlg.record,
                matchCount_refused criterion t (st t) b (by simpa using hsym)]
        rw [matchCount_split criterion t (st t) sl hget hleaf]
        obtain ⟨hL1, hL2⟩ := side true
          { s with matcher_ := ((countingMatcher F criterion test).TestNodeTuple t s.matcher_).1,
                   log := s.log ++ [.enter t, .testNodeTuple t (some true)] }
        rcases hL : recurseSide (specOps st)
              (DepthFirstRecursion_ (specOps st) (countingMatcher F criterion test) fuel)
              t true
              { s with
                matcher_ := ((countingMatcher F criterion test).TestNodeTuple t s.matcher_).1,
                log := s.log ++ [.enter t, .testNodeTuple t (some true)] } with ⟨s2, o2⟩
        rw [hL] at hL1 hL2
        simp only at hL1 hL2
        subst hL1
        simp only [andThen]
        obtain ⟨hR1, hR2⟩ := side false s2
        rcases hR : recurseSide (specOps st)
              (DepthFirstRecursion_ (specOps st) (countingMatcher F criterion test) fuel)
              t false s2 with ⟨s3, o3⟩
        rw [hR] at hR1 hR2
        simp only at hR1 hR2
        subst hR1
        simp only [andThen, GenericNptAlg.record, hR2, hL2, countingMatcher]
        exact ⟨trivial, by omega⟩

/-! ## Pruned traversal against brute force -/

/-- C1.  For the spec's node tuples (any split-target rule that never selects a
leaf slot) and the spec's counting matcher with any criterion and any sound
prune test: on every configuration, with fuel above the root tuple's height
sum, `Compute` in recursive mode ends the same way as in naive mode and leaves
the same accumulated count; when the configuration is accepted both return
normally and the count is the initial one plus the number of matching
combinations of the root tuple. -/
theorem pruned_equals_naive (F : Type) (st : NodeTuple P → Nat)
    (criterion : List P → Bool) (test : NodeTuple P → Bool)
    (hst : SplitsNonLeaf st) (hsound : SoundTest criterion test)
    (config : List (Option (NptNode P) × Nat)) (m fuel : Nat)
    (hfuel : ∀ root, NodeTuple.Construct config = .ok root → root.heightSum < fuel) :
    (Compute (specOps st) (countingMatcher F criterion test) fuel
        (GenericNptAlg.fresh config m false)).2
      = (Compute (specOps st) (countingMatcher F criterion test) fuel
        (GenericNptAlg.fresh config m true)).2 ∧
    (Compute (specOps st) (countingMatcher F criterion test) fuel
        (GenericNptAlg.fresh config m false)).1.matcher_
      = (Compute (specOps st) (countingMatcher F criterion test) fuel
        (GenericNptAlg.fresh config m true)).1.matcher_ ∧
    ∀ root, NodeTuple.Construct config = .ok root →
      (Compute (specOps st) (countingMatcher F criterion test) fuel
        (GenericNptAlg.fresh config m false)).2 = .returned ∧
      (Compute (specOps st) (countingMatcher F criterion test) fuel
        (GenericNptAlg.fresh config m false)).1.matcher_ = m + matchCount criterion root := by
  cases hc : NodeTuple.Construct config with
  | error e =>
    have h1 : ∀ b, Compute (specOps st) (countingMatcher F criterion test) fuel
        (GenericNptAlg.fresh config m b) = (GenericNptAlg.fresh config m b, .configError e) := by
      intro b
      simp [Compute, specOps, GenericNptAlg.fresh, hc]
    rw [h1, h1]
    exact ⟨rfl, rfl, fun root h => by cases h⟩
  | ok root =>
    have hrec := Compute_recursive (specOps st) (countingMatcher F criterion test) fuel
      (GenericNptAlg.fresh config m false) root hc rfl
    have hnai := Compute_naive (specOps st) (countingMatcher F criterion test) fuel
      (GenericNptAlg.fresh config m true) root hc rfl
    obtain ⟨h1, h2⟩ := DepthFirstRecursion_counts F st criterion test hst hsound fuel root
      (GenericNptAlg.fresh config m false) (hfuel root hc)
    rw [hrec, hnai, h1, h2]
    refine ⟨rfl, rfl, fun root' h => ?_⟩
    cases h
    exact ⟨rfl, rfl⟩

/-- C1, witness: a tree with two far-apart halves filling two slots, points
matching within distance 1, the sharpest sound prune test: both modes count the
2 matching pairs, and the recursive run prunes once. -/
theorem pruned_equals_naive_witness :
    SplitsNonLeaf (NodeTuple.firstNonLeaf : NodeTuple Nat → Nat) ∧
    SoundTest (within 1) (exactTest (within 1)) ∧
    (Compute (specOps NodeTuple.firstNonLeaf)
        (countingMatcher Unit (within 1) (exactTest (within 1))) 5
        (GenericNptAlg.fresh [(some splitTree, 2)] 0 false)).1.matcher_
      = (Compute (specOps NodeTuple.firstNonLeaf)
        (countingMatcher Unit (within 1) (exactTest (within 1))) 5
        (GenericNptAlg.fresh [(some splitTree, 2)] 0 true)).1.matcher_ ∧
    (Compute (specOps NodeTuple.firstNonLeaf)
        (countingMatcher Unit (within 1) (exactTest (within 1))) 5
        (GenericNptAlg.fresh [(some splitTree, 2)] 0 true)).1.matcher_ = 2 ∧
    (Compute (specOps NodeTuple.firstNonLeaf)
        (countingMatcher Unit (within 1) (exactTest (within 1))) 5
        (GenericNptAlg.fresh [(some splitTree, 2)] 0 false)).1.num_prunes_ = 3 :=
  ⟨firstNonLeaf_splits,
   fun t h => by simpa [exactTest] using h,
   (pruned_equals_naive Unit NodeTuple.firstNonLeaf (within 1) (exactTest (within 1))
      firstNonLeaf_splits (fun t h => by simpa [exactTest] using h)
      [(some splitTree, 2)] 0 5
      (fun root h => by cases h; decide)).2.1,
   by decide, by decide⟩

/-! ## One tree in several slots: combinations are the unordered subsets -/

theorem enumFrom_sorted {α : Type} (l : List α) (n : Nat) :
    (l.enumFrom n).Pairwise fun a b => a.1 < b.1 := by
  induction l generalizing n with
  | nil => simp
  | cons x l ih =>
    simp only [List.enumFrom_cons, List.pairwise_cons]
    refine ⟨fun b hb => ?_, ih (n + 1)⟩
    have := List.le_fst_of_mem_enumFrom hb
    omega

theorem cands_sorted (sl : Slot P) : sl.cands.Pairwise fun a b => a.2.1 < b.2.1 := by
  simp only [Slot.cands, List.pairwise_map]
  exact enumFrom_sorted _ _

theorem cands_points (sl : Slot P) : sl.cands.map (fun e => e.2.2) = sl.node.points := by
  simp only [Slot.cands, List.map_map]
  have : ((fun e : Nat × Nat × P => e.2.2) ∘ fun rp : Nat × P => (sl.tree, rp.1, rp.2))
      = Prod.snd := rfl
  rw [this, List.enumFrom_map_snd]

theorem tuples_nodup {α : Type} (L : List (List α)) (h : ∀ l ∈ L, l.Nodup) :
    (tuples L).Nodup := by
  induction L with
  | nil => simp [tuples]
  | cons l L ih =>
    simp only [tuples]
    rw [List.nodup_flatMap]
    constructor
    · intro a _
      exact (ih fun l' hl' => h l' (List.mem_cons_of_mem _ hl')).map
        (fun c₁ c₂ hc => (List.cons.inj hc).2)
    · have hl := h l (List.mem_cons_self _ _)
      refine List.Pairwise.imp ?_ hl
      intro a b hab
      simp only [Function.onFun]
      intro c hc1 hc2
      simp only [List.mem_map] at hc1 hc2
      obtain ⟨c1, _, rfl⟩ := hc1
      obtain ⟨c2, _, h2⟩ := hc2
      exact hab (List.cons.inj h2).1.symm

theorem forall₂_mem_replicate {α : Type} (c : List α) (E : List α) (k : Nat) :
    List.Forall₂ (fun a l => a ∈ l) c (List.replicate k E) ↔ c.length = k ∧ ∀ a ∈ c, a ∈ E := by
  induction k generalizing c with
  | zero =>
    simp only [List.replicate_zero, List.forall₂_nil_right_iff]
    constructor
    · rintro rfl; simp
    · rintro ⟨h, _⟩; exact List.length_eq_zero.1 h
  | succ k ih =>
    cases c with
    | nil => simp [List.replicate_succ]
    | cons x c =>
      simp only [List.replicate_succ, List.forall₂_cons, ih, List.length_cons,
        List.mem_cons, forall_eq_or_imp]
      constructor
      · rintro ⟨h1, h2, h3⟩; exact ⟨by omega, h1, h3⟩
      · rintro ⟨h1, h2, h3⟩; exact ⟨h2, by omega, h3⟩

theorem sublistsLen_map {α β : Type} (f : α → β) (k : Nat) (l : List α) :
    (l.sublistsLen k).map (List.map f) = (l.map f).sublistsLen k := by
  induction l generalizing k with
  | nil => cases k <;> simp
  | cons a l ih =>
    cases k with
    | zero => simp
    | succ k =>
      simp only [List.sublistsLen_succ_cons, List.map_cons, List.map_append, List.map_map, ih]
      congr 1
      rw [← ih k, List.map_map]
      rfl

/-- The combinations of a tuple whose slots all hold the same node of the same
tree are, up to order, the sublists of that length of the node's candidates. -/
theorem combos_replicate_perm (sl : Slot P) (k : Nat) :
    List.Perm (⟨List.replicate k sl⟩ : NodeTuple P).combos (sl.cands.sublistsLen k) := by
  have hsorted := cands_sorted sl
  have hnodupE : sl.cands.Nodup :=
    hsorted.imp fun {a b} h hab => by rw [hab] at h; exact Nat.lt_irrefl _ h
  rw [List.perm_ext_iff_of_nodup]
  · intro c
    simp only [NodeTuple.combos, List.map_replicate, List.mem_filter, mem_tuples,
      forall₂_mem_replicate, canonical_iff, List.mem_sublistsLen]
    constructor
    · rintro ⟨⟨hlen, hmem⟩, hpw⟩
      refine ⟨?_, hlen⟩
      have hpw' : c.Pairwise fun a b => a.2.1 < b.2.1 := by
        refine List.Pairwise.imp_of_mem ?_ hpw
        intro a b ha hb hab
        exact hab (by rw [(mem_cands sl a (hmem a ha)).1, (mem_cands sl b (hmem b hb)).1])
      have hnodupc : c.Nodup :=
        hpw'.imp fun {a b} h hab => by rw [hab] at h; exact Nat.lt_irrefl _ h
      haveI : IsAntisymm (Nat × Nat × P) (fun a b => a.2.1 < b.2.1) :=
        ⟨fun a b h1 h2 => absurd h1 (Nat.lt_asymm h2)⟩
      exact List.sublist_of_subperm_of_sorted (List.subperm_of_subset hnodupc hmem) hpw' hsorted
    · rintro ⟨hsub, hlen⟩
      refine ⟨⟨hlen, fun a ha => hsub.subset ha⟩, ?_⟩
      exact List.Pairwise.imp (fun {a b} (h : a.2.1 < b.2.1) (_ : a.1 = b.1) => h)
        (hsorted.sublist hsub)
  · exact (tuples_nodup _ (by
      intro l hl
      simp only [List.map_replicate] at hl
      rw [(List.mem_replicate.1 hl).2]
      exact hnodupE)).filter _
  · exact List.nodup_sublistsLen k hnodupE

/-- When one node fills all `k` slots, the matching combinations of the tuple are
the `k`-element subsets of the node's points (each taken in traversal order)
that satisfy the criterion. -/
theorem matchCount_replicate (criterion : List P → Bool) (sl : Slot P) (k : Nat) :
    matchCount criterion ⟨List.replicate k sl⟩
      = ((sl.node.points.sublistsLen k).filter criterion).length := by
  simp only [matchCount]
  rw [((combos_replicate_perm sl k).filter _).length_eq, ← cands_points sl, ← sublistsLen_map,
    List.filter_map, List.length_map]
  rfl

/-! ## Node references and the canonical order of same-tree slots -/

theorem locate_range (n : NptNode P) (path : List Bool) (base b : Nat) (m : NptNode P)
    (h : locate n path base = some (b, m)) :
    base ≤ b ∧ b + m.points.length ≤ base + n.points.length := by
  induction path generalizing n base with
  | nil =>
    simp only [locate, Option.some.injEq, Prod.mk.injEq] at h
    obtain ⟨rfl, rfl⟩ := h
    exact ⟨Nat.le_refl _, Nat.le_refl _⟩
  | cons s path ih =>
    cases n with
    | leaf ps => simp [locate] at h
    | inner l r =>
      cases s with
      | true =>
        have := ih l base (by simpa [locate] using h)
        simp only [NptNode.points, List.length_append]
        omega
      | false =>
        have := ih r (base + l.points.length) (by simpa [locate] using h)
        simp only [NptNode.points, List.length_append]
        omega

theorem locate_append (n : NptNode P) (path : List Bool) (s : Bool) (base : Nat) :
    locate n (path ++ [s]) base
      = (locate n path base).bind fun bm => locate bm.2 [s] bm.1 := by
  induction path generalizing n base with
  | nil => simp [locate]
  | cons s' path ih =>
    cases n with
    | leaf ps => simp [locate]
    | inner l r =>
      cases s' <;> simp [locate, ih]

/-- Two leaves of a tree are the same leaf, or one lies wholly before the
other. -/
theorem leaves_apart (n : NptNode P) (p q : List Bool) (base bx bq : Nat)
    (x y : NptNode P) (hx : locate n p base = some (bx, x))
    (hy : locate n q base = some (bq, y))
    (lx : x.is_leaf = true) (ly : y.is_leaf = true) :
    p = q ∨ bx + x.points.length ≤ bq ∨ bq + y.points.length ≤ bx := by
  induction n generalizing p q base with
  | leaf ps =>
    cases p with
    | nil =>
      cases q with
      | nil => exact Or.inl rfl
      | cons _ _ => simp [locate] at hy
    | cons _ _ => simp [locate] at hx
  | inner l r ihl ihr =>
    cases p with
    | nil =>
      simp only [locate, Option.some.injEq, Prod.mk.injEq] at hx
      rw [← hx.2] at lx
      simp [NptNode.is_leaf] at lx
    | cons s p =>
      cases q with
      | nil =>
        simp only [locate, Option.some.injEq, Prod.mk.injEq] at hy
        rw [← hy.2] at ly
        simp [NptNode.is_leaf] at ly
      | cons s' q =>
        cases s <;> cases s' <;> simp only [locate] at hx hy
        · rcases ihr p q _ hx hy with h | h | h
          · exact Or.inl (by rw [h])
          · exact Or.inr (Or.inl h)
          · exact Or.inr (Or.inr h)
        · have h1 := locate_range _ _ _ _ _ hx
          have h2 := locate_range _ _ _ _ _ hy
          exact Or.inr (Or.inr (by omega))
        · have h1 := locate_range _ _ _ _ _ hx
          have h2 := locate_range _ _ _ _ _ hy
          exact Or.inr (Or.inl (by omega))
        · rcases ihl p q _ hx hy with h | h | h
          · exact Or.inl (by rw [h])
          · exact Or.inr (Or.inl h)
          · exact Or.inr (Or.inr h)

/-- On leaves of one tree the canonical order is antisymmetric. -/
theorem leaf_order_antisymm (root : NptNode P) (i : Nat) (x y : Slot P)
    (hx : RefersInto root i x) (hy : RefersInto root i y)
    (lx : x.node.is_leaf = true) (ly : y.node.is_leaf = true)
    (hxy : x.begin < y.stop) (hyx : y.begin < x.stop) : x = y := by
  rcases leaves_apart root x.path y.path 0 x.begin y.begin x.node y.node hx.2 hy.2 lx ly
    with h | h | h
  · rcases x with ⟨xt, xp, xb, xn⟩
    rcases y with ⟨yt, yp, yb, yn⟩
    simp only at h
    subst h
    have h1 := hx.2
    have h2 := hy.2
    simp only at h1 h2
    rw [h1] at h2
    simp only [Option.some.injEq, Prod.mk.injEq] at h2
    have ht : xt = yt := hx.1.trans hy.1.symm
    simp [ht, h2.1, h2.2]
  · simp only [Slot.stop] at hxy hyx; omega
  · simp only [Slot.stop] at hxy hyx; omega

theorem child_refersInto (root : NptNode P) (i : Nat) (sl : Slot P) (b : Bool)
    (h : RefersInto root i sl) (hleaf : sl.node.is_leaf = false) :
    RefersInto root i (sl.child b) ∧ (sl.child b).path = sl.path ++ [b] := by
  rcases sl with ⟨tree, path, bg, node⟩
  cases node with
  | leaf ps => simp [NptNode.is_leaf] at hleaf
  | inner l r =>
    obtain ⟨h1, h2⟩ := h
    simp only at h1 h2
    cases b
    · simp [Slot.child, RefersInto, h1, locate_append, h2, locate]
    · simp [Slot.child, RefersInto, h1, locate_append, h2, locate]

/-- A leaf of a tree that is not itself a leaf lies below the root. -/
theorem leaf_path_ne_nil (root : NptNode P) (i : Nat) (sl : Slot P)
    (h : RefersInto root i sl) (hroot : root.is_leaf = false)
    (hleaf : sl.node.is_leaf = true) : sl.path ≠ [] := by
  intro hp
  have h2 := h.2
  rw [hp] at h2
  simp only [locate, Option.some.injEq, Prod.mk.injEq] at h2
  rw [h2.2, hleaf] at hroot
  exact Bool.noConfusion hroot

theorem childAt_getElem? (slots : List (Slot P)) (j : Nat) (b : Bool) (j' : Nat) :
    (childAt slots j b)[j']?
      = if j' = j then (slots[j]?).map (fun sl => sl.child b) else slots[j']? := by
  induction slots generalizing j j' with
  | nil => simp [childAt]
  | cons x slots ih =>
    cases j with
    | zero =>
      cases j' with
      | zero => simp [childAt]
      | succ j' => simp [childAt]
    | succ j =>
      cases j' with
      | zero => simp [childAt]
      | succ j' => simp [childAt, ih]

theorem childAt_length (slots : List (Slot P)) (j : Nat) (b : Bool) :
    (childAt slots j b).length = slots.length := by
  induction slots generalizing j with
  | nil => simp [childAt]
  | cons x slots ih => cases j <;> simp [childAt, ih]

theorem Below_refl (t : NodeTuple P) : Below t t := by
  refine ⟨rfl, fun j x y hx hy => ?_⟩
  rw [hx] at hy
  cases hy
  exact List.prefix_rfl

/-- What lies below a child lies below the parent. -/
theorem Below_of_child (root : NptNode P) (i : Nat) (t a : NodeTuple P) (j : Nat) (b : Bool)
    (sl : Slot P) (hget : t.slots[j]? = some sl) (href : RefersInto root i sl)
    (hleaf : sl.node.is_leaf = false) (h : Below (t.child j b) a) : Below t a := by
  obtain ⟨hlen, hpre⟩ := h
  refine ⟨by simpa [NodeTuple.child, childAt_length] using hlen, fun j' x y hx hy => ?_⟩
  by_cases hj : j' = j
  · subst hj
    rw [hget] at hx
    cases hx
    have hc : (t.child j' b).slots[j']? = some (sl.child b) := by
      simp [NodeTuple.child, childAt_getElem?, hget]
    have := hpre j' _ y hc hy
    rw [(child_refersInto root i sl b href hleaf).2] at this
    exact (List.prefix_append _ _).trans this
  · have hc : (t.child j b).slots[j']? = some x := by
      simp [NodeTuple.child, childAt_getElem?, hj, hx]
    exact hpre j' x y hc hy

/-- A child that `CheckSymmetry` accepts is well-formed when its parent is. -/
theorem WellFormed_child (root : NptNode P) (i : Nat) (t : NodeTuple P) (j : Nat)
    (b : Bool) (sl : Slot P) (hget : t.slots[j]? = some sl)
    (hleaf : sl.node.is_leaf = false) (hw : WellFormed root i t)
    (hsym : t.CheckSymmetry j b = true) : WellFormed root i (t.child j b) := by
  obtain ⟨href, hord⟩ := hw
  have hs := getElem?_split t.slots j sl hget
  have hslmem : sl ∈ t.slots := by rw [hs]; simp
  have hc := child_refersInto root i sl b (href sl hslmem) hleaf
  have hpre : ∀ o ∈ t.slots.take j, RefersInto root i o :=
    fun o ho => href o (List.mem_of_mem_take ho)
  have hpost : ∀ o ∈ t.slots.drop (j + 1), RefersInto root i o :=
    fun o ho => href o (List.mem_of_mem_drop ho)
  simp only [NodeTuple.CheckSymmetry, hget, Bool.and_eq_true, List.all_eq_true,
    Bool.or_eq_true, bne_iff_ne, decide_eq_true_eq] at hsym
  constructor
  · intro o ho
    simp only [NodeTuple.child, childAt_eq t.slots j b sl hget, List.mem_append,
      List.mem_cons] at ho
    rcases ho with ho | rfl | ho
    · exact hpre o ho
    · exact hc.1
    · exact hpost o ho
  · simp only [CanonicalOrder, NodeTuple.child, childAt_eq t.slots j b sl hget]
    simp only [CanonicalOrder] at hord
    rw [hs, List.pairwise_append, List.pairwise_cons] at hord
    obtain ⟨h1, ⟨_, h3⟩, h4⟩ := hord
    rw [List.pairwise_append, List.pairwise_cons]
    refine ⟨h1, ⟨fun o ho _ => ?_, h3⟩, fun x hx y hy => ?_⟩
    · rcases hsym.2 o ho with h | h
      · exact absurd ((hpost o ho).1.trans hc.1.1.symm) h
      · exact h
    · rcases List.mem_cons.1 hy with rfl | hy
      · intro _
        rcases hsym.1 x hx with h | h
        · exact absurd ((hpre x hx).1.trans hc.1.1.symm) h
        · exact h
      · exact h4 x hx y (List.mem_cons_of_mem _ hy)

/-- All-leaves tuples below the two children of a tuple are never slot
permutations of one another. -/
theorem children_leaves_not_perm (root : NptNode P) (i : Nat) (t a c : NodeTuple P)
    (j : Nat) (sl : Slot P) (hget : t.slots[j]? = some sl) (href : RefersInto root i sl)
    (hleaf : sl.node.is_leaf = false) (hroot : root.is_leaf = false)
    (ha : Below (t.child j true) a) (hc : Below (t.child j false) c)
    (hwa : WellFormed root i a) (hwc : WellFormed root i c)
    (hla : a.all_leaves = true) (hlc : c.all_leaves = true) :
    ¬ List.Perm a.slots c.slots := by
  intro hperm
  simp only [NodeTuple.all_leaves, List.all_eq_true] at hla hlc
  have sorted : ∀ u : NodeTuple P, WellFormed root i u →
      (∀ x ∈ u.slots, x.node.is_leaf = true) →
      u.slots.Pairwise fun x y => x.begin < y.stop := by
    intro u hu hl
    refine List.Pairwise.imp_of_mem ?_ hu.2
    intro x y hx _ hxy
    exact hxy (Or.inl (leaf_path_ne_nil root i x (hu.1 x hx) hroot (hl x hx)))
  have heq : a.slots = c.slots :=
    List.Perm.eq_of_sorted
      (fun x y hx hy hxy hyx =>
        leaf_order_antisymm root i x y (hwa.1 x hx) (hwc.1 y hy) (hla x hx) (hlc y hy) hxy hyx)
      (sorted a hwa hla) (sorted c hwc hlc) hperm
  have hjlt : j < t.slots.length := by
    rcases Nat.lt_or_ge j t.slots.length with h | h
    · exact h
    · rw [List.getElem?_eq_none h] at hget; cases hget
  have hja : j < a.slots.length := by
    rw [ha.1]; simpa [NodeTuple.child, childAt_length] using hjlt
  have hya : a.slots[j]? = some (a.slots[j]) := List.getElem?_eq_getElem hja
  have hcl : ∀ b, (t.child j b).slots[j]? = some (sl.child b) := by
    intro b
    simp [NodeTuple.child, childAt_getElem?, hget]
  have p1 := ha.2 j _ _ (hcl true) hya
  have p2 := hc.2 j _ _ (hcl false) (by rw [← heq]; exact hya)
  rw [(child_refersInto root i sl true href hleaf).2] at p1
  rw [(child_refersInto root i sl false href hleaf).2] at p2
  have p3 := List.prefix_of_prefix_length_le p1 p2 (by simp)
  have p4 := p3.eq_of_length (by simp)
  have := List.append_cancel_left p4
  simp at this

/-! ## One representative per class of slot permutations -/

theorem baseCaseTuples_append (l₁ l₂ : List (Event NT)) :
    baseCaseTuples (l₁ ++ l₂) = baseCaseTuples l₁ ++ baseCaseTuples l₂ := by
  simp [baseCaseTuples, List.filterMap_append]

theorem root_not_leaf_of_ref (root : NptNode P) (i : Nat) (sl : Slot P)
    (h : RefersInto root i sl) (hleaf : sl.node.is_leaf = false) : root.is_leaf = false := by
  cases root with
  | inner l r => rfl
  | leaf ps =>
    have h2 := h.2
    cases hp : sl.path with
    | nil =>
      rw [hp] at h2
      simp only [locate, Option.some.injEq, Prod.mk.injEq] at h2
      rw [← h2.2] at hleaf
      simp [NptNode.is_leaf] at hleaf
    | cons s p =>
      rw [hp] at h2
      simp [locate] at h2

theorem Representatives_nil (root : NptNode P) (i : Nat) (t : NodeTuple P) :
    Representatives root i t [] := by
  simp [Representatives, baseCaseTuples]

/-- The base cases of a split call are those of its left side followed by those
of its right side. -/
theorem Representatives_split (root : NptNode P) (i : Nat) (t : NodeTuple P) (j : Nat)
    (sl : Slot P) (hget : t.slots[j]? = some sl) (href : RefersInto root i sl)
    (hleaf : sl.node.is_leaf = false) (new n1 n2 : List (Event (NodeTuple P)))
    (hnew : baseCaseTuples new = baseCaseTuples n1 ++ baseCaseTuples n2)
    (h1 : Representatives root i (t.child j true) n1)
    (h2 : Representatives root i (t.child j false) n2) :
    Representatives root i t new := by
  have hroot := root_not_leaf_of_ref root i sl href hleaf
  constructor
  · intro a ha
    rw [hnew, List.mem_append] at ha
    rcases ha with ha | ha
    · obtain ⟨hb, hw, hl⟩ := h1.1 a ha
      exact ⟨Below_of_child root i t a j true sl hget href hleaf hb, hw, hl⟩
    · obtain ⟨hb, hw, hl⟩ := h2.1 a ha
      exact ⟨Below_of_child root i t a j false sl hget href hleaf hb, hw, hl⟩
  · rw [hnew, List.pairwise_append]
    refine ⟨h1.2, h2.2, fun a ha c hc => ?_⟩
    obtain ⟨hba, hwa, hla⟩ := h1.1 a ha
    obtain ⟨hbc, hwc, hlc⟩ := h2.1 c hc
    exact children_leaves_not_perm root i t a c j sl hget href hleaf hroot hba hbc hwa hwc
      hla hlc

/-- Whatever the matcher answers, the traversal of a well-formed tuple of slots
of one tree hands to the base case only all-leaves tuples in canonical order,
and never two that are slot permutations of one another. -/
theorem DepthFirstRecursion_representatives (root : NptNode P) (i : Nat)
    (st : NodeTuple P → Nat) (hst : SplitsNonLeaf st) (mt : TMatcher (NodeTuple P) M F)
    (fuel : Nat) (t : NodeTuple P)
    (s : GenericNptAlg (List (Option (NptNode P) × Nat)) (NodeTuple P) M)
    (hw : WellFormed root i t) :
    ∃ new, (DepthFirstRecursion_ (specOps st) mt fuel t s).1.log = s.log ++ new ∧
      Representatives root i t new := by
  induction fuel generalizing t s with
  | zero => exact ⟨[], by simp [DepthFirstRecursion_], Representatives_nil root i t⟩
  | succ fuel ih =>
    have single : ∀ (pre post : List (Event (NodeTuple P))) (flag : Bool),
        baseCaseTuples pre = [] → baseCaseTuples post = [] → t.all_leaves = true →
        Representatives root i t (pre ++ .computeBaseCase t flag :: post) := by
      intro pre post flag hpre hpost hl
      have : baseCaseTuples (pre ++ .computeBaseCase t flag :: post) = [t] := by
        rw [baseCaseTuples_append, hpre]
        have : baseCaseTuples (Event.computeBaseCase t flag :: post)
            = t :: baseCaseTuples post := by simp [baseCaseTuples]
        rw [this, hpost]; rfl
      simp only [Representatives, this, List.mem_singleton, forall_eq,
        List.pairwise_singleton, and_true]
      exact ⟨Below_refl t, hw, hl⟩
    by_cases hl : t.all_leaves = true
    · cases hb : (mt.ComputeBaseCase t s.matcher_).2 with
      | none =>
        rw [DepthFirstRecursion_base (specOps st) mt fuel t s hl hb]
        exact ⟨_, rfl, single [.enter t] [.leave t .base] false rfl rfl hl⟩
      | some f =>
        rw [DepthFirstRecursion_base_fault (specOps st) mt fuel t s f hl hb]
        exact ⟨_, rfl, single [.enter t] [] true rfl rfl hl⟩
    · have hl' : t.all_leaves = false := by simpa using hl
      cases ht : (mt.TestNodeTuple t s.matcher_).2 with
      | error f =>
        rw [DepthFirstRecursion_test_fault (specOps st) mt fuel t s f hl' ht]
        exact ⟨_, rfl, by simp [Representatives, baseCaseTuples]⟩
      | ok b =>
        cases b with
        | false =>
          rw [DepthFirstRecursion_prune (specOps st) mt fuel t s hl' ht]
          exact ⟨_, rfl, by simp [Representatives, baseCaseTuples]⟩
        | true =>
          rw [DepthFirstRecursion_split (specOps st) mt fuel t s hl' ht]
          obtain ⟨sl, hget, hleaf⟩ := hst t hl'
          have hslmem : sl ∈ t.slots := by
            rw [getElem?_split t.slots (st t) sl hget]; simp
          have href := hw.1 sl hslmem
          have side : ∀ (b : Bool)
              (s' : GenericNptAlg (List (Option (NptNode P) × Nat)) (NodeTuple P) M),
              ∃ n, (recurseSide (specOps st) (DepthFirstRecursion_ (specOps st) mt fuel)
                  t b s').1.log = s'.log ++ n ∧
                Representatives root i (t.child (st t) b) n := by
            intro b s'
            unfold recurseSide
            by_cases hsym : t.CheckSymmetry (st t) b = true
            · have hsym' : (specOps st).CheckSymmetry t ((specOps st).ind_to_split t) b
                  = true := hsym
              simp only [hsym', if_true]
              obtain ⟨n, hlog, hrep⟩ := ih (t.child (st t) b)
                ((s'.record (.checkSymmetry t ((specOps st).ind_to_split t) b true)).record
                  (.construct t b))
                (WellFormed_child root i t (st t) b sl hget hleaf hw hsym)
              refine ⟨[.checkSymmetry t ((specOps st).ind_to_split t) b true,
                .construct t b] ++ n, ?_, ?_⟩
              · have : (specOps st).child t b = t.child (st t) b := rfl
                rw [this, hlog]; simp [GenericNptAlg.record]
              · have : baseCaseTuples ([.checkSymmetry t ((specOps st).ind_to_split t) b true,
                    .construct t b] ++ n) = baseCaseTuples n := by
                  rw [baseCaseTuples_append]; rfl
                simpa only [Representatives, this] using hrep
            · have hsym' : (specOps st).CheckSymmetry t ((specOps st).ind_to_split t) b
                  = false := by simpa using hsym
              simp only [hsym', if_false, Bool.false_eq_true]
              exact ⟨[.checkSymmetry t ((specOps st).ind_to_split t) b false],
                by simp [GenericNptAlg.record], by simp [Representatives, baseCaseTuples]⟩
          obtain ⟨n1, hlog1, hrep1⟩ := side true
            { s with matcher_ := (mt.TestNodeTuple t s.matcher_).1,
                     log := s.log ++ [.enter t, .testNodeTuple t (some true)] }
          rcases hL : recurseSide (specOps st) (DepthFirstRecursion_ (specOps st) mt fuel)
              t true
              { s with matcher_ := (mt.TestNodeTuple t s.matcher_).1,
                       log := s.log ++ [.enter t, .testNodeTuple t (some true)] }
            with ⟨s2, o2⟩
          rw [hL] at hlog1
          simp only at hlog1
          have stop1 : Representatives root i t
              ([.enter t, .testNodeTuple t (some true)] ++ n1) :=
            Representatives_split root i t (st t) sl hget href hleaf _ n1 []
              (by rw [baseCaseTuples_append]; simp [baseCaseTuples]) hrep1
              (Representatives_nil root i _)
          cases o2 with
          | returned =>
            simp only [andThen]
            obtain ⟨n2, hlog2, hrep2⟩ := side false s2
            rcases hR : recurseSide (specOps st) (DepthFirstRecursion_ (specOps st) mt fuel)
                t false s2 with ⟨s3, o3⟩
            rw [hR] at hlog2
            simp only at hlog2
            have stop2 : ∀ tail : List (Event (NodeTuple P)), baseCaseTuples tail = [] →
                Representatives root i t
                  ([.enter t, .testNodeTuple t (some true)] ++ n1 ++ n2 ++ tail) := by
              intro tail htail
              refine Representatives_split root i t (st t) sl hget href hleaf _ n1 n2 ?_
                hrep1 hrep2
              rw [baseCaseTuples_append, baseCaseTuples_append, baseCaseTuples_append, htail]
              simp [baseCaseTuples]
            cases o3 with
            | returned =>
              refine ⟨[.enter t, .testNodeTuple t (some true)] ++ n1 ++ n2 ++
                [.leave t (.split ((specOps st).CheckSymmetry t ((specOps st).ind_to_split t) true)
                  ((specOps st).CheckSymmetry t ((specOps st).ind_to_split t) false))], ?_,
                stop2 [.leave t (.split
                  ((specOps st).CheckSymmetry t ((specOps st).ind_to_split t) true)
                  ((specOps st).CheckSymmetry t ((specOps st).ind_to_split t) false))] rfl⟩
              simp [GenericNptAlg.record, hlog2, hlog1]
            | fault f =>
              exact ⟨[.enter t, .testNodeTuple t (some true)] ++ n1 ++ n2 ++ [],
                by simp [hlog2, hlog1], stop2 [] rfl⟩
            | configError e =>
              exact ⟨[.enter t, .testNodeTuple t (some true)] ++ n1 ++ n2 ++ [],
                by simp [hlog2, hlog1], stop2 [] rfl⟩
            | outOfFuel =>
              exact ⟨[.enter t, .testNodeTuple t (some true)] ++ n1 ++ n2 ++ [],
                by simp [hlog2, hlog1], stop2 [] rfl⟩
          | fault f =>
            exact ⟨_, by simp only [andThen, hlog1, List.append_assoc], stop1⟩
          | configError e =>
            exact ⟨_, by simp only [andThen, hlog1, List.append_assoc], stop1⟩
          | outOfFuel =>
            exact ⟨_, by simp only [andThen, hlog1, List.append_assoc], stop1⟩

theorem Construct_single (tree : NptNode P) (k : Nat) (hk : k ≠ 0) :
    NodeTuple.Construct [(some tree, k)]
      = .ok ⟨List.replicate k ⟨0, [], 0, tree⟩⟩ := by
  simp [NodeTuple.Construct, rootSlots, hk]

theorem WellFormed_single (tree : NptNode P) (k : Nat) :
    WellFormed tree 0 ⟨List.replicate k ⟨0, [], 0, tree⟩⟩ := by
  constructor
  · intro sl hsl
    rw [(List.mem_replicate.1 hsl).2]
    exact ⟨rfl, by cases tree <;> simp [locate]⟩
  · simp only [CanonicalOrder, List.pairwise_replicate]
    right
    intro h
    rcases h with h | h <;> exact absurd rfl h

theorem heightSum_single (tree : NptNode P) (k : Nat) :
    (⟨List.replicate k ⟨0, [], 0, tree⟩⟩ : NodeTuple P).heightSum = k * tree.height := by
  simp [NodeTuple.heightSum, List.map_replicate, List.sum_replicate]

/-- C2 (as amended).  One tree filling `k ≥ 2` slots, the spec's node tuples and
counting matcher with a sound prune test, fuel above `k` times the tree's
height: recursive-mode `Compute` returns and has added to the count exactly the
number of `k`-element subsets of the tree's points that satisfy the criterion;
every tuple handed to a base case is all-leaves and in canonical order, and no
two tuples handed to a base case are slot permutations of one another (so of
the node assignments that are slot permutations of one another at most one is
handed to a base case, and none twice). -/
theorem no_duplication (F : Type) (st : NodeTuple P → Nat)
    (criterion : List P → Bool) (test : NodeTuple P → Bool)
    (hst : SplitsNonLeaf st) (hsound : SoundTest criterion test)
    (tree : NptNode P) (k m fuel : Nat) (hk : 2 ≤ k) (hfuel : k * tree.height < fuel) :
    (Compute (specOps st) (countingMatcher F criterion test) fuel
        (GenericNptAlg.fresh [(some tree, k)] m false)).2 = .returned ∧
    (Compute (specOps st) (countingMatcher F criterion test) fuel
        (GenericNptAlg.fresh [(some tree, k)] m false)).1.matcher_
      = m + ((tree.points.sublistsLen k).filter criterion).length ∧
    (∀ a ∈ baseCaseTuples
        (Compute (specOps st) (countingMatcher F criterion test) fuel
          (GenericNptAlg.fresh [(some tree, k)] m false)).1.log,
      a.all_leaves = true ∧ CanonicalOrder a) ∧
    (baseCaseTuples
        (Compute (specOps st) (countingMatcher F criterion test) fuel
          (GenericNptAlg.fresh [(some tree, k)] m false)).1.log).Pairwise
      fun a c => ¬ List.Perm a.slots c.slots := by
  have hc := Construct_single tree k (by omega)
  rw [Compute_recursive (specOps st) (countingMatcher F criterion test) fuel
    (GenericNptAlg.fresh [(some tree, k)] m false) _ hc rfl]
  obtain ⟨h1, h2⟩ := DepthFirstRecursion_counts F st criterion test hst hsound fuel
    ⟨List.replicate k ⟨0, [], 0, tree⟩⟩ (GenericNptAlg.fresh [(some tree, k)] m false)
    (by rw [heightSum_single]; exact hfuel)
  obtain ⟨new, hlog, hrep⟩ := DepthFirstRecursion_representatives tree 0 st hst
    (countingMatcher F criterion test) fuel ⟨List.replicate k ⟨0, [], 0, tree⟩⟩
    (GenericNptAlg.fresh [(some tree, k)] m false) (WellFormed_single tree k)
  have hnew : (DepthFirstRecursion_ (specOps st) (countingMatcher F criterion test) fuel
      ⟨List.replicate k ⟨0, [], 0, tree⟩⟩
      (GenericNptAlg.fresh [(some tree, k)] m false)).1.log = new := by
    rw [hlog]; simp [GenericNptAlg.fresh]
  rw [hnew]
  refine ⟨h1, ?_, fun a ha => ?_, hrep.2⟩
  · rw [h2, matchCount_replicate]
    rfl
  · obtain ⟨_, hw, hl⟩ := hrep.1 a ha
    exact ⟨hl, hw.2⟩

/-- C2, witness: the tree with two far-apart halves filling two slots, points
matching within distance 1: the two matching pairs are counted once each. -/
theorem no_duplication_witness :
    SplitsNonLeaf (NodeTuple.firstNonLeaf : NodeTuple Nat → Nat) ∧
    SoundTest (within 1) (exactTest (within 1)) ∧
    (Compute (specOps NodeTuple.firstNonLeaf)
        (countingMatcher Unit (within 1) (exactTest (within 1))) 5
        (GenericNptAlg.fresh [(some splitTree, 2)] 0 false)).1.matcher_
      = 0 + ((splitTree.points.sublistsLen 2).filter (within 1)).length ∧
    ((splitTree.points.sublistsLen 2).filter (within 1)).length = 2 :=
  ⟨firstNonLeaf_splits,
   fun t h => by simpa [exactTest] using h,
   (no_duplication Unit NodeTuple.firstNonLeaf (within 1) (exactTest (within 1))
      firstNonLeaf_splits (fun t h => by simpa [exactTest] using h)
      splitTree 2 0 5 (by decide) (by decide)).2.1,
   by decide⟩

/-- C2, counterexample.  The tree with two far-apart halves fills two slots and
points match within distance 1, with the sharpest sound prune test.  The run
returns with the right count 2, but of the two node assignments that put the
leaves holding 10 and 20 in the two slots, slot permutations of one another,
neither is handed to a base case: their common ancestor was pruned. -/
theorem one_representative_fails_when_pruned :
    SoundTest (within 1) (exactTest (within 1)) ∧
    (Compute (specOps NodeTuple.firstNonLeaf)
        (countingMatcher Unit (within 1) (exactTest (within 1))) 5
        (GenericNptAlg.fresh [(some splitTree, 2)] 0 false)).2 = .returned ∧
    (Compute (specOps NodeTuple.firstNonLeaf)
        (countingMatcher Unit (within 1) (exactTest (within 1))) 5
        (GenericNptAlg.fresh [(some splitTree, 2)] 0 false)).1.matcher_ = 2 ∧
    (⟨[⟨0, [true, true], 0, .leaf [10]⟩, ⟨0, [false, true], 2, .leaf [20]⟩]⟩ : NodeTuple Nat)
      ∉ baseCaseTuples (Compute (specOps NodeTuple.firstNonLeaf)
        (countingMatcher Unit (within 1) (exactTest (within 1))) 5
        (GenericNptAlg.fresh [(some splitTree, 2)] 0 false)).1.log ∧
    (⟨[⟨0, [false, true], 2, .leaf [20]⟩, ⟨0, [true, true], 0, .leaf [10]⟩]⟩ : NodeTuple Nat)
      ∉ baseCaseTuples (Compute (specOps NodeTuple.firstNonLeaf)
        (countingMatcher Unit (within 1) (exactTest (within 1))) 5
        (GenericNptAlg.fresh [(some splitTree, 2)] 0 false)).1.log := by
  refine ⟨fun t h => by simpa [exactTest] using h, ?_, ?_, ?_, ?_⟩ <;> decide

/-! ## Single calls: the base-case branch, the prune branch, naive mode -/

/-- C12.  On a tuple with `all_leaves` true, one call of `DepthFirstRecursion_`
makes exactly one matcher call, `ComputeBaseCase` on that tuple: the prune test
is not evaluated, whatever it would answer, no `CheckSymmetry` is asked and no
child tuple is constructed.  When the base case returns, `num_base_cases_` has
grown by exactly 1 and `num_prunes_` is unchanged; when it raises a fault the
call ends with that fault and both counters are unchanged. -/
theorem all_leaves_runs_base_case (ops : NodeTupleOps Trees NT E) (mt : TMatcher NT M F)
    (fuel : Nat) (nodes : NT) (s : GenericNptAlg Trees NT M)
    (hl : ops.all_leaves nodes = true) :
    DepthFirstRecursion_ ops mt (fuel + 1) nodes s
      = match (mt.ComputeBaseCase nodes s.matcher_).2 with
        | none =>
          ({ s with matcher_ := (mt.ComputeBaseCase nodes s.matcher_).1,
                    num_base_cases_ := s.num_base_cases_ + 1,
                    log := s.log ++ [.enter nodes, .computeBaseCase nodes false,
                      .leave nodes .base] }, .returned)
        | some f =>
          ({ s with matcher_ := (mt.ComputeBaseCase nodes s.matcher_).1,
                    log := s.log ++ [.enter nodes, .computeBaseCase nodes true] },
           .fault f) := by
  cases hb : (mt.ComputeBaseCase nodes s.matcher_).2 with
  | none => exact DepthFirstRecursion_base ops mt fuel nodes s hl hb
  | some f => exact DepthFirstRecursion_base_fault ops mt fuel nodes s f hl hb

/-- C12, witness: two single-leaf trees, one slot each, with a prune test that
would reject the tuple: the base case is run all the same. -/
theorem all_leaves_runs_base_case_witness :
    (specOps NodeTuple.firstNonLeaf).all_leaves
      ⟨[⟨0, [], 0, leafA⟩, ⟨1, [], 0, leafB⟩]⟩ = true ∧
    DepthFirstRecursion_ (specOps NodeTuple.firstNonLeaf)
        (countingMatcher Unit (within 4) fun _ => false) (0 + 1)
        ⟨[⟨0, [], 0, leafA⟩, ⟨1, [], 0, leafB⟩]⟩
        (GenericNptAlg.fresh [(some leafA, 1), (some leafB, 1)] 0 false)
      = ({ matcher_ := 1, trees_ := [(some leafA, 1), (some leafB, 1)], num_prunes_ := 0,
           num_base_cases_ := 1, do_naive_ := false,
           log := [.enter ⟨[⟨0, [], 0, leafA⟩, ⟨1, [], 0, leafB⟩]⟩,
                   .computeBaseCase ⟨[⟨0, [], 0, leafA⟩, ⟨1, [], 0, leafB⟩]⟩ false,
                   .leave ⟨[⟨0, [], 0, leafA⟩, ⟨1, [], 0, leafB⟩]⟩ .base] },
         .returned) :=
  ⟨by decide,
   all_leaves_runs_base_case (specOps NodeTuple.firstNonLeaf)
     (countingMatcher Unit (within 4) fun _ => false) 0
     ⟨[⟨0, [], 0, leafA⟩, ⟨1, [], 0, leafB⟩]⟩
     (GenericNptAlg.fresh [(some leafA, 1), (some leafB, 1)] 0 false) (by decide)⟩

/-- C13.  On a tuple with `all_leaves` false on which the matcher's prune test
returns false, one call of `DepthFirstRecursion_` makes that one matcher call
and returns: `num_prunes_` has grown by exactly 1, `num_base_cases_` is
unchanged, the matcher is as the prune test left it, and the log shows no base
case, no `CheckSymmetry` and no child construction. -/
theorem prune_counts_and_returns (ops : NodeTupleOps Trees NT E) (mt : TMatcher NT M F)
    (fuel : Nat) (nodes : NT) (s : GenericNptAlg Trees NT M) (m' : M)
    (hl : ops.all_leaves nodes = false)
    (ht : mt.TestNodeTuple nodes s.matcher_ = (m', .ok false)) :
    DepthFirstRecursion_ ops mt (fuel + 1) nodes s
      = ({ s with matcher_ := m', num_prunes_ := s.num_prunes_ + 1,
                  log := s.log ++ [.enter nodes, .testNodeTuple nodes (some false),
                    .leave nodes .prune] }, .returned) := by
  rw [DepthFirstRecursion_prune ops mt fuel nodes s hl (by rw [ht]), ht]

/-- C13, witness: the left half of the tree with two far-apart halves in slot 0
and its right half in slot 1 hold no pair within distance 1, and the sharpest
sound prune test rejects the tuple. -/
theorem prune_counts_and_returns_witness :
    (specOps NodeTuple.firstNonLeaf).all_leaves
      ⟨[⟨0, [true], 0, .inner (.leaf [10]) (.leaf [11])⟩,
        ⟨0, [false], 2, .inner (.leaf [20]) (.leaf [21])⟩]⟩ = false ∧
    DepthFirstRecursion_ (specOps NodeTuple.firstNonLeaf)
        (countingMatcher Unit (within 1) (exactTest (within 1))) (0 + 1)
        ⟨[⟨0, [true], 0, .inner (.leaf [10]) (.leaf [11])⟩,
          ⟨0, [false], 2, .inner (.leaf [20]) (.leaf [21])⟩]⟩
        (GenericNptAlg.fresh [(some splitTree, 2)] 3 false)
      = ({ matcher_ := 3, trees_ := [(some splitTree, 2)], num_prunes_ := 1,
           num_base_cases_ := 0, do_naive_ := false,
           log := [.enter ⟨[⟨0, [true], 0, .inner (.leaf [10]) (.leaf [11])⟩,
                     ⟨0, [false], 2, .inner (.leaf [20]) (.leaf [21])⟩]⟩,
                   .testNodeTuple ⟨[⟨0, [true], 0, .inner (.leaf [10]) (.leaf [11])⟩,
                     ⟨0, [false], 2, .inner (.leaf [20]) (.leaf [21])⟩]⟩ (some false),
                   .leave ⟨[⟨0, [true], 0, .inner (.leaf [10]) (.leaf [11])⟩,
                     ⟨0, [false], 2, .inner (.leaf [20]) (.leaf [21])⟩]⟩ .prune] },
         .returned) :=
  ⟨by decide,
   prune_counts_and_returns (specOps NodeTuple.firstNonLeaf)
     (countingMatcher Unit (within 1) (exactTest (within 1))) 0
     ⟨[⟨0, [true], 0, .inner (.leaf [10]) (.leaf [11])⟩,
       ⟨0, [false], 2, .inner (.leaf [20]) (.leaf [21])⟩]⟩
     (GenericNptAlg.fresh [(some splitTree, 2)] 3 false) 3 (by decide) rfl⟩

/-- C18.  In naive mode `Compute` leaves both counters as they were, on every
engine state; when the root tuple is built, the run is nevertheless one base
case on the root tuple. -/
theorem naive_leaves_counters (ops : NodeTupleOps Trees NT E) (mt : TMatcher NT M F)
    (fuel : Nat) (s : GenericNptAlg Trees NT M) (hn : s.do_naive_ = true) :
    (Compute ops mt fuel s).1.num_base_cases_ = s.num_base_cases_ ∧
    (Compute ops mt fuel s).1.num_prunes_ = s.num_prunes_ ∧
    ∀ root, ops.Construct s.trees_ = .ok root →
      (Compute ops mt fuel s).1.log
        = s.log ++ [.computeBaseCase root (mt.ComputeBaseCase root s.matcher_).2.isSome] ∧
      (Compute ops mt fuel s).1.matcher_ = (mt.ComputeBaseCase root s.matcher_).1 := by
  cases hc : ops.Construct s.trees_ with
  | error e =>
    have : Compute ops mt fuel s = (s, .configError e) := by simp [Compute, hc]
    rw [this]
    exact ⟨rfl, rfl, fun root h => by cases h⟩
  | ok root =>
    rw [Compute_naive ops mt fuel s root hc hn]
    refine ⟨rfl, rfl, fun root' h => ?_⟩
    cases h
    exact ⟨rfl, rfl⟩

/-- C18, witness: the sample tree filling two slots, naive mode, counters
already at 3 and 5. -/
theorem naive_leaves_counters_witness :
    (Compute (specOps NodeTuple.firstNonLeaf)
        (countingMatcher Unit (within 2) fun _ => true) 0
        { matcher_ := 0, trees_ := [(some sampleTree, 2)], num_prunes_ := 3,
          num_base_cases_ := 5, do_naive_ := true, log := [] }).1.num_base_cases_ = 5 ∧
    (Compute (specOps NodeTuple.firstNonLeaf)
        (countingMatcher Unit (within 2) fun _ => true) 0
        { matcher_ := 0, trees_ := [(some sampleTree, 2)], num_prunes_ := 3,
          num_base_cases_ := 5, do_naive_ := true, log := [] }).1.num_prunes_ = 3 :=
  ⟨(naive_leaves_counters (specOps NodeTuple.firstNonLeaf)
      (countingMatcher Unit (within 2) fun _ => true) 0
      { matcher_ := 0, trees_ := [(some sampleTree, 2)], num_prunes_ := 3,
        num_base_cases_ := 5, do_naive_ := true, log := [] } rfl).1,
   (naive_leaves_counters (specOps NodeTuple.firstNonLeaf)
      (countingMatcher Unit (within 2) fun _ => true) 0
      { matcher_ := 0, trees_ := [(some sampleTree, 2)], num_prunes_ := 3,
        num_base_cases_ := 5, do_naive_ := true, log := [] } rfl).2.1⟩

/-! ## Determinism: the result of a run does not depend on the depth allowance -/

theorem recurseSide_congr (ops : NodeTupleOps Trees NT E)
    (r₁ r₂ : NT → GenericNptAlg Trees NT M → GenericNptAlg Trees NT M × Outcome F E)
    (h : ∀ n s, (r₂ n s).2 ≠ .outOfFuel → r₁ n s = r₂ n s)
    (nodes : NT) (b : Bool) (s : GenericNptAlg Trees NT M)
    (hne : (recurseSide ops r₂ nodes b s).2 ≠ .outOfFuel) :
    recurseSide ops r₁ nodes b s = recurseSide ops r₂ nodes b s := by
  unfold recurseSide at hne ⊢
  by_cases hs : ops.CheckSymmetry nodes (ops.ind_to_split nodes) b = true
  · simp only [hs, if_true] at hne ⊢
    exact h _ _ hne
  · simp only [hs, if_false, Bool.false_eq_true]

theorem andThen_outOfFuel (r : GenericNptAlg Trees NT M × Outcome F E)
    (k : GenericNptAlg Trees NT M → GenericNptAlg Trees NT M × Outcome F E)
    (h : (andThen r k).2 ≠ .outOfFuel) :
    r.2 ≠ .outOfFuel ∧ ∀ s, r = (s, .returned) → (k s).2 ≠ .outOfFuel := by
  rcases r with ⟨s, o⟩
  cases o with
  | returned =>
    refine ⟨by simp, fun s' hs' => ?_⟩
    cases hs'
    simpa [andThen] using h
  | fault f => exact ⟨by simp, fun s' hs' => by cases hs'⟩
  | configError e => exact ⟨by simp, fun s' hs' => by cases hs'⟩
  | outOfFuel => exact absurd rfl h

/-- A call that did not run out of depth gives the same result with one more
level allowed. -/
theorem DepthFirstRecursion_fuel_succ (ops : NodeTupleOps Trees NT E) (mt : TMatcher NT M F)
    (fuel : Nat) (nodes : NT) (s : GenericNptAlg Trees NT M)
    (h : (DepthFirstRecursion_ ops mt fuel nodes s).2 ≠ .outOfFuel) :
    DepthFirstRecursion_ ops mt (fuel + 1) nodes s = DepthFirstRecursion_ ops mt fuel nodes s := by
  induction fuel generalizing nodes s with
  | zero => exact absurd rfl h
  | succ fuel ih =>
    by_cases hl : ops.all_leaves nodes = true
    · cases hb : (mt.ComputeBaseCase nodes s.matcher_).2 with
      | none =>
        rw [DepthFirstRecursion_base ops mt (fuel + 1) nodes s hl hb,
          DepthFirstRecursion_base ops mt fuel nodes s hl hb]
      | some f =>
        rw [DepthFirstRecursion_base_fault ops mt (fuel + 1) nodes s f hl hb,
          DepthFirstRecursion_base_fault ops mt fuel nodes s f hl hb]
    · have hl' : ops.all_leaves nodes = false := by simpa using hl
      cases ht : (mt.TestNodeTuple nodes s.matcher_).2 with
      | error f =>
        rw [DepthFirstRecursion_test_fault ops mt (fuel + 1) nodes s f hl' ht,
          DepthFirstRecursion_test_fault ops mt fuel nodes s f hl' ht]
      | ok b =>
        cases b with
        | false =>
          rw [DepthFirstRecursion_prune ops mt (fuel + 1) nodes s hl' ht,
            DepthFirstRecursion_prune ops mt fuel nodes s hl' ht]
        | true =>
          rw [DepthFirstRecursion_split ops mt fuel nodes s hl' ht] at h
          rw [DepthFirstRecursion_split ops mt (fuel + 1) nodes s hl' ht,
            DepthFirstRecursion_split ops mt fuel nodes s hl' ht]
          obtain ⟨h1, h2⟩ := andThen_outOfFuel _ _ h
          rw [recurseSide_congr ops _ _ (fun n s hn => ih n s hn) nodes true _ h1]
          rcases hL : recurseSide ops (DepthFirstRecursion_ ops mt fuel) nodes true
              { s with matcher_ := (mt.TestNodeTuple nodes s.matcher_).1,
                       log := s.log ++ [.enter nodes, .testNodeTuple nodes (some true)] }
            with ⟨s2, o2⟩
          cases o2 with
          | returned =>
            simp only [andThen]
            have h3 := h2 s2 hL
            obtain ⟨h4, _⟩ := andThen_outOfFuel _ _ h3
            rw [recurseSide_congr ops _ _ (fun n s hn => ih n s hn) nodes false _ h4]
          | fault f => rfl
          | configError e => rfl
          | outOfFuel => rfl

theorem DepthFirstRecursion_fuel_le (ops : NodeTupleOps Trees NT E) (mt : TMatcher NT M F)
    (fuel fuel' : Nat) (nodes : NT) (s : GenericNptAlg Trees NT M)
    (h : (DepthFirstRecursion_ ops mt fuel nodes s).2 ≠ .outOfFuel) (hle : fuel ≤ fuel') :
    DepthFirstRecursion_ ops mt fuel' nodes s = DepthFirstRecursion_ ops mt fuel nodes s := by
  induction hle with
  | refl => rfl
  | step _ ih =>
    rw [DepthFirstRecursion_fuel_succ ops mt _ nodes s (by rw [ih]; exact h), ih]

theorem Compute_fuel_le (ops : NodeTupleOps Trees NT E) (mt : TMatcher NT M F)
    (fuel fuel' : Nat) (s : GenericNptAlg Trees NT M)
    (h : (Compute ops mt fuel s).2 ≠ .outOfFuel) (hle : fuel ≤ fuel') :
    Compute ops mt fuel' s = Compute ops mt fuel s := by
  unfold Compute at h ⊢
  cases hc : ops.Construct s.trees_ with
  | error e => rfl
  | ok root =>
    simp only [hc] at h ⊢
    by_cases hn : s.do_naive_ = true
    · simp only [hn, if_true]
    · simp only [hn, if_false, Bool.false_eq_true] at h ⊢
      exact DepthFirstRecursion_fuel_le ops mt fuel fuel' root s h hle

/-- C11.  Two runs of `Compute` on engines constructed from the same trees,
matcher state and naive flag, each with whatever depth allowance lets it
finish, end in the same way with the same engine state: identical
`num_base_cases_`, identical `num_prunes_`, identical matcher state and the
same sequence of calls in the log. -/
theorem compute_deterministic (ops : NodeTupleOps Trees NT E) (mt : TMatcher NT M F)
    (trees : Trees) (m : M) (do_naive : Bool) (fuel₁ fuel₂ : Nat)
    (h₁ : (Compute ops mt fuel₁ (GenericNptAlg.fresh trees m do_naive)).2 ≠ .outOfFuel)
    (h₂ : (Compute ops mt fuel₂ (GenericNptAlg.fresh trees m do_naive)).2 ≠ .outOfFuel) :
    Compute ops mt fuel₁ (GenericNptAlg.fresh trees m do_naive)
      = Compute ops mt fuel₂ (GenericNptAlg.fresh trees m do_naive) := by
  rcases Nat.le_total fuel₁ fuel₂ with hle | hle
  · exact (Compute_fuel_le ops mt fuel₁ fuel₂ _ h₁ hle).symm
  · exact Compute_fuel_le ops mt fuel₂ fuel₁ _ h₂ hle

/-- C11, witness: the tree with two far-apart halves filling two slots, run with
depth allowances 5 and 9. -/
theorem compute_deterministic_witness :
    (Compute (specOps NodeTuple.firstNonLeaf)
        (countingMatcher Unit (within 1) (exactTest (within 1))) 5
        (GenericNptAlg.fresh [(some splitTree, 2)] 0 false)).2 ≠ .outOfFuel ∧
    Compute (specOps NodeTuple.firstNonLeaf)
        (countingMatcher Unit (within 1) (exactTest (within 1))) 5
        (GenericNptAlg.fresh [(some splitTree, 2)] 0 false)
      = Compute (specOps NodeTuple.firstNonLeaf)
        (countingMatcher Unit (within 1) (exactTest (within 1))) 9
        (GenericNptAlg.fresh [(some splitTree, 2)] 0 false) :=
  ⟨by decide,
   compute_deterministic (specOps NodeTuple.firstNonLeaf)
     (countingMatcher Unit (within 1) (exactTest (within 1)))
     [(some splitTree, 2)] 0 false 5 9 (by decide) (by decide)⟩

/-! ## The split branch: a side is visited exactly when its symmetry check holds -/

theorem SameButLog_refl (a : GenericNptAlg Trees NT M) : SameButLog a a :=
  ⟨rfl, rfl, rfl, rfl, rfl⟩

theorem SameButLog_trans {a b c : GenericNptAlg Trees NT M} (h₁ : SameButLog a b)
    (h₂ : SameButLog b c) : SameButLog a c :=
  ⟨h₁.1.trans h₂.1, h₁.2.1.trans h₂.2.1, h₁.2.2.1.trans h₂.2.2.1,
    h₁.2.2.2.1.trans h₂.2.2.2.1, h₁.2.2.2.2.trans h₂.2.2.2.2⟩

theorem SameButLog_record (a : GenericNptAlg Trees NT M) (e : Event NT) :
    SameButLog (a.record e) a :=
  ⟨rfl, rfl, rfl, rfl, rfl⟩

/-- The log already present has no influence on what a call does to the matcher
and the counters, nor on how it ends. -/
theorem DepthFirstRecursion_sameButLog (ops : NodeTupleOps Trees NT E) (mt : TMatcher NT M F)
    (fuel : Nat) (nodes : NT) (s s' : GenericNptAlg Trees NT M) (h : SameButLog s s') :
    SameButLog (DepthFirstRecursion_ ops mt fuel nodes s).1
        (DepthFirstRecursion_ ops mt fuel nodes s').1 ∧
      (DepthFirstRecursion_ ops mt fuel nodes s).2
        = (DepthFirstRecursion_ ops mt fuel nodes s').2 := by
  have key : ∀ x : GenericNptAlg Trees NT M,
      x = ({ x with log := [] } : GenericNptAlg Trees NT M).shift 0 0 x.log := by
    intro x
    simp [GenericNptAlg.shift]
  have hz : ({ s with log := [] } : GenericNptAlg Trees NT M) = { s' with log := [] } := by
    rcases s with ⟨m1, t1, p1, b1, n1, l1⟩
    rcases s' with ⟨m2, t2, p2, b2, n2, l2⟩
    obtain ⟨h1, h2, h3, h4, h5⟩ := h
    simp only at h1 h2 h3 h4 h5
    simp [h1, h2, h3, h4, h5]
  rw [key s, key s', DepthFirstRecursion_shift, DepthFirstRecursion_shift, hz]
  exact ⟨⟨rfl, rfl, by simp [GenericNptAlg.shift], by simp [GenericNptAlg.shift], rfl⟩, rfl⟩

/-- C14.  On a tuple that is not all-leaves and that the prune test accepts, one
call of `DepthFirstRecursion_` is: the left side, then the right side, then the
return, where a side whose `CheckSymmetry` is true constructs the child and
recurses into it, and a side whose `CheckSymmetry` is false only logs the check.
Hence a refused side contributes nothing: with only one side permitted, the
matcher, the counters and the outcome are those of the recursion into that side
started right after the prune test; with both refused the call returns with
both counters unchanged and the matcher as the prune test left it. -/
theorem symmetry_gates_sides (ops : NodeTupleOps Trees NT E) (mt : TMatcher NT M F)
    (fuel : Nat) (nodes : NT) (s : GenericNptAlg Trees NT M) (m' : M)
    (hl : ops.all_leaves nodes = false)
    (ht : mt.TestNodeTuple nodes s.matcher_ = (m', .ok true)) :
    (DepthFirstRecursion_ ops mt (fuel + 1) nodes s
      = andThen
          (if ops.CheckSymmetry nodes (ops.ind_to_split nodes) true then
            DepthFirstRecursion_ ops mt fuel (ops.child nodes true)
              (((afterTest s nodes m').record
                (.checkSymmetry nodes (ops.ind_to_split nodes) true true)).record
                (.construct nodes true))
          else
            ((afterTest s nodes m').record
              (.checkSymmetry nodes (ops.ind_to_split nodes) true false), .returned))
          fun s2 =>
        andThen
          (if ops.CheckSymmetry nodes (ops.ind_to_split nodes) false then
            DepthFirstRecursion_ ops mt fuel (ops.child nodes false)
              ((s2.record (.checkSymmetry nodes (ops.ind_to_split nodes) false true)).record
                (.construct nodes false))
          else
            (s2.record (.checkSymmetry nodes (ops.ind_to_split nodes) false false),
              .returned))
          fun s3 =>
        (s3.record (.leave nodes
          (.split (ops.CheckSymmetry nodes (ops.ind_to_split nodes) true)
                  (ops.CheckSymmetry nodes (ops.ind_to_split nodes) false))), .returned)) ∧
    (ops.CheckSymmetry nodes (ops.ind_to_split nodes) true = false →
      ops.CheckSymmetry nodes (ops.ind_to_split nodes) false = false →
      DepthFirstRecursion_ ops mt (fuel + 1) nodes s
        = ({ s with matcher_ := m',
                    log := s.log ++ [.enter nodes, .testNodeTuple nodes (some true),
                      .checkSymmetry nodes (ops.ind_to_split nodes) true false,
                      .checkSymmetry nodes (ops.ind_to_split nodes) false false,
                      .leave nodes (.split false false)] }, .returned)) ∧
    (ops.CheckSymmetry nodes (ops.ind_to_split nodes) true = true →
      ops.CheckSymmetry nodes (ops.ind_to_split nodes) false = false →
      SameButLog (DepthFirstRecursion_ ops mt (fuel + 1) nodes s).1
          (DepthFirstRecursion_ ops mt fuel (ops.child nodes true) (afterTest s nodes m')).1 ∧
        (DepthFirstRecursion_ ops mt (fuel + 1) nodes s).2
          = (DepthFirstRecursion_ ops mt fuel (ops.child nodes true)
              (afterTest s nodes m')).2) ∧
    (ops.CheckSymmetry nodes (ops.ind_to_split nodes) true = false →
      ops.CheckSymmetry nodes (ops.ind_to_split nodes) false = true →
      SameButLog (DepthFirstRecursion_ ops mt (fuel + 1) nodes s).1
          (DepthFirstRecursion_ ops mt fuel (ops.child nodes false) (afterTest s nodes m')).1 ∧
        (DepthFirstRecursion_ ops mt (fuel + 1) nodes s).2
          = (DepthFirstRecursion_ ops mt fuel (ops.child nodes false)
              (afterTest s nodes m')).2) := by
  have hsplit := DepthFirstRecursion_split ops mt fuel nodes s hl (by rw [ht])
  rw [ht] at hsplit
  have hmain : DepthFirstRecursion_ ops mt (fuel + 1) nodes s
      = andThen (recurseSide ops (DepthFirstRecursion_ ops mt fuel) nodes true
          (afterTest s nodes m')) fun s2 =>
        andThen (recurseSide ops (DepthFirstRecursion_ ops mt fuel) nodes false s2) fun s3 =>
        (s3.record (.leave nodes
          (.split (ops.CheckSymmetry nodes (ops.ind_to_split nodes) true)
                  (ops.CheckSymmetry nodes (ops.ind_to_split nodes) false))), .returned) :=
    hsplit
  refine ⟨?_, ?_, ?_, ?_⟩
  · rw [hmain]
    unfold recurseSide
    by_cases hL : ops.CheckSymmetry nodes (ops.ind_to_split nodes) true = true <;>
      by_cases hR : ops.CheckSymmetry nodes (ops.ind_to_split nodes) false = true <;>
      simp [hL, hR]
  · intro hL hR
    rw [hmain]
    simp [recurseSide, hL, hR, andThen, afterTest, GenericNptAlg.record]
  · intro hL hR
    rw [hmain]
    have hcmp := DepthFirstRecursion_sameButLog ops mt fuel (ops.child nodes true)
      (((afterTest s nodes m').record
        (.checkSymmetry nodes (ops.ind_to_split nodes) true true)).record
        (.construct nodes true)) (afterTest s nodes m')
      (SameButLog_trans (SameButLog_record _ _) (SameButLog_record _ _))
    simp only [recurseSide, hL, hR, if_true, if_false, Bool.false_eq_true]
    rcases hrun : DepthFirstRecursion_ ops mt fuel (ops.child nodes true)
        (((afterTest s nodes m').record
          (.checkSymmetry nodes (ops.ind_to_split nodes) true true)).record
          (.construct nodes true)) with ⟨s2, o2⟩
    rw [hrun] at hcmp
    cases o2 with
    | returned =>
      simp only [andThen]
      exact ⟨SameButLog_trans (SameButLog_trans (SameButLog_record _ _)
        (SameButLog_record _ _)) hcmp.1, hcmp.2⟩
    | fault f => exact hcmp
    | configError e => exact hcmp
    | outOfFuel => exact hcmp
  · intro hL hR
    rw [hmain]
    have hcmp := DepthFirstRecursion_sameButLog ops mt fuel (ops.child nodes false)
      ((((afterTest s nodes m').record
        (.checkSymmetry nodes (ops.ind_to_split nodes) true false)).record
        (.checkSymmetry nodes (ops.ind_to_split nodes) false true)).record
        (.construct nodes false)) (afterTest s nodes m')
      (SameButLog_trans (SameButLog_record _ _)
        (SameButLog_trans (SameButLog_record _ _) (SameButLog_record _ _)))
    simp only [recurseSide, hL, hR, if_true, if_false, Bool.false_eq_true, andThen]
    rcases hrun : DepthFirstRecursion_ ops mt fuel (ops.child nodes false)
        ((((afterTest s nodes m').record
          (.checkSymmetry nodes (ops.ind_to_split nodes) true false)).record
          (.checkSymmetry nodes (ops.ind_to_split nodes) false true)).record
          (.construct nodes false)) with ⟨s3, o3⟩
    rw [hrun] at hcmp
    cases o3 with
    | returned =>
      simp only [andThen]
      exact ⟨SameButLog_trans (SameButLog_record _ _) hcmp.1, hcmp.2⟩
    | fault f => exact hcmp
    | configError e => exact hcmp
    | outOfFuel => exact hcmp

/-- C14, witness: slot 0 at the leaf holding 11, slot 1 at the node holding 10
and 11, prune test accepting: the left side of slot 1 is refused, the right side
is visited, and the call ends with the one base case of the right side. -/
theorem symmetry_gates_sides_witness :
    (specOps NodeTuple.firstNonLeaf).all_leaves lopsidedTuple = false ∧
    (specOps NodeTuple.firstNonLeaf).CheckSymmetry lopsidedTuple
      ((specOps NodeTuple.firstNonLeaf).ind_to_split lopsidedTuple) true = false ∧
    (specOps NodeTuple.firstNonLeaf).CheckSymmetry lopsidedTuple
      ((specOps NodeTuple.firstNonLeaf).ind_to_split lopsidedTuple) false = true ∧
    (SameButLog
        (DepthFirstRecursion_ (specOps NodeTuple.firstNonLeaf)
          (countingMatcher Unit (within 1) fun _ => true) (1 + 1) lopsidedTuple
          (GenericNptAlg.fresh [(some splitTree, 2)] 0 false)).1
        (DepthFirstRecursion_ (specOps NodeTuple.firstNonLeaf)
          (countingMatcher Unit (within 1) fun _ => true) 1
          ((specOps NodeTuple.firstNonLeaf).child lopsidedTuple false)
          (afterTest (GenericNptAlg.fresh [(some splitTree, 2)] 0 false) lopsidedTuple 0)).1 ∧
      (DepthFirstRecursion_ (specOps NodeTuple.firstNonLeaf)
          (countingMatcher Unit (within 1) fun _ => true) (1 + 1) lopsidedTuple
          (GenericNptAlg.fresh [(some splitTree, 2)] 0 false)).2
        = (DepthFirstRecursion_ (specOps NodeTuple.firstNonLeaf)
          (countingMatcher Unit (within 1) fun _ => true) 1
          ((specOps NodeTuple.firstNonLeaf).child lopsidedTuple false)
          (afterTest (GenericNptAlg.fresh [(some splitTree, 2)] 0 false)
            lopsidedTuple 0)).2) ∧
    (DepthFirstRecursion_ (specOps NodeTuple.firstNonLeaf)
        (countingMatcher Unit (within 1) fun _ => true) (1 + 1) lopsidedTuple
        (GenericNptAlg.fresh [(some splitTree, 2)] 0 false)).1.num_base_cases_ = 1 :=
  ⟨by decide, by decide, by decide,
   (symmetry_gates_sides (specOps NodeTuple.firstNonLeaf)
      (countingMatcher Unit (within 1) fun _ => true) 1 lopsidedTuple
      (GenericNptAlg.fresh [(some splitTree, 2)] 0 false) 0 (by decide) rfl).2.2.2
      (by decide) (by decide),
   by decide⟩

/-! ## The guards hold at every matcher call and every child construction -/

theorem Guarded_mono (ops : NodeTupleOps Trees NT E) (l : List (Event NT))
    (seen seen' : List NT) (hsub : ∀ x ∈ seen, x ∈ seen') (h : Guarded ops seen l) :
    Guarded ops seen' l := by
  induction l generalizing seen seen' with
  | nil => trivial
  | cons e l ih =>
    cases e with
    | enter n => exact ih seen seen' hsub h
    | computeBaseCase t f => exact ⟨h.1, ih seen seen' hsub h.2⟩
    | testNodeTuple t a =>
      rcases a with _ | _ | _
      · exact ⟨h.1, ih seen seen' hsub h.2⟩
      · exact ⟨h.1, ih seen seen' hsub h.2⟩
      · refine ⟨h.1, ih (t :: seen) (t :: seen') ?_ h.2⟩
        intro x hx
        rcases List.mem_cons.1 hx with rfl | hx
        · exact List.mem_cons_self _ _
        · exact List.mem_cons_of_mem _ (hsub x hx)
    | checkSymmetry n i b a => exact ih seen seen' hsub h
    | construct p b => exact ⟨h.1, hsub p h.2.1, ih seen seen' hsub h.2.2⟩
    | leave n k => exact ih seen seen' hsub h

theorem Guarded_append (ops : NodeTupleOps Trees NT E) (a b : List (Event NT))
    (seen : List NT) (ha : Guarded ops seen a)
    (hb : ∀ seen', (∀ x ∈ seen, x ∈ seen') → Guarded ops seen' b) :
    Guarded ops seen (a ++ b) := by
  induction a generalizing seen with
  | nil => exact hb seen fun x hx => hx
  | cons e a ih =>
    cases e with
    | enter n => exact ih seen ha hb
    | computeBaseCase t f => exact ⟨ha.1, ih seen ha.2 hb⟩
    | testNodeTuple t ans =>
      rcases ans with _ | _ | _
      · exact ⟨ha.1, ih seen ha.2 hb⟩
      · exact ⟨ha.1, ih seen ha.2 hb⟩
      · exact ⟨ha.1, ih (t :: seen) ha.2 fun seen' hs =>
          hb seen' fun x hx => hs x (List.mem_cons_of_mem _ hx)⟩
    | checkSymmetry n i b' ans => exact ih seen ha hb
    | construct p b' => exact ⟨ha.1, ha.2.1, ih seen ha.2.2 hb⟩
    | leave n k => exact ih seen ha hb

theorem Guarded_baseCase (ops : NodeTupleOps Trees NT E) (l : List (Event NT))
    (seen : List NT) (h : Guarded ops seen l) (t : NT) (f : Bool)
    (hm : Event.computeBaseCase t f ∈ l) : ops.all_leaves t = true := by
  induction l generalizing seen with
  | nil => simp at hm
  | cons e l ih =>
    rcases List.mem_cons.1 hm with rfl | hm'
    · exact h.1
    · cases e with
      | enter n => exact ih seen h hm'
      | computeBaseCase t' f' => exact ih seen h.2 hm'
      | testNodeTuple t' a =>
        rcases a with _ | _ | _
        · exact ih seen h.2 hm'
        · exact ih seen h.2 hm'
        · exact ih _ h.2 hm'
      | checkSymmetry n i b a => exact ih seen h hm'
      | construct p b => exact ih seen h.2.2 hm'
      | leave n k => exact ih seen h hm'

theorem Guarded_test (ops : NodeTupleOps Trees NT E) (l : List (Event NT))
    (seen : List NT) (h : Guarded ops seen l) (t : NT) (a : Option Bool)
    (hm : Event.testNodeTuple t a ∈ l) : ops.all_leaves t = false := by
  induction l generalizing seen with
  | nil => simp at hm
  | cons e l ih =>
    rcases List.mem_cons.1 hm with rfl | hm'
    · rcases a with _ | _ | _ <;> exact h.1
    · cases e with
      | enter n => exact ih seen h hm'
      | computeBaseCase t' f' => exact ih seen h.2 hm'
      | testNodeTuple t' a' =>
        rcases a' with _ | _ | _
        · exact ih seen h.2 hm'
        · exact ih seen h.2 hm'
        · exact ih _ h.2 hm'
      | checkSymmetry n i b a' => exact ih seen h hm'
      | construct p b => exact ih seen h.2.2 hm'
      | leave n k => exact ih seen h hm'

theorem Guarded_construct (ops : NodeTupleOps Trees NT E) (before after : List (Event NT))
    (seen : List NT) (p : NT) (b : Bool)
    (h : Guarded ops seen (before ++ .construct p b :: after)) :
    ops.all_leaves p = false ∧ (p ∈ seen ∨ Event.testNodeTuple p (some true) ∈ before) := by
  induction before generalizing seen with
  | nil => exact ⟨h.1, Or.inl h.2.1⟩
  | cons e before ih =>
    have lift : ∀ seen', Guarded ops seen' (before ++ .construct p b :: after) →
        (∀ x ∈ seen', x ∈ seen ∨ e = .testNodeTuple x (some true)) →
        ops.all_leaves p = false ∧
          (p ∈ seen ∨ Event.testNodeTuple p (some true) ∈ e :: before) := by
      intro seen' hg hs
      obtain ⟨h1, h2⟩ := ih seen' hg
      refine ⟨h1, ?_⟩
      rcases h2 with h2 | h2
      · rcases hs p h2 with h3 | h3
        · exact Or.inl h3
        · exact Or.inr (by rw [h3]; exact List.mem_cons_self _ _)
      · exact Or.inr (List.mem_cons_of_mem _ h2)
    cases e with
    | enter n => exact lift seen h fun x hx => Or.inl hx
    | computeBaseCase t' f' => exact lift seen h.2 fun x hx => Or.inl hx
    | testNodeTuple t' a' =>
      rcases a' with _ | _ | _
      · exact lift seen h.2 fun x hx => Or.inl hx
      · exact lift seen h.2 fun x hx => Or.inl hx
      · refine lift (t' :: seen) h.2 fun x hx => ?_
        rcases List.mem_cons.1 hx with rfl | hx
        · exact Or.inr rfl
        · exact Or.inl hx
    | checkSymmetry n i b' a' => exact lift seen h fun x hx => Or.inl hx
    | construct p' b' => exact lift seen h.2.2 fun x hx => Or.inl hx
    | leave n k => exact lift seen h fun x hx => Or.inl hx

/-- What a traversal appends to the log passes the monitor, whatever was seen
before. -/
theorem DepthFirstRecursion_guarded (ops : NodeTupleOps Trees NT E) (mt : TMatcher NT M F)
    (fuel : Nat) (t : NT) (s : GenericNptAlg Trees NT M) :
    ∃ new, (DepthFirstRecursion_ ops mt fuel t s).1.log = s.log ++ new ∧
      ∀ seen, Guarded ops seen new := by
  induction fuel generalizing t s with
  | zero => exact ⟨[], by simp [DepthFirstRecursion_], fun _ => trivial⟩
  | succ fuel ih =>
    by_cases hl : ops.all_leaves t = true
    · cases hb : (mt.ComputeBaseCase t s.matcher_).2 with
      | none =>
        rw [DepthFirstRecursion_base ops mt fuel t s hl hb]
        exact ⟨_, rfl, fun _ => ⟨hl, trivial⟩⟩
      | some f =>
        rw [DepthFirstRecursion_base_fault ops mt fuel t s f hl hb]
        exact ⟨_, rfl, fun _ => ⟨hl, trivial⟩⟩
    · have hl' : ops.all_leaves t = false := by simpa using hl
      cases ht : (mt.TestNodeTuple t s.matcher_).2 with
      | error f =>
        rw [DepthFirstRecursion_test_fault ops mt fuel t s f hl' ht]
        exact ⟨_, rfl, fun _ => ⟨hl', trivial⟩⟩
      | ok b =>
        cases b with
        | false =>
          rw [DepthFirstRecursion_prune ops mt fuel t s hl' ht]
          exact ⟨_, rfl, fun _ => ⟨hl', trivial⟩⟩
        | true =>
          rw [DepthFirstRecursion_split ops mt fuel t s hl' ht]
          have side : ∀ (b : Bool) (s' : GenericNptAlg Trees NT M),
              ∃ n, (recurseSide ops (DepthFirstRecursion_ ops mt fuel) t b s').1.log
                  = s'.log ++ n ∧ ∀ seen, t ∈ seen → Guarded ops seen n := by
            intro b s'
            unfold recurseSide
            by_cases hsym : ops.CheckSymmetry t (ops.ind_to_split t) b = true
            · simp only [hsym, if_true]
              obtain ⟨n, hlog, hg⟩ := ih (ops.child t b)
                ((s'.record (.checkSymmetry t (ops.ind_to_split t) b true)).record
                  (.construct t b))
              refine ⟨.checkSymmetry t (ops.ind_to_split t) b true :: .construct t b :: n,
                ?_, fun seen hseen => ?_⟩
              · rw [hlog]; simp [GenericNptAlg.record]
              · exact ⟨hl', hseen, hg seen⟩
            · simp only [hsym, if_false, Bool.false_eq_true]
              exact ⟨[.checkSymmetry t (ops.ind_to_split t) b false],
                by simp [GenericNptAlg.record], fun _ _ => trivial⟩
          obtain ⟨n1, hlog1, hg1⟩ := side true
            { s with matcher_ := (mt.TestNodeTuple t s.matcher_).1,
                     log := s.log ++ [.enter t, .testNodeTuple t (some true)] }
          rcases hL : recurseSide ops (DepthFirstRecursion_ ops mt fuel) t true
              { s with matcher_ := (mt.TestNodeTuple t s.matcher_).1,
                       log := s.log ++ [.enter t, .testNodeTuple t (some true)] }
            with ⟨s2, o2⟩
          rw [hL] at hlog1
          simp only at hlog1
          have stop1 : ∀ seen, Guarded ops seen
              ([.enter t, .testNodeTuple t (some true)] ++ n1) :=
            fun seen => ⟨hl', hg1 (t :: seen) (List.mem_cons_self _ _)⟩
          cases o2 with
          | returned =>
            simp only [andThen]
            obtain ⟨n2, hlog2, hg2⟩ := side false s2
            rcases hR : recurseSide ops (DepthFirstRecursion_ ops mt fuel) t false s2
              with ⟨s3, o3⟩
            rw [hR] at hlog2
            simp only at hlog2
            have stop2 : ∀ tail : List (Event NT), (∀ seen, Guarded ops seen tail) →
                ∀ seen, Guarded ops seen
                  ([.enter t, .testNodeTuple t (some true)] ++ (n1 ++ (n2 ++ tail))) := by
              intro tail htail seen
              refine ⟨hl', ?_⟩
              refine Guarded_append ops n1 _ (t :: seen)
                (hg1 (t :: seen) (List.mem_cons_self _ _)) fun seen' hs => ?_
              exact Guarded_append ops n2 _ seen'
                (hg2 seen' (hs t (List.mem_cons_self _ _))) fun seen'' _ => htail seen''
            cases o3 with
            | returned =>
              refine ⟨[.enter t, .testNodeTuple t (some true)] ++ (n1 ++ (n2 ++
                [.leave t (.split (ops.CheckSymmetry t (ops.ind_to_split t) true)
                  (ops.CheckSymmetry t (ops.ind_to_split t) false))])), ?_,
                stop2 [.leave t (.split (ops.CheckSymmetry t (ops.ind_to_split t) true)
                  (ops.CheckSymmetry t (ops.ind_to_split t) false))] fun _ => trivial⟩
              simp [GenericNptAlg.record, hlog2, hlog1]
            | fault f =>
              exact ⟨[.enter t, .testNodeTuple t (some true)] ++ (n1 ++ (n2 ++ [])),
                by simp [hlog2, hlog1], stop2 [] fun _ => trivial⟩
            | configError e =>
              exact ⟨[.enter t, .testNodeTuple t (some true)] ++ (n1 ++ (n2 ++ [])),
                by simp [hlog2, hlog1], stop2 [] fun _ => trivial⟩
            | outOfFuel =>
              exact ⟨[.enter t, .testNodeTuple t (some true)] ++ (n1 ++ (n2 ++ [])),
                by simp [hlog2, hlog1], stop2 [] fun _ => trivial⟩
          | fault f =>
            exact ⟨_, by simp only [andThen, hlog1, List.append_assoc], stop1⟩
          | configError e =>
            exact ⟨_, by simp only [andThen, hlog1, List.append_assoc], stop1⟩
          | outOfFuel =>
            exact ⟨_, by simp only [andThen, hlog1, List.append_assoc], stop1⟩

/-- C15.  Throughout a recursive-mode `Compute` on a fresh engine, whatever the
input and however the run ends: every tuple handed to `ComputeBaseCase` has
`all_leaves` true; the prune test is asked only on tuples with `all_leaves`
false; every child tuple is constructed from a parent with `all_leaves` false on
which the prune test has answered true earlier in the run.  Hence a
precondition of the child constructor that holds on every tuple that is not
all-leaves (the split target is a non-leaf slot) holds at every construction. -/
theorem guards_hold_throughout (ops : NodeTupleOps Trees NT E) (mt : TMatcher NT M F)
    (fuel : Nat) (trees : Trees) (m : M) (precondition : NT → Prop)
    (hpre : ∀ t, ops.all_leaves t = false → precondition t) :
    (∀ t f, Event.computeBaseCase t f ∈
        (Compute ops mt fuel (GenericNptAlg.fresh trees m false)).1.log →
      ops.all_leaves t = true) ∧
    (∀ t a, Event.testNodeTuple t a ∈
        (Compute ops mt fuel (GenericNptAlg.fresh trees m false)).1.log →
      ops.all_leaves t = false) ∧
    (∀ before after p b,
      (Compute ops mt fuel (GenericNptAlg.fresh trees m false)).1.log
        = before ++ .construct p b :: after →
      ops.all_leaves p = false ∧ Event.testNodeTuple p (some true) ∈ before ∧
        precondition p) := by
  have hg : Guarded ops []
      (Compute ops mt fuel (GenericNptAlg.fresh trees m false)).1.log := by
    cases hc : ops.Construct trees with
    | error e =>
      have : Compute ops mt fuel (GenericNptAlg.fresh trees m false)
          = (GenericNptAlg.fresh trees m false, .configError e) := by
        simp [Compute, GenericNptAlg.fresh, hc]
      rw [this]
      trivial
    | ok root =>
      rw [Compute_recursive ops mt fuel (GenericNptAlg.fresh trees m false) root hc rfl]
      obtain ⟨new, hlog, hnew⟩ := DepthFirstRecursion_guarded ops mt fuel root
        (GenericNptAlg.fresh trees m false)
      rw [hlog]
      simpa [GenericNptAlg.fresh] using hnew []
  refine ⟨fun t f h => Guarded_baseCase ops _ [] hg t f h,
    fun t a h => Guarded_test ops _ [] hg t a h, fun before after p b h => ?_⟩
  rw [h] at hg
  obtain ⟨h1, h2⟩ := Guarded_construct ops before after [] p b hg
  rcases h2 with h2 | h2
  · simp at h2
  · exact ⟨h1, h2, hpre p h1⟩

/-- C15, witness: the tree with two far-apart halves filling two slots, the
lowest non-leaf slot as split target: the first child is constructed from the
root tuple, after the prune test accepted it, and its split slot is not a
leaf. -/
theorem guards_hold_throughout_witness :
    (∀ t : NodeTuple Nat, (specOps NodeTuple.firstNonLeaf).all_leaves t = false →
      ∃ sl, t.slots[NodeTuple.firstNonLeaf t]? = some sl ∧ sl.node.is_leaf = false) ∧
    ∀ before after p b,
      (Compute (specOps NodeTuple.firstNonLeaf)
          (countingMatcher Unit (within 1) (exactTest (within 1))) 5
          (GenericNptAlg.fresh [(some splitTree, 2)] 0 false)).1.log
        = before ++ .construct p b :: after →
      (specOps NodeTuple.firstNonLeaf).all_leaves p = false ∧
        Event.testNodeTuple p (some true) ∈ before ∧
        ∃ sl, p.slots[NodeTuple.firstNonLeaf p]? = some sl ∧ sl.node.is_leaf = false :=
  ⟨firstNonLeaf_splits,
   (guards_hold_throughout (specOps NodeTuple.firstNonLeaf)
      (countingMatcher Unit (within 1) (exactTest (within 1))) 5
      [(some splitTree, 2)] 0
      (fun t => ∃ sl, t.slots[NodeTuple.firstNonLeaf t]? = some sl ∧ sl.node.is_leaf = false)
      firstNonLeaf_splits).2.2⟩

/-! ## Termination on finite trees -/

/-- With a split-target rule that never selects a leaf, a traversal whose depth
allowance exceeds the tuple's height sum ends by returning or by a matcher
fault, never for lack of depth. -/
theorem DepthFirstRecursion_terminates (st : NodeTuple P → Nat)
    (sym : NodeTuple P → Nat → Bool → Bool) (mt : TMatcher (NodeTuple P) M F)
    (hst : SplitsNonLeaf st) (fuel : Nat) (t : NodeTuple P)
    (s : GenericNptAlg (List (Option (NptNode P) × Nat)) (NodeTuple P) M)
    (hfuel : t.heightSum < fuel) :
    (DepthFirstRecursion_ (treeOps st sym) mt fuel t s).2 = .returned ∨
      ∃ f, (DepthFirstRecursion_ (treeOps st sym) mt fuel t s).2 = .fault f := by
  induction fuel generalizing t s with
  | zero => omega
  | succ fuel ih =>
    by_cases hl : t.all_leaves = true
    · cases hb : (mt.ComputeBaseCase t s.matcher_).2 with
      | none =>
        rw [DepthFirstRecursion_base (treeOps st sym) mt fuel t s hl hb]
        exact Or.inl rfl
      | some f =>
        rw [DepthFirstRecursion_base_fault (treeOps st sym) mt fuel t s f hl hb]
        exact Or.inr ⟨f, rfl⟩
    · have hl' : t.all_leaves = false := by simpa using hl
      cases ht : (mt.TestNodeTuple t s.matcher_).2 with
      | error f =>
        rw [DepthFirstRecursion_test_fault (treeOps st sym) mt fuel t s f hl' ht]
        exact Or.inr ⟨f, rfl⟩
      | ok b =>
        cases b with
        | false =>
          rw [DepthFirstRecursion_prune (treeOps st sym) mt fuel t s hl' ht]
          exact Or.inl rfl
        | true =>
          rw [DepthFirstRecursion_split (treeOps st sym) mt fuel t s hl' ht]
          obtain ⟨sl, hget, hleaf⟩ := hst t hl'
          have side : ∀ (b : Bool)
              (s' : GenericNptAlg (List (Option (NptNode P) × Nat)) (NodeTuple P) M),
              (recurseSide (treeOps st sym)
                  (DepthFirstRecursion_ (treeOps st sym) mt fuel) t b s').2 = .returned ∨
                ∃ f, (recurseSide (treeOps st sym)
                  (DepthFirstRecursion_ (treeOps st sym) mt fuel) t b s').2 = .fault f := by
            intro b s'
            unfold recurseSide
            split
            · have hlt := heightSum_child_lt t (st t) b sl hget hleaf
              exact ih (t.child (st t) b) _ (by omega)
            · exact Or.inl rfl
          rcases hL : recurseSide (treeOps st sym)
              (DepthFirstRecursion_ (treeOps st sym) mt fuel) t true
              { s with matcher_ := (mt.TestNodeTuple t s.matcher_).1,
                       log := s.log ++ [.enter t, .testNodeTuple t (some true)] }
            with ⟨s2, o2⟩
          have h1 := side true
            { s with matcher_ := (mt.TestNodeTuple t s.matcher_).1,
                     log := s.log ++ [.enter t, .testNodeTuple t (some true)] }
          rw [hL] at h1
          cases o2 with
          | returned =>
            simp only [andThen]
            rcases hR : recurseSide (treeOps st sym)
                (DepthFirstRecursion_ (treeOps st sym) mt fuel) t false s2 with ⟨s3, o3⟩
            have h2 := side false s2
            rw [hR] at h2
            cases o3 with
            | returned => exact Or.inl rfl
            | fault f => exact Or.inr ⟨f, rfl⟩
            | configError e => simp at h2
            | outOfFuel => simp at h2
          | fault f => exact Or.inr ⟨f, rfl⟩
          | configError e => simp at h1
          | outOfFuel => simp at h1

/-- A run of a matcher that never faults does not end with a fault. -/
theorem Compute_no_fault (ops : NodeTupleOps Trees NT E) (mt : TMatcher NT M F)
    (hnf : NeverFaults mt) (fuel : Nat) (s : GenericNptAlg Trees NT M) (f : F) :
    (Compute ops mt fuel s).2 ≠ .fault f := by
  intro hf
  cases hc : ops.Construct s.trees_ with
  | error e => simp [Compute, hc] at hf
  | ok root =>
    by_cases hn : s.do_naive_ = true
    · rw [Compute_naive ops mt fuel s root hc hn] at hf
      simp [(hnf root s.matcher_).1] at hf
    · rw [Compute_recursive ops mt fuel s root hc (by simpa using hn)] at hf
      obtain ⟨new, _, hlast⟩ := DepthFirstRecursion_faultLast ops mt fuel root s
      unfold FaultLast at hlast
      rw [hf] at hlast
      obtain ⟨_, e, _, _, t, m, h | h⟩ := hlast
      · have := (hnf t m).1
        rw [h.2] at this
        cases this
      · exact (hnf t m).2 f (by rw [h.2])

/-- C16.  On finite trees, with child tuples that are the parent with the
split-target slot moved to one of its node's two children and a split target
that is never a leaf slot, whatever the symmetry check and the matcher: each
recursive call is made on a tuple whose slot heights sum to strictly less;
`DepthFirstRecursion_` on any tuple, given a depth allowance above the tuple's
height sum, ends by returning or with a matcher fault, never for lack of depth;
so does `Compute` with an allowance above the root tuple's height sum, and it
returns when no matcher call faults. -/
theorem compute_terminates (st : NodeTuple P → Nat) (sym : NodeTuple P → Nat → Bool → Bool)
    (mt : TMatcher (NodeTuple P) M F) (hst : SplitsNonLeaf st) (fuel : Nat) :
    (∀ (t : NodeTuple P) (b : Bool), t.all_leaves = false →
      ((treeOps st sym).child t b).heightSum < t.heightSum) ∧
    (∀ (t : NodeTuple P)
        (s : GenericNptAlg (List (Option (NptNode P) × Nat)) (NodeTuple P) M),
      t.heightSum < fuel →
      (DepthFirstRecursion_ (treeOps st sym) mt fuel t s).2 = .returned ∨
        ∃ f, (DepthFirstRecursion_ (treeOps st sym) mt fuel t s).2 = .fault f) ∧
    (∀ (s : GenericNptAlg (List (Option (NptNode P) × Nat)) (NodeTuple P) M)
        (root : NodeTuple P),
      NodeTuple.Construct s.trees_ = .ok root → root.heightSum < fuel →
      ((Compute (treeOps st sym) mt fuel s).2 = .returned ∨
        ∃ f, (Compute (treeOps st sym) mt fuel s).2 = .fault f) ∧
      (NeverFaults mt → (Compute (treeOps st sym) mt fuel s).2 = .returned)) := by
  refine ⟨fun t b hl => ?_,
    fun t s hfuel => DepthFirstRecursion_terminates st sym mt hst fuel t s hfuel,
    fun s root hroot hfuel => ?_⟩
  · obtain ⟨sl, hget, hleaf⟩ := hst t hl
    exact heightSum_child_lt t (st t) b sl hget hleaf
  · have hrun : (Compute (treeOps st sym) mt fuel s).2 = .returned ∨
        ∃ f, (Compute (treeOps st sym) mt fuel s).2 = .fault f := by
      by_cases hn : s.do_naive_ = true
      · rw [Compute_naive (treeOps st sym) mt fuel s root hroot hn]
        cases (mt.ComputeBaseCase root s.matcher_).2 with
        | none => exact Or.inl rfl
        | some f => exact Or.inr ⟨f, rfl⟩
      · rw [Compute_recursive (treeOps st sym) mt fuel s root hroot (by simpa using hn)]
        exact DepthFirstRecursion_terminates st sym mt hst fuel root s hfuel
    refine ⟨hrun, fun hnf => ?_⟩
    rcases hrun with h | ⟨f, h⟩
    · exact h
    · exact absurd h (Compute_no_fault (treeOps st sym) mt hnf fuel s f)

/-- C16, witness: the tree with two far-apart halves filling two slots, height
sum 4, depth allowance 5, every symmetry check answering true. -/
theorem compute_terminates_witness :
    SplitsNonLeaf (NodeTuple.firstNonLeaf : NodeTuple Nat → Nat) ∧
    (⟨[⟨0, [], 0, splitTree⟩, ⟨0, [], 0, splitTree⟩]⟩ : NodeTuple Nat).heightSum < 5 ∧
    (Compute (treeOps NodeTuple.firstNonLeaf fun _ _ _ => true)
        (countingMatcher Unit (within 1) (exactTest (within 1))) 5
        (GenericNptAlg.fresh [(some splitTree, 2)] 0 false)).2 = .returned :=
  ⟨firstNonLeaf_splits, by decide,
   ((compute_terminates NodeTuple.firstNonLeaf (fun _ _ _ => true)
      (countingMatcher Unit (within 1) (exactTest (within 1))) firstNonLeaf_splits 5).2.2
      (GenericNptAlg.fresh [(some splitTree, 2)] 0 false)
      ⟨[⟨0, [], 0, splitTree⟩, ⟨0, [], 0, splitTree⟩]⟩ rfl (by decide)).2
      (fun t m => ⟨rfl, fun f h => by cases h⟩)⟩

/-! ## Without symmetry constraint and without pruning: every leaf combination once -/

theorem leaves_child (sl : Slot P) (h : sl.node.is_leaf = false) :
    sl.leaves = (sl.child true).leaves ++ (sl.child false).leaves := by
  rcases sl with ⟨tree, path, b, node⟩
  cases node with
  | leaf ps => simp [NptNode.is_leaf] at h
  | inner l r => simp [Slot.leaves, Slot.child, leavesOf]

theorem leaves_leaf (sl : Slot P) (h : sl.node.is_leaf = true) : sl.leaves = [sl] := by
  rcases sl with ⟨tree, path, b, node⟩
  cases node with
  | leaf ps => simp [Slot.leaves, leavesOf]
  | inner l r => simp [NptNode.is_leaf] at h

theorem leavesOf_length (tree : Nat) (path : List Bool) (first : Nat) (n : NptNode P) :
    (leavesOf tree path first n).length = n.numLeaves := by
  induction n generalizing path first with
  | leaf ps => simp [leavesOf, NptNode.numLeaves]
  | inner l r ihl ihr => simp [leavesOf, NptNode.numLeaves, ihl, ihr]

theorem leavesOf_prefix (tree : Nat) (path : List Bool) (first : Nat) (n : NptNode P)
    (x : Slot P) (hx : x ∈ leavesOf tree path first n) : path <+: x.path := by
  induction n generalizing path first with
  | leaf ps =>
    simp only [leavesOf, List.mem_singleton] at hx
    rw [hx]
  | inner l r ihl ihr =>
    simp only [leavesOf, List.mem_append] at hx
    rcases hx with hx | hx
    · exact (List.prefix_append _ _).trans (ihl _ _ hx)
    · exact (List.prefix_append _ _).trans (ihr _ _ hx)

theorem leavesOf_nodup (tree : Nat) (path : List Bool) (first : Nat) (n : NptNode P) :
    (leavesOf tree path first n).Nodup := by
  induction n generalizing path first with
  | leaf ps => simp [leavesOf]
  | inner l r ihl ihr =>
    simp only [leavesOf]
    rw [List.nodup_append]
    refine ⟨ihl _ _, ihr _ _, ?_⟩
    intro x hxl hxr
    have p1 := leavesOf_prefix _ _ _ _ x hxl
    have p2 := leavesOf_prefix _ _ _ _ x hxr
    have p3 := List.prefix_of_prefix_length_le p1 p2 (by simp)
    have p4 := p3.eq_of_length (by simp)
    have := List.append_cancel_left p4
    simp at this

theorem tuples_length {α : Type} (L : List (List α)) :
    (tuples L).length = (L.map List.length).prod := by
  induction L with
  | nil => simp [tuples]
  | cons l L ih =>
    simp only [tuples, List.map_cons, List.prod_cons, List.length_flatMap, List.length_map, ih]
    have : (List.length ∘ fun a : α => List.map (fun c => a :: c) (tuples L))
        = fun _ => (List.map List.length L).prod := by
      funext a
      simp [ih]
    rw [this, List.map_const', List.sum_replicate, smul_eq_mul]

theorem tuples_singletons {α : Type} (l : List α) :
    tuples (l.map fun a => [a]) = [l] := by
  induction l with
  | nil => simp [tuples]
  | cons a l ih => simp [tuples, ih]

theorem leafTuples_all_leaves (t : NodeTuple P) (h : t.all_leaves = true) :
    t.leafTuples = [t] := by
  simp only [NodeTuple.all_leaves, List.all_eq_true] at h
  have : t.slots.map Slot.leaves = t.slots.map fun a => [a] :=
    List.map_congr_left fun sl hsl => leaves_leaf sl (h sl hsl)
  simp [NodeTuple.leafTuples, this, tuples_singletons]

theorem leafTuples_split (t : NodeTuple P) (i : Nat) (sl : Slot P)
    (hget : t.slots[i]? = some sl) (hleaf : sl.node.is_leaf = false) :
    List.Perm t.leafTuples ((t.child i true).leafTuples ++ (t.child i false).leafTuples) := by
  have hs := getElem?_split t.slots i sl hget
  have hperm := tuples_split_perm ((t.slots.take i).map Slot.leaves) (sl.child true).leaves
    (sl.child false).leaves ((t.slots.drop (i + 1)).map Slot.leaves)
  rw [← leaves_child sl hleaf] at hperm
  have e0 : tuples (t.slots.map Slot.leaves)
      = tuples ((t.slots.take i).map Slot.leaves ++ sl.leaves
          :: (t.slots.drop (i + 1)).map Slot.leaves) := by
    conv_lhs => rw [hs]
    simp
  have e1 : ∀ b, tuples ((t.child i b).slots.map Slot.leaves)
      = tuples ((t.slots.take i).map Slot.leaves ++ (sl.child b).leaves
          :: (t.slots.drop (i + 1)).map Slot.leaves) := by
    intro b
    simp [NodeTuple.child, childAt_eq t.slots i b sl hget]
  simp only [NodeTuple.leafTuples, e0, e1, ← List.map_append]
  exact hperm.map _

theorem leafTuples_nodup (t : NodeTuple P) : t.leafTuples.Nodup := by
  refine List.Nodup.map (fun a b h => NodeTuple.mk.inj h) ?_
  apply tuples_nodup
  intro l hl
  obtain ⟨sl, _, rfl⟩ := List.mem_map.1 hl
  exact leavesOf_nodup _ _ _ _

theorem leafTuples_length (t : NodeTuple P) :
    t.leafTuples.length = (t.slots.map fun sl => sl.node.numLeaves).prod := by
  simp only [NodeTuple.leafTuples, List.length_map, tuples_length, List.map_map]
  congr 1
  apply List.map_congr_left
  intro sl _
  exact leavesOf_length _ _ _ _

/-- With every symmetry check true, a prune test that never rejects and a base
case that never faults, the traversal of a tuple returns, counts no prune, and
runs the base case on the tuple's leaf combinations, each once. -/
theorem DepthFirstRecursion_all_leaf_tuples (st : NodeTuple P → Nat)
    (mt : TMatcher (NodeTuple P) M F) (hst : SplitsNonLeaf st)
    (htest : ∀ t m, (mt.TestNodeTuple t m).2 = .ok true)
    (hbase : ∀ t m, (mt.ComputeBaseCase t m).2 = none)
    (fuel : Nat) (t : NodeTuple P)
    (s : GenericNptAlg (List (Option (NptNode P) × Nat)) (NodeTuple P) M)
    (hfuel : t.heightSum < fuel) :
    (DepthFirstRecursion_ (treeOps st fun _ _ _ => true) mt fuel t s).2 = .returned ∧
    (DepthFirstRecursion_ (treeOps st fun _ _ _ => true) mt fuel t s).1.num_prunes_
      = s.num_prunes_ ∧
    (DepthFirstRecursion_ (treeOps st fun _ _ _ => true) mt fuel t s).1.num_base_cases_
      = s.num_base_cases_ + t.leafTuples.length ∧
    ∃ new,
      (DepthFirstRecursion_ (treeOps st fun _ _ _ => true) mt fuel t s).1.log = s.log ++ new ∧
      List.Perm (baseCaseTuples new) t.leafTuples := by
  induction fuel generalizing t s with
  | zero => omega
  | succ fuel ih =>
    by_cases hl : t.all_leaves = true
    · rw [DepthFirstRecursion_base (treeOps st fun _ _ _ => true) mt fuel t s hl
        (hbase t s.matcher_), leafTuples_all_leaves t hl]
      exact ⟨rfl, rfl, rfl, _, rfl, by simp [baseCaseTuples]⟩
    · have hl' : t.all_leaves = false := by simpa using hl
      rw [DepthFirstRecursion_split (treeOps st fun _ _ _ => true) mt fuel t s hl'
        (htest t s.matcher_)]
      obtain ⟨sl, hget, hleaf⟩ := hst t hl'
      have side : ∀ (b : Bool)
          (s' : GenericNptAlg (List (Option (NptNode P) × Nat)) (NodeTuple P) M),
          (recurseSide (treeOps st fun _ _ _ => true)
              (DepthFirstRecursion_ (treeOps st fun _ _ _ => true) mt fuel) t b s').2
            = .returned ∧
          (recurseSide (treeOps st fun _ _ _ => true)
              (DepthFirstRecursion_ (treeOps st fun _ _ _ => true) mt fuel) t b s').1.num_prunes_
            = s'.num_prunes_ ∧
          (recurseSide (treeOps st fun _ _ _ => true)
              (DepthFirstRecursion_ (treeOps st fun _ _ _ => true) mt fuel) t b
              s').1.num_base_cases_
            = s'.num_base_cases_ + (t.child (st t) b).leafTuples.length ∧
          ∃ n, (recurseSide (treeOps st fun _ _ _ => true)
              (DepthFirstRecursion_ (treeOps st fun _ _ _ => true) mt fuel) t b s').1.log
              = s'.log ++ n ∧
            List.Perm (baseCaseTuples n) (t.child (st t) b).leafTuples := by
        intro b s'
        have hlt := heightSum_child_lt t (st t) b sl hget hleaf
        obtain ⟨h1, h2, h3, n, h4, h5⟩ := ih (t.child (st t) b)
          ((s'.record (.checkSymmetry t (st t) b true)).record (.construct t b)) (by omega)
        have hrs : recurseSide (treeOps st fun _ _ _ => true)
            (DepthFirstRecursion_ (treeOps st fun _ _ _ => true) mt fuel) t b s'
            = DepthFirstRecursion_ (treeOps st fun _ _ _ => true) mt fuel (t.child (st t) b)
              ((s'.record (.checkSymmetry t (st t) b true)).record (.construct t b)) := by
          simp [recurseSide, treeOps]
        rw [hrs]
        refine ⟨h1, h2, h3, [.checkSymmetry t (st t) b true, .construct t b] ++ n, ?_, ?_⟩
        · rw [h4]; simp [GenericNptAlg.record]
        · rw [baseCaseTuples_append]
          simpa [baseCaseTuples] using h5
      obtain ⟨a1, a2, a3, n1, a4, a5⟩ := side true
        { s with matcher_ := (mt.TestNodeTuple t s.matcher_).1,
                 log := s.log ++ [.enter t, .testNodeTuple t (some true)] }
      rcases hL : recurseSide (treeOps st fun _ _ _ => true)
          (DepthFirstRecursion_ (treeOps st fun _ _ _ => true) mt fuel) t true
          { s with matcher_ := (mt.TestNodeTuple t s.matcher_).1,
                   log := s.log ++ [.enter t, .testNodeTuple t (some true)] }
        with ⟨s2, o2⟩
      rw [hL] at a1 a2 a3 a4
      simp only at a1 a2 a3 a4
      subst a1
      simp only [andThen]
      obtain ⟨b1, b2, b3, n2, b4, b5⟩ := side false s2
      rcases hR : recurseSide (treeOps st fun _ _ _ => true)
          (DepthFirstRecursion_ (treeOps st fun _ _ _ => true) mt fuel) t false s2
        with ⟨s3, o3⟩
      rw [hR] at b1 b2 b3 b4
      simp only at b1 b2 b3 b4
      subst b1
      simp only [andThen, GenericNptAlg.record]
      have hperm := leafTuples_split t (st t) sl hget hleaf
      refine ⟨trivial, by rw [b2, a2], ?_, ?_⟩
      · rw [b3, a3, hperm.length_eq, List.length_append]
        omega
      · refine ⟨[.enter t, .testNodeTuple t (some true)] ++ n1 ++ n2 ++
          [.leave t (.split true true)], ?_, ?_⟩
        · simp [b4, a4, treeOps]
        · rw [baseCaseTuples_append, baseCaseTuples_append, baseCaseTuples_append]
          have e1 : baseCaseTuples
              ([.enter t, .testNodeTuple t (some true)] : List (Event (NodeTuple P))) = [] := rfl
          have e2 : baseCaseTuples
              ([.leave t (.split true true)] : List (Event (NodeTuple P))) = [] := rfl
          rw [e1, e2, List.nil_append, List.append_nil]
          exact (a5.append b5).trans hperm.symm

/-- C17.  With every symmetry check answering true, a prune test that never
rejects, a matcher that does not fault, child tuples that are the parent with
the split-target slot moved to its node's left or right child, and a split
target that is never a leaf slot: recursive-mode `Compute` on a fresh engine
returns, having run the base case exactly once on each combination of one leaf
per slot taken from below the slots' roots and on no other tuple;
`num_base_cases_` ends as the product over the slots of the number of leaves of
the slot's tree and `num_prunes_` ends 0. -/
theorem unconstrained_visits_every_leaf_tuple (st : NodeTuple P → Nat)
    (mt : TMatcher (NodeTuple P) M F) (hst : SplitsNonLeaf st)
    (htest : ∀ t m, (mt.TestNodeTuple t m).2 = .ok true)
    (hbase : ∀ t m, (mt.ComputeBaseCase t m).2 = none)
    (config : List (Option (NptNode P) × Nat)) (m : M) (fuel : Nat) (root : NodeTuple P)
    (hroot : NodeTuple.Construct config = .ok root) (hfuel : root.heightSum < fuel) :
    (Compute (treeOps st fun _ _ _ => true) mt fuel
        (GenericNptAlg.fresh config m false)).2 = .returned ∧
    List.Perm
      (baseCaseTuples (Compute (treeOps st fun _ _ _ => true) mt fuel
        (GenericNptAlg.fresh config m false)).1.log)
      root.leafTuples ∧
    root.leafTuples.Nodup ∧
    (Compute (treeOps st fun _ _ _ => true) mt fuel
        (GenericNptAlg.fresh config m false)).1.num_base_cases_
      = (root.slots.map fun sl => sl.node.numLeaves).prod ∧
    (Compute (treeOps st fun _ _ _ => true) mt fuel
        (GenericNptAlg.fresh config m false)).1.num_prunes_ = 0 := by
  rw [Compute_recursive (treeOps st fun _ _ _ => true) mt fuel
    (GenericNptAlg.fresh config m false) root hroot rfl]
  obtain ⟨h1, h2, h3, new, h4, h5⟩ := DepthFirstRecursion_all_leaf_tuples st mt hst htest
    hbase fuel root (GenericNptAlg.fresh config m false) hfuel
  refine ⟨h1, ?_, leafTuples_nodup root, ?_, ?_⟩
  · rw [h4]
    simpa [GenericNptAlg.fresh] using h5
  · rw [h3, leafTuples_length]
    simp [GenericNptAlg.fresh]
  · rw [h2]
    rfl

/-- C17, witness: the sample tree (3 leaves) and the tree with two far-apart
halves (4 leaves), one slot each, a prune test that accepts everything: 12 base
cases and no prune. -/
theorem unconstrained_visits_every_leaf_tuple_witness :
    SplitsNonLeaf (NodeTuple.firstNonLeaf : NodeTuple Nat → Nat) ∧
    NodeTuple.Construct [(some sampleTree, 1), (some splitTree, 1)]
      = .ok ⟨[⟨0, [], 0, sampleTree⟩, ⟨1, [], 0, splitTree⟩]⟩ ∧
    (Compute (treeOps NodeTuple.firstNonLeaf fun _ _ _ => true)
        (countingMatcher Unit (within 1) fun _ => true) 6
        (GenericNptAlg.fresh [(some sampleTree, 1), (some splitTree, 1)] 0 false)).1.num_base_cases_
      = ((⟨[⟨0, [], 0, sampleTree⟩, ⟨1, [], 0, splitTree⟩]⟩ : NodeTuple Nat).slots.map
          fun sl => sl.node.numLeaves).prod ∧
    ((⟨[⟨0, [], 0, sampleTree⟩, ⟨1, [], 0, splitTree⟩]⟩ : NodeTuple Nat).slots.map
        fun sl => sl.node.numLeaves).prod = 12 :=
  ⟨firstNonLeaf_splits, rfl,
   (unconstrained_visits_every_leaf_tuple NodeTuple.firstNonLeaf
      (countingMatcher Unit (within 1) fun _ => true) firstNonLeaf_splits
      (fun _ _ => rfl) (fun _ _ => rfl)
      [(some sampleTree, 1), (some splitTree, 1)] 0 6
      ⟨[⟨0, [], 0, sampleTree⟩, ⟨1, [], 0, splitTree⟩]⟩ rfl (by decide)).2.2.2.1,
   by decide⟩

end npt
